import Mathlib

/-!
# tlRender timeline player: looping, seeking, overrun handling and caches

A shallow embedding of the time arithmetic of `tl::timeline::Player`
(`lib/tlTimeline/Player.cpp`, `lib/tlTimeline/PlayerPrivate.cpp`), of its
caches, background thread and audio callback, and of the text form of
`image::Size` (`lib/tlCore/Image.cpp`).

Times are `opentime::RationalTime` values, a pair `(value, rate)` of C++
doubles.  The embedding keeps the pair and the rescaling rules of the
opentime operators, and takes both components in `ℚ`: the arithmetic is
exact, rounding of IEEE doubles is not modelled.  opentime is a library the
repository depends on; its operators are transcribed here as they are
documented there.  The helpers of the repository that the player calls but
that are not among the sources (`timeline::loop`, `time::floor`,
`observer::Value::setIfChanged` and others) are modelled from the
specification and the assertions of `PlayerTest`, and are marked as such.
-/

namespace tl

/-! ## opentime::RationalTime -/

/-- A point in time: `value` frames at `rate` frames per second. -/
structure RationalTime where
  value : ℚ
  rate : ℚ
deriving DecidableEq

namespace RationalTime

/-- The opentime `value_rescaled_to(double)`: the value at another rate. -/
def value_rescaled_to (t : RationalTime) (new_rate : ℚ) : ℚ :=
  if new_rate = t.rate then t.value else t.value * new_rate / t.rate

/-- The opentime `rescaled_to(double)`. -/
def rescaled_to (t : RationalTime) (new_rate : ℚ) : RationalTime :=
  ⟨t.value_rescaled_to new_rate, new_rate⟩

/-- The opentime `operator+`: the sum is taken at the larger of the two rates. -/
def add (a b : RationalTime) : RationalTime :=
  if a.rate < b.rate then ⟨a.value_rescaled_to b.rate + b.value, b.rate⟩
  else ⟨b.value_rescaled_to a.rate + a.value, a.rate⟩

/-- The opentime binary `operator-`: the difference is taken at the larger rate. -/
def sub (a b : RationalTime) : RationalTime :=
  if a.rate < b.rate then ⟨a.value_rescaled_to b.rate - b.value, b.rate⟩
  else ⟨a.value - b.value_rescaled_to a.rate, a.rate⟩

/-- The opentime `operator>`: comparison of the two times in seconds. -/
def gt (a b : RationalTime) : Prop := a.value / a.rate > b.value / b.rate

/-- The opentime `operator>=`. -/
def ge (a b : RationalTime) : Prop := a.value / a.rate ≥ b.value / b.rate

/-- The opentime `operator<`, written there as `!(lhs >= rhs)`. -/
def lt (a b : RationalTime) : Prop := ¬ ge a b

/-- The opentime `operator<=`, written there as `!(lhs > rhs)`. -/
def le (a b : RationalTime) : Prop := ¬ gt a b

/-- The opentime `operator==`: the left value rescaled to the right rate. -/
def eq (a b : RationalTime) : Prop := a.value_rescaled_to b.rate = b.value

instance (a b : RationalTime) : Decidable (gt a b) := inferInstanceAs (Decidable (_ > _))
instance (a b : RationalTime) : Decidable (ge a b) := inferInstanceAs (Decidable (_ ≥ _))
instance (a b : RationalTime) : Decidable (lt a b) := inferInstanceAs (Decidable (¬ _))
instance (a b : RationalTime) : Decidable (le a b) := inferInstanceAs (Decidable (¬ _))
instance (a b : RationalTime) : Decidable (eq a b) := inferInstanceAs (Decidable (_ = _))

/-- The opentime `floor()`: the value rounded down to a whole frame. -/
def floor (t : RationalTime) : RationalTime := ⟨(⌊t.value⌋ : ℤ), t.rate⟩

/-- The opentime `duration_from_start_end_time_inclusive`. -/
def duration_from_start_end_time_inclusive (start_time end_time_inclusive : RationalTime) :
    RationalTime :=
  if start_time.rate = end_time_inclusive.rate then
    ⟨end_time_inclusive.value - start_time.value + 1, start_time.rate⟩
  else
    ⟨end_time_inclusive.value_rescaled_to start_time.rate - start_time.value + 1,
      start_time.rate⟩

/-- The opentime `to_seconds()`. -/
def to_seconds (t : RationalTime) : ℚ := t.value / t.rate

/-- A valid time has a positive rate (the negation of opentime's
`is_invalid_time()`). -/
def valid (t : RationalTime) : Prop := 0 < t.rate

instance (t : RationalTime) : Decidable t.valid := inferInstanceAs (Decidable (_ < _))

end RationalTime

/-! ## opentime::TimeRange -/

/-- A time range: a start time and a duration, half-open at the end. -/
structure TimeRange where
  start_time : RationalTime
  duration : RationalTime
deriving DecidableEq

namespace TimeRange

/-- The opentime `end_time_exclusive()`. -/
def end_time_exclusive (r : TimeRange) : RationalTime :=
  r.duration.add (r.start_time.rescaled_to r.duration.rate)

/-- The opentime `end_time_inclusive()`: the last frame of the range, and the
start time itself when the range is no longer than one frame. -/
def end_time_inclusive (r : TimeRange) : RationalTime :=
  let et := r.end_time_exclusive
  if (et.sub (r.start_time.rescaled_to r.duration.rate)).value > 1 then
    if r.duration.value ≠ (⌊r.duration.value⌋ : ℤ) then et.floor
    else et.sub ⟨1, r.duration.rate⟩
  else r.start_time

/-- The opentime `range_from_start_end_time_inclusive`. -/
def range_from_start_end_time_inclusive (start_time end_time_inclusive : RationalTime) :
    TimeRange :=
  ⟨start_time,
    RationalTime.duration_from_start_end_time_inclusive start_time end_time_inclusive⟩

/-- The opentime `contains(RationalTime)`: the time lies in the half-open range. -/
def contains (r : TimeRange) (t : RationalTime) : Prop :=
  r.start_time.le t ∧ t.lt r.end_time_exclusive

/-- A valid time range has a valid start time and a valid duration
(`time::isValid(TimeRange)`). -/
def valid (r : TimeRange) : Prop := r.start_time.valid ∧ r.duration.valid

/-- The range `i` lies inside the range `r`: it starts no earlier and ends no
later, both ranges taken half-open. -/
def inside (i r : TimeRange) : Prop :=
  r.start_time.le i.start_time ∧ i.end_time_exclusive.le r.end_time_exclusive

/-- The ranges `i` and `j` are disjoint: one ends before the other starts, both
ranges taken half-open. -/
def disjoint (i j : TimeRange) : Prop :=
  i.end_time_exclusive.le j.start_time ∨ j.end_time_exclusive.le i.start_time

instance (r : TimeRange) (t : RationalTime) : Decidable (r.contains t) :=
  inferInstanceAs (Decidable (_ ∧ _))
instance (r : TimeRange) : Decidable r.valid := inferInstanceAs (Decidable (_ ∧ _))
instance (i r : TimeRange) : Decidable (i.inside r) := inferInstanceAs (Decidable (_ ∧ _))
instance (i j : TimeRange) : Decidable (i.disjoint j) := inferInstanceAs (Decidable (_ ∨ _))

end TimeRange

/-! ## tl::time and tl::timeline helpers -/

namespace time

/-- Modelled from the spec: `time::floor` of `tlCore/Time.h` is not among the
sources.  The spec has a time "floored to the timeline's frame rate": the
value is rounded down to a whole frame, the rate is kept. -/
def floor (t : RationalTime) : RationalTime := ⟨(⌊t.value⌋ : ℤ), t.rate⟩

end time

namespace timeline

/-- Modelled from the spec: `timeline::loop(RationalTime, TimeRange, bool*)` of
`tlTimeline/Util.cpp` is not among the sources.  A time before the start of
the range wraps to its inclusive end, a time after the inclusive end wraps to
its start, and any other time is returned as it is; the flag tells whether
the time wrapped.  The values are those `PlayerTest::_loop` and
`PlayerTest::_player` assert: in `[0/24, 24 frames)` the time `24/24` gives
`0/24` and `-1/24` gives `23/24`, and in `[10/24, 48 frames)` a step of 100
frames from `21/24` gives `10/24`. -/
def loopFlag (value : RationalTime) (range : TimeRange) : RationalTime × Bool :=
  if value.lt range.start_time then (range.end_time_inclusive, true)
  else if value.gt range.end_time_inclusive then (range.start_time, true)
  else (value, false)

/-- The looped time alone: `timeline::loop(value, range)` with a null flag. -/
def loop (value : RationalTime) (range : TimeRange) : RationalTime :=
  (loopFlag value range).1

/-- Modelled from the spec: `timeline::loop(TimeRange, TimeRange)` of
`tlTimeline/Util.cpp` is not among the sources.  The spec has the raw range
looped against the in/out range: "if it extends past either boundary, it
wraps, producing one or two disjoint sub-ranges inside `inOutRange` (never
outside it)", which "mirrors modular arithmetic on a circular buffer", and a
raw range "larger than `inOutRange`" is to "collapse to the whole range".  So
a raw range at least as long as the in/out range gives the in/out range, and a
raw range inside the in/out range is returned as it is.  Any other raw range
has its start wrapped into the in/out range, modulo the duration of the in/out
range; when it then reaches past the end of the in/out range it is cut there,
and what is left follows from the start of the in/out range.  The wrapped
ranges are given at the rate of the duration of the in/out range.  Order and
values are those of `PlayerTest::_loop`: against `[0/24, 24 frames)` the raw
range `[-10/24, 20 frames)` gives `[14/24, 10 frames)` then `[0/24, 10 frames)`,
and `[10/24, 20 frames)` gives `[10/24, 14 frames)` then `[0/24, 6 frames)`. -/
def loopRanges (value range : TimeRange) : List TimeRange :=
  if value.duration.ge range.duration then [range]
  else if value.start_time.ge range.start_time ∧
      value.end_time_exclusive.le range.end_time_exclusive then [value]
  else
    let rate := range.duration.rate
    let d := range.duration.value
    let s := range.start_time.value_rescaled_to rate
    let a := value.start_time.value_rescaled_to rate
    let n := value.duration.value_rescaled_to rate
    let offset := (a - s) - d * ((⌊(a - s) / d⌋ : ℤ) : ℚ)
    if offset + n ≤ d then [⟨⟨s + offset, rate⟩, ⟨n, rate⟩⟩]
    else
      [⟨⟨s + offset, rate⟩, ⟨d - offset, rate⟩⟩,
        ⟨⟨s, rate⟩, ⟨n - (d - offset), rate⟩⟩]

/-- Modelled from the spec: `observer::Value<T>::setIfChanged` of
`tlCore/ValueObserver.h` is not among the sources.  Observable state is
"push-on-change": a value that compares equal (`value == stored`, with the
`operator==` of the type) leaves the stored value and reports `false`, any
other value is stored and reported with `true`. -/
def setIfChanged {α : Type} (eqv : α → α → Prop) [DecidableRel eqv] (stored value : α) :
    α × Bool :=
  if eqv value stored then (stored, false) else (value, true)

/-! ## Player state -/

/-- The playback modes, `timeline::Playback`. -/
inductive Playback where
  | Stop
  | Forward
  | Reverse
deriving DecidableEq, Repr

set_option linter.dupNamespace false in
/-- The loop modes, `timeline::Loop`. -/
inductive Loop where
  | Loop
  | Once
  | PingPong
deriving DecidableEq, Repr

/-- The cache directions, `timeline::CacheDirection`. -/
inductive CacheDirection where
  | Forward
  | Reverse
deriving DecidableEq, Repr

/-- The time actions, `timeline::TimeAction`. -/
inductive TimeAction where
  | Start
  | End
  | FramePrev
  | FramePrevX10
  | FramePrevX100
  | FrameNext
  | FrameNextX10
  | FrameNextX100
  | JumpBack1s
  | JumpBack10s
  | JumpForward1s
  | JumpForward10s
deriving DecidableEq, Repr

/-- The cache budgets, `timeline::PlayerCacheOptions`. -/
structure PlayerCacheOptions where
  readAhead : RationalTime
  readBehind : RationalTime
deriving DecidableEq

/-- The values of `Player::Private::mutex` the modelled operations write.
`playbackStartTimer` holds a reading of the steady clock. -/
structure MutexData where
  playback : Playback
  playbackStartTime : RationalTime
  playbackStartTimer : ℕ
  currentTime : RationalTime
  inOutRange : TimeRange
  clearRequests : Bool
  clearCache : Bool
  cacheDirection : CacheDirection
deriving DecidableEq

/-- The part of `Player::Private` the modelled operations read and write: the
timeline's time range, the observable values, the values guarded by `mutex`
and the reset flag of `audioMutex`. -/
structure Player where
  timeRange : TimeRange
  playback : Playback
  loop : Loop
  currentTime : RationalTime
  inOutRange : TimeRange
  mutex : MutexData
  audioMutexReset : Bool
deriving DecidableEq

/-- The sentinel `time::invalidTime`. -/
def invalidTime : RationalTime := ⟨-1, -1⟩

namespace Player

/-- The state `Player::_init` builds for a timeline of the given time range:
playback stopped, loop mode `Loop`, the current time taken from the player
options unless it is the invalid time, the in/out range the whole time range,
and the values guarded by `mutex` copied from the observers or left at their
defaults.  The observer `_init` puts on the changes of the timeline (lines
109-117) calls `clearCache` when it is created, so the two clear flags are up
until the thread takes them down. -/
def init (timeRange : TimeRange) (currentTime : RationalTime) : Player :=
  let cur := if ¬ currentTime.eq invalidTime then currentTime else timeRange.start_time
  { timeRange := timeRange
    playback := Playback.Stop
    loop := Loop.Loop
    currentTime := cur
    inOutRange := timeRange
    mutex :=
      { playback := Playback.Stop
        playbackStartTime := invalidTime
        playbackStartTimer := 0
        currentTime := cur
        inOutRange := timeRange
        clearRequests := true
        clearCache := true
        cacheDirection := CacheDirection.Forward }
    audioMutexReset := false }

/-- `Player::Private::resetAudioTime`: raises the reset flag of the audio
callback.  (The stream time of the audio device, which it also rewinds, is not
part of the state.) -/
def resetAudioTime (p : Player) : Player :=
  { p with audioMutexReset := true }

/-- `Player::seek`.  The time is rescaled to the rate of the timeline, floored
and looped into the time range of the timeline; when it differs from the
current time it is stored, the start anchor follows while playing, pending
requests are flagged for clearing and the audio time is reset. -/
def seek (p : Player) (time : RationalTime) (now : ℕ) : Player :=
  let timeRange := p.timeRange
  let tmp := timeline.loop (tl.time.floor (time.rescaled_to timeRange.duration.rate)) timeRange
  let r := setIfChanged RationalTime.eq p.currentTime tmp
  if r.2 then
    let p1 := { p with currentTime := r.1 }
    let p2 :=
      if p1.playback ≠ Playback.Stop then
        { p1 with mutex := { p1.mutex with playbackStartTime := tmp, playbackStartTimer := now } }
      else p1
    resetAudioTime
      { p2 with mutex := { p2.mutex with currentTime := tmp, clearRequests := true } }
  else { p with currentTime := r.1 }

/-- `Player::setPlayback`.  Under `Loop::Once` a request to play from the
boundary ahead first seeks to the opposite boundary, under `Loop::PingPong` it
is turned around; a changed playback mode is then stored. -/
def setPlayback (p : Player) (value : Playback) (now : ℕ) : Player :=
  let pv : Player × Playback :=
    match p.loop with
    | Loop.Once =>
      match value with
      | Playback.Forward =>
        if p.currentTime.eq p.inOutRange.end_time_inclusive then
          (seek p p.inOutRange.start_time now, value)
        else (p, value)
      | Playback.Reverse =>
        if p.currentTime.eq p.inOutRange.start_time then
          (seek p p.inOutRange.end_time_inclusive now, value)
        else (p, value)
      | _ => (p, value)
    | Loop.PingPong =>
      match value with
      | Playback.Forward =>
        if p.currentTime.eq p.inOutRange.end_time_inclusive then (p, Playback.Reverse)
        else (p, value)
      | Playback.Reverse =>
        if p.currentTime.eq p.inOutRange.start_time then (p, Playback.Forward)
        else (p, value)
      | _ => (p, value)
    | _ => (p, value)
  let p1 := pv.1
  let value := pv.2
  let r := setIfChanged (fun a b : Playback => a = b) p1.playback value
  if r.2 then
    let p2 := { p1 with playback := r.1 }
    if value ≠ Playback.Stop then
      resetAudioTime
        { p2 with mutex := { p2.mutex with
            playback := value
            playbackStartTime := p2.currentTime
            playbackStartTimer := now
            currentTime := p2.currentTime
            cacheDirection :=
              if Playback.Forward = value then CacheDirection.Forward
              else CacheDirection.Reverse
            clearRequests := true } }
    else
      { p2 with mutex := { p2.mutex with playback := value, clearRequests := true } }
  else { p1 with playback := r.1 }

/-- `Player::timeAction`.  `Start`, `End` and the frame steps stop the
playback and seek; the jumps only seek.  The current time and the in/out range
are read through the observers when the argument of `seek` is evaluated, that
is after `setPlayback`. -/
def timeAction (p : Player) (time : TimeAction) (now : ℕ) : Player :=
  let rate := p.timeRange.duration.rate
  match time with
  | TimeAction.Start =>
    let p1 := setPlayback p Playback.Stop now
    seek p1 p1.inOutRange.start_time now
  | TimeAction.End =>
    let p1 := setPlayback p Playback.Stop now
    seek p1 p1.inOutRange.end_time_inclusive now
  | TimeAction.FramePrev =>
    let p1 := setPlayback p Playback.Stop now
    seek p1 (p1.currentTime.sub ⟨1, rate⟩) now
  | TimeAction.FramePrevX10 =>
    let p1 := setPlayback p Playback.Stop now
    seek p1 (p1.currentTime.sub ⟨10, rate⟩) now
  | TimeAction.FramePrevX100 =>
    let p1 := setPlayback p Playback.Stop now
    seek p1 (p1.currentTime.sub ⟨100, rate⟩) now
  | TimeAction.FrameNext =>
    let p1 := setPlayback p Playback.Stop now
    seek p1 (p1.currentTime.add ⟨1, rate⟩) now
  | TimeAction.FrameNextX10 =>
    let p1 := setPlayback p Playback.Stop now
    seek p1 (p1.currentTime.add ⟨10, rate⟩) now
  | TimeAction.FrameNextX100 =>
    let p1 := setPlayback p Playback.Stop now
    seek p1 (p1.currentTime.add ⟨100, rate⟩) now
  | TimeAction.JumpBack1s => seek p (p.currentTime.sub ⟨1, 1⟩) now
  | TimeAction.JumpBack10s => seek p (p.currentTime.sub ⟨10, 1⟩) now
  | TimeAction.JumpForward1s => seek p (p.currentTime.add ⟨1, 1⟩) now
  | TimeAction.JumpForward10s => seek p (p.currentTime.add ⟨10, 1⟩) now

/-- `Player::Private::loopPlayback`: the overrun handling of a tick.  The
result is the new state together with the returned time. -/
def loopPlayback (p : Player) (time : RationalTime) (now : ℕ) : Player × RationalTime :=
  let out := time
  let range := p.inOutRange
  match p.loop with
  | Loop.Loop =>
    let r := loopFlag out range
    let out := r.1
    if r.2 then
      (resetAudioTime
        { p with mutex := { p.mutex with playbackStartTime := out, playbackStartTimer := now } },
        out)
    else (p, out)
  | Loop.Once =>
    let playbackValue := p.playback
    if out.lt range.start_time ∧ Playback.Reverse = playbackValue then
      let out := range.start_time
      let p1 := { p with
        playback := (setIfChanged (fun a b : Playback => a = b) p.playback Playback.Stop).1 }
      ({ p1 with mutex := { p1.mutex with playback := Playback.Stop, clearRequests := true } },
        out)
    else if out.gt range.end_time_inclusive ∧ Playback.Forward = playbackValue then
      let out := range.end_time_inclusive
      let p1 := { p with
        playback := (setIfChanged (fun a b : Playback => a = b) p.playback Playback.Stop).1 }
      ({ p1 with mutex := { p1.mutex with playback := Playback.Stop, clearRequests := true } },
        out)
    else (p, out)
  | Loop.PingPong =>
    let playbackValue := p.playback
    if out.lt range.start_time ∧ Playback.Reverse = playbackValue then
      let out := range.start_time
      let p1 := { p with
        playback := (setIfChanged (fun a b : Playback => a = b) p.playback Playback.Forward).1 }
      (resetAudioTime
        { p1 with mutex := { p1.mutex with
            playback := Playback.Forward
            playbackStartTime := out
            playbackStartTimer := now
            currentTime := p1.currentTime
            clearRequests := true
            cacheDirection := CacheDirection.Forward } },
        out)
    else if out.gt range.end_time_inclusive ∧ Playback.Forward = playbackValue then
      let out := range.end_time_inclusive
      let p1 := { p with
        playback := (setIfChanged (fun a b : Playback => a = b) p.playback Playback.Reverse).1 }
      (resetAudioTime
        { p1 with mutex := { p1.mutex with
            playback := Playback.Reverse
            playbackStartTime := out
            playbackStartTimer := now
            currentTime := p1.currentTime
            clearRequests := true
            cacheDirection := CacheDirection.Reverse } },
        out)
    else (p, out)

/-- The raw video range of `Player::Private::cacheUpdate`: the read-ahead and
read-behind budgets are rescaled to the rate of the timeline and floored, and
laid around the current time on the sides the cache direction gives them. -/
def cacheUpdateVideoRange (timeRange : TimeRange) (currentTime : RationalTime)
    (cacheDirection : CacheDirection) (cacheOptions : PlayerCacheOptions) : TimeRange :=
  let readAheadRescaled :=
    tl.time.floor (cacheOptions.readAhead.rescaled_to timeRange.duration.rate)
  let readBehindRescaled :=
    tl.time.floor (cacheOptions.readBehind.rescaled_to timeRange.duration.rate)
  match cacheDirection with
  | CacheDirection.Forward =>
    TimeRange.range_from_start_end_time_inclusive
      (currentTime.sub readBehindRescaled) (currentTime.add readAheadRescaled)
  | CacheDirection.Reverse =>
    TimeRange.range_from_start_end_time_inclusive
      (currentTime.sub readAheadRescaled) (currentTime.add readBehindRescaled)

/-- The video ranges of `Player::Private::cacheUpdate`: the raw video range
looped against the in/out range. -/
def cacheUpdateVideoRanges (timeRange : TimeRange) (currentTime : RationalTime)
    (inOutRange : TimeRange) (cacheDirection : CacheDirection)
    (cacheOptions : PlayerCacheOptions) : List TimeRange :=
  loopRanges (cacheUpdateVideoRange timeRange currentTime cacheDirection cacheOptions) inOutRange

end Player

end timeline

end tl

/-! ## Further player operations -/

namespace tl.timeline.Player

/-- The guarded playback mode and the cache direction agree with the observed
playback mode: every operation that writes the observed playback mode writes
the guarded one with it, and sets the cache direction when the player starts
to play. -/
def playbackSynced (p : Player) : Prop :=
  p.mutex.playback = p.playback ∧
  (p.playback = Playback.Forward → p.mutex.cacheDirection = CacheDirection.Forward) ∧
  (p.playback = Playback.Reverse → p.mutex.cacheDirection = CacheDirection.Reverse)

instance (p : Player) : Decidable p.playbackSynced :=
  inferInstanceAs (Decidable (_ ∧ _ ∧ _))

/-- `Player::setLoop`. -/
def setLoop (p : Player) (value : Loop) : Player :=
  { p with loop := (setIfChanged (fun a b : Loop => a = b) p.loop value).1 }

end tl.timeline.Player

namespace tl.timeline.Player

/-- The first half of `Player::setPlayback`, lines 442-482: the state and the
playback mode after the loop mode has had its say. -/
def setPlaybackTarget (p : Player) (value : Playback) (now : ℕ) : Player × Playback :=
  match p.loop with
  | Loop.Once =>
    match value with
    | Playback.Forward =>
      if p.currentTime.eq p.inOutRange.end_time_inclusive then
        (seek p p.inOutRange.start_time now, value)
      else (p, value)
    | Playback.Reverse =>
      if p.currentTime.eq p.inOutRange.start_time then
        (seek p p.inOutRange.end_time_inclusive now, value)
      else (p, value)
    | _ => (p, value)
  | Loop.PingPong =>
    match value with
    | Playback.Forward =>
      if p.currentTime.eq p.inOutRange.end_time_inclusive then (p, Playback.Reverse)
      else (p, value)
    | Playback.Reverse =>
      if p.currentTime.eq p.inOutRange.start_time then (p, Playback.Forward)
      else (p, value)
    | _ => (p, value)
  | _ => (p, value)

/-- The second half of `Player::setPlayback`, lines 484-507: a changed playback
mode is stored, with the start anchor, the cache direction and the request
flag when the player starts to play. -/
def storePlayback (p1 : Player) (value : Playback) (now : ℕ) : Player :=
  let r := setIfChanged (fun a b : Playback => a = b) p1.playback value
  if r.2 then
    let p2 := { p1 with playback := r.1 }
    if value ≠ Playback.Stop then
      resetAudioTime
        { p2 with mutex := { p2.mutex with
            playback := value
            playbackStartTime := p2.currentTime
            playbackStartTimer := now
            currentTime := p2.currentTime
            cacheDirection :=
              if Playback.Forward = value then CacheDirection.Forward
              else CacheDirection.Reverse
            clearRequests := true } }
    else
      { p2 with mutex := { p2.mutex with playback := value, clearRequests := true } }
  else { p1 with playback := r.1 }

end tl.timeline.Player

/-! ## In and out points -/

namespace tl

namespace RationalTime

/-- The opentime `duration_from_start_end_time`. -/
def duration_from_start_end_time (start_time end_time_exclusive : RationalTime) :
    RationalTime :=
  if start_time.rate = end_time_exclusive.rate then
    ⟨end_time_exclusive.value - start_time.value, start_time.rate⟩
  else
    ⟨end_time_exclusive.value_rescaled_to start_time.rate - start_time.value, start_time.rate⟩

end RationalTime

/-- The opentime `DEFAULT_EPSILON_s`: half a sample at 192 kHz, in seconds. -/
def DEFAULT_EPSILON_s : ℚ := 1 / (2 * 192000)

namespace TimeRange

/-- The opentime `range_from_start_end_time`. -/
def range_from_start_end_time (start_time end_time_exclusive : RationalTime) : TimeRange :=
  ⟨start_time, RationalTime.duration_from_start_end_time start_time end_time_exclusive⟩

/-- The opentime `operator==` of time ranges: the starts and the durations
differ by less than `DEFAULT_EPSILON_s` seconds. -/
def eq (lhs rhs : TimeRange) : Prop :=
  |(lhs.start_time.sub rhs.start_time).to_seconds| < DEFAULT_EPSILON_s ∧
  |(lhs.duration.sub rhs.duration).to_seconds| < DEFAULT_EPSILON_s

instance (lhs rhs : TimeRange) : Decidable (lhs.eq rhs) :=
  inferInstanceAs (Decidable (_ ∧ _))

end TimeRange

namespace timeline.Player

/-- `Player::setInOutRange`: a changed in/out range is stored, observed and
guarded, and pending requests are flagged for clearing. -/
def setInOutRange (p : Player) (value : TimeRange) : Player :=
  let r := setIfChanged TimeRange.eq p.inOutRange value
  if r.2 then
    { p with
      inOutRange := r.1
      mutex := { p.mutex with inOutRange := value, clearRequests := true } }
  else { p with inOutRange := r.1 }

/-- `Player::setInPoint`. -/
def setInPoint (p : Player) : Player :=
  setInOutRange p
    (TimeRange.range_from_start_end_time p.currentTime p.inOutRange.end_time_exclusive)

/-- `Player::resetInPoint`. -/
def resetInPoint (p : Player) : Player :=
  setInOutRange p
    (TimeRange.range_from_start_end_time p.timeRange.start_time
      p.inOutRange.end_time_exclusive)

/-- `Player::setOutPoint`. -/
def setOutPoint (p : Player) : Player :=
  setInOutRange p
    (TimeRange.range_from_start_end_time_inclusive p.inOutRange.start_time p.currentTime)

/-- `Player::resetOutPoint`. -/
def resetOutPoint (p : Player) : Player :=
  setInOutRange p
    (TimeRange.range_from_start_end_time_inclusive p.inOutRange.start_time
      p.timeRange.end_time_inclusive)

end timeline.Player

end tl

/-! ## The audio window of the cache -/

namespace tl

namespace RationalTime

/-- The opentime unary `operator-`. -/
def neg (t : RationalTime) : RationalTime := ⟨-t.value, t.rate⟩

end RationalTime

namespace time

/-- Modelled from the spec: `time::round` of `tlCore/Time.h` is not among the
sources.  The audio offset is "rounded to frames": the value is rounded to the
nearest whole frame, a half away from zero as `std::round` does, and the rate
is kept. -/
def round (t : RationalTime) : RationalTime :=
  ⟨if 0 ≤ t.value then ((⌊t.value + 1 / 2⌋ : ℤ) : ℚ) else -((⌊-t.value + 1 / 2⌋ : ℤ) : ℚ),
    t.rate⟩

end time

namespace timeline.Player

/-- The audio offset of `Player::Private::cacheUpdate` as a time at the rate of
the timeline: `RationalTime(audioOffset, 1.0).rescaled_to(rate)`. -/
def cacheUpdateAudioOffsetTime (timeRange : TimeRange) (audioOffset : ℚ) : RationalTime :=
  RationalTime.rescaled_to ⟨audioOffset, 1⟩ timeRange.duration.rate

/-- The `audioOffsetAhead` of `cacheUpdate`: the size of a negative audio
offset, rounded to frames, and zero for any other offset. -/
def cacheUpdateAudioOffsetAhead (timeRange : TimeRange) (audioOffset : ℚ) : RationalTime :=
  tl.time.round
    (if (cacheUpdateAudioOffsetTime timeRange audioOffset).value < 0 then
      (cacheUpdateAudioOffsetTime timeRange audioOffset).neg
    else ⟨0, timeRange.duration.rate⟩)

/-- The `audioOffsetBehind` of `cacheUpdate`: a positive audio offset, rounded
to frames, and zero for any other offset. -/
def cacheUpdateAudioOffsetBehind (timeRange : TimeRange) (audioOffset : ℚ) : RationalTime :=
  tl.time.round
    (if (cacheUpdateAudioOffsetTime timeRange audioOffset).value > 0 then
      cacheUpdateAudioOffsetTime timeRange audioOffset
    else ⟨0, timeRange.duration.rate⟩)

/-- The raw audio range of `Player::Private::cacheUpdate`: the budgets of the
video range, with the ahead side taken further by `audioOffsetAhead` and the
behind side by `audioOffsetBehind`. -/
def cacheUpdateAudioRange (timeRange : TimeRange) (currentTime : RationalTime)
    (audioOffset : ℚ) (cacheDirection : CacheDirection) (cacheOptions : PlayerCacheOptions) :
    TimeRange :=
  let readAheadRescaled :=
    tl.time.floor (cacheOptions.readAhead.rescaled_to timeRange.duration.rate)
  let readBehindRescaled :=
    tl.time.floor (cacheOptions.readBehind.rescaled_to timeRange.duration.rate)
  let audioOffsetAhead := cacheUpdateAudioOffsetAhead timeRange audioOffset
  let audioOffsetBehind := cacheUpdateAudioOffsetBehind timeRange audioOffset
  match cacheDirection with
  | CacheDirection.Forward =>
    TimeRange.range_from_start_end_time_inclusive
      ((currentTime.sub readBehindRescaled).sub audioOffsetBehind)
      ((currentTime.add readAheadRescaled).add audioOffsetAhead)
  | CacheDirection.Reverse =>
    TimeRange.range_from_start_end_time_inclusive
      ((currentTime.sub readAheadRescaled).sub audioOffsetAhead)
      ((currentTime.add readBehindRescaled).add audioOffsetBehind)

end timeline.Player

end tl

/-! ## The caches of the player -/

namespace tl

namespace RationalTime

/-- The `std::max` of two times, `a < b ? b : a`. -/
def std_max (a b : RationalTime) : RationalTime := if a.lt b then b else a

/-- The `std::min` of two times, `b < a ? b : a`. -/
def std_min (a b : RationalTime) : RationalTime := if b.lt a then b else a

end RationalTime

namespace TimeRange

/-- The opentime `intersects(TimeRange)` with its default tolerance: each range
starts at least `DEFAULT_EPSILON_s` seconds before the other one ends. -/
def intersects (r other : TimeRange) : Prop :=
  other.end_time_exclusive.to_seconds - r.start_time.to_seconds ≥ DEFAULT_EPSILON_s ∧
  r.end_time_exclusive.to_seconds - other.start_time.to_seconds ≥ DEFAULT_EPSILON_s

instance (r other : TimeRange) : Decidable (r.intersects other) :=
  inferInstanceAs (Decidable (_ ∧ _))

/-- The opentime `clamped(TimeRange)`: the range `other` clamped to `r`. -/
def clamped (r other : TimeRange) : TimeRange :=
  let r1 : TimeRange := ⟨RationalTime.std_max other.start_time r.start_time, other.duration⟩
  let e := RationalTime.std_min r1.end_time_exclusive r.end_time_exclusive
  ⟨r1.start_time, e.sub r1.start_time⟩

end TimeRange

namespace time

/-- Modelled from the spec: `time::ceil` of `tlCore/Time.h` is not among the
sources.  The counterpart of `time::floor`: the value is rounded up to a whole
frame, the rate is kept. -/
def ceil (t : RationalTime) : RationalTime := ⟨(⌈t.value⌉ : ℤ), t.rate⟩

end time

namespace timeline

/-- Modelled from the spec: the declaration of `timeline::VideoData` is not
among the sources.  The data model of the spec gives it a time and an optional
handle of a decoded image; no image is a hole. -/
structure VideoData where
  time : RationalTime
  image : Option ℕ
deriving DecidableEq

/-- Modelled from the spec: the declaration of `timeline::AudioData` is not
among the sources.  The data model of the spec gives it a whole second and the
handles of the decoded audio of the layers. -/
structure AudioData where
  seconds : ℤ
  layers : List ℕ
deriving DecidableEq

/-- The value of the `float` member `videoPercentage` of the cache snapshot: a
number, the positive infinity or a NaN.  A number is kept exact, the rounding
of the `float` is not represented; the other two are what the division of
`cacheUpdate` gives when the two cache budgets sum to zero. -/
inductive Percentage where
  | number (q : ℚ)
  | infinity
  | nan
deriving DecidableEq

namespace Percentage

/-- The `==` of two `float` values: two numbers are compared, an infinity equals
itself, and a NaN equals nothing, itself included. -/
def eq : Percentage → Percentage → Prop
  | number a, number b => a = b
  | infinity, infinity => True
  | _, _ => False

instance (a b : Percentage) : Decidable (a.eq b) := by
  cases a <;> cases b <;> unfold eq <;> infer_instance

/-- The `float` division of a count by a sum of budgets, times 100: by a zero
sum a count that is not zero gives the infinity and a zero count gives a
NaN. -/
def ofCount (count : ℕ) (sum : ℚ) : Percentage :=
  if sum = 0 then (if count = 0 then nan else infinity)
  else number (count / sum * 100)

end Percentage

/-- The snapshot `timeline::PlayerCacheInfo` of `Player.h`. -/
structure PlayerCacheInfo where
  videoPercentage : Percentage
  videoFrames : List TimeRange
  audioFrames : List TimeRange
deriving DecidableEq

namespace PlayerCacheInfo

/-- The default snapshot `PlayerCacheInfo()`. -/
def default : PlayerCacheInfo := ⟨Percentage.number 0, [], []⟩

/-- The `operator==` of `PlayerCacheInfo` declared in `Player.h` (its body, in
`PlayerInline.h`, is not among the sources): the three members compare equal,
the percentage as a `float`, the lists element by element with the
`operator==` of time ranges. -/
def eq (a b : PlayerCacheInfo) : Prop :=
  a.videoPercentage.eq b.videoPercentage ∧
  List.Forall₂ TimeRange.eq a.videoFrames b.videoFrames ∧
  List.Forall₂ TimeRange.eq a.audioFrames b.audioFrames

instance (a b : PlayerCacheInfo) : Decidable (a.eq b) :=
  inferInstanceAs (Decidable (_ ∧ _ ∧ _))

end PlayerCacheInfo

/-- One run of `toRanges`: `i` starts the run, `j` is its last frame so far. -/
def toRangesAux (i j : RationalTime) : List RationalTime → List TimeRange
  | [] => [TimeRange.range_from_start_end_time_inclusive i j]
  | k :: rest =>
    if (k.sub j).value > 1 then
      TimeRange.range_from_start_end_time_inclusive i j :: toRangesAux k k rest
    else toRangesAux i k rest

/-- Modelled from the spec: `timeline::toRanges` of `tlTimeline/Util.cpp` is not
among the sources.  The cached frames are shown as a list of time ranges: the
frames are sorted and every run of frames that follow each other by at most one
frame becomes one inclusive range; no frame gives no range. -/
def toRanges (frames : List RationalTime) : List TimeRange :=
  match frames.insertionSort (fun a b => a.le b) with
  | [] => []
  | f :: rest => toRangesAux f f rest

/-! ### `std::map` and `std::set` as sorted lists -/

/-- Two keys are equivalent for a map ordered by `lt`: neither is before the
other. -/
def keyEquiv {K : Type} (lt : K → K → Prop) (a b : K) : Prop := ¬ lt a b ∧ ¬ lt b a

instance {K : Type} (lt : K → K → Prop) [DecidableRel lt] (a b : K) :
    Decidable (keyEquiv lt a b) := inferInstanceAs (Decidable (_ ∧ _))

/-- The `find` of a map, as a test: the map has an entry of an equivalent key. -/
def mapContains {K V : Type} (lt : K → K → Prop) [DecidableRel lt] (m : List (K × V))
    (k : K) : Bool :=
  m.any (fun e => decide (keyEquiv lt e.1 k))

/-- The `find` of a map: the value of the entry of an equivalent key. -/
def mapFind {K V : Type} (lt : K → K → Prop) [DecidableRel lt] (m : List (K × V))
    (k : K) : Option V :=
  (m.find? (fun e => decide (keyEquiv lt e.1 k))).map (fun e => e.2)

/-- The `m[k] = v` of a map: the value of an equivalent key is replaced, a new
key is inserted in order. -/
def mapInsert {K V : Type} (lt : K → K → Prop) [DecidableRel lt] (m : List (K × V))
    (k : K) (v : V) : List (K × V) :=
  match m with
  | [] => [(k, v)]
  | e :: rest =>
    if lt k e.1 then (k, v) :: e :: rest
    else if lt e.1 k then e :: mapInsert lt rest k v
    else (e.1, v) :: rest

/-- The `find` of a set of keys, as a test. -/
def setContains {K : Type} (lt : K → K → Prop) [DecidableRel lt] (s : List K) (k : K) :
    Bool :=
  s.any (fun e => decide (keyEquiv lt e k))

/-- The `insert` of a set of keys: an equivalent key is kept, a new key is
inserted in order. -/
def setInsert {K : Type} (lt : K → K → Prop) [DecidableRel lt] (s : List K) (k : K) :
    List K :=
  match s with
  | [] => [k]
  | e :: rest =>
    if lt k e then k :: e :: rest
    else if lt e k then e :: setInsert lt rest k
    else e :: rest

/-- The members of `Player::Private` behind the background thread and the
audio callback, beside those of `Player`: flags of the I/O information and the
options, the cache snapshot (observed and guarded), the guarded audio offset
and cache options, the caches and in-flight requests of the thread, and the
values of `audioMutex` and `audioThread`.  The in-flight requests are kept as
the set of their keys; the current video and audio data are left out.  The
audio buffer is the sequence of its frames, one number a frame, zero for
silence.  Clock readings are in nanoseconds. -/
structure PlayerThread where
  hasVideo : Bool
  hasAudio : Bool
  optionsMuteTimeout : ℕ
  externalTimePlayer : Bool
  cacheInfo : PlayerCacheInfo
  mutexAudioOffset : ℚ
  mutexCacheOptions : PlayerCacheOptions
  mutexCacheInfo : PlayerCacheInfo
  mutexExternalTime : Bool
  videoDataCache : List (RationalTime × VideoData)
  videoDataRequests : List RationalTime
  audioDataRequests : List ℤ
  cacheTimer : ℕ
  audioDataCache : List (ℤ × AudioData)
  speed : ℚ
  volume : ℚ
  mute : Bool
  muteTimeout : ℕ
  buffer : List ℤ
  rtAudioCurrentFrame : ℕ
deriving DecidableEq

namespace Player

/-- The times a loop `for (time = start; time < end; time += inc)` visits, at
most `fuel` of them. -/
def framesAux : ℕ → RationalTime → RationalTime → RationalTime → List RationalTime
  | 0, _, _, _ => []
  | fuel + 1, time, end_time, inc =>
    if time.lt end_time then time :: framesAux fuel (time.add inc) end_time inc else []

/-- The frames of a range as `cacheUpdate` walks them: from the start of the
range, in steps of one frame at the rate of its duration, while the time is
before the exclusive end.  The fuel is the number of such steps that fit into
the range. -/
def frames (range : TimeRange) : List RationalTime :=
  framesAux
    (⌈(range.end_time_exclusive.to_seconds - range.start_time.to_seconds) *
      range.duration.rate⌉).toNat
    range.start_time range.end_time_exclusive ⟨1, range.duration.rate⟩

/-- The in/out range of the audio cache in `cacheUpdate`, lines 166-169. -/
def cacheUpdateInOutAudioRange (timeRange inOutRange : TimeRange) (audioOffset : ℚ) :
    TimeRange :=
  (TimeRange.range_from_start_end_time_inclusive
    (inOutRange.start_time.sub (cacheUpdateAudioOffsetBehind timeRange audioOffset))
    (inOutRange.end_time_inclusive.add
      (cacheUpdateAudioOffsetAhead timeRange audioOffset))).clamped timeRange

/-- The audio ranges of `cacheUpdate`: the raw audio range looped against the
in/out range of the audio cache. -/
def cacheUpdateAudioRanges (timeRange : TimeRange) (currentTime : RationalTime)
    (inOutRange : TimeRange) (audioOffset : ℚ) (cacheDirection : CacheDirection)
    (cacheOptions : PlayerCacheOptions) : List TimeRange :=
  loopRanges
    (cacheUpdateAudioRange timeRange currentTime audioOffset cacheDirection cacheOptions)
    (cacheUpdateInOutAudioRange timeRange inOutRange audioOffset)

/-- "Remove old video from the cache", lines 173-192 of `cacheUpdate`: an entry
stays when some video range contains its time. -/
def cacheUpdateEvictVideo (videoRanges : List TimeRange)
    (cache : List (RationalTime × VideoData)) : List (RationalTime × VideoData) :=
  cache.filter (fun e => videoRanges.any (fun i => decide (i.contains e.2.time)))

/-- "Remove old audio from the cache", lines 194-219 of `cacheUpdate`: an entry
stays when some audio range intersects the second it holds. -/
def cacheUpdateEvictAudio (audioRanges : List TimeRange)
    (cache : List (ℤ × AudioData)) : List (ℤ × AudioData) :=
  cache.filter (fun e => audioRanges.any (fun i =>
    decide (i.intersects ⟨⟨e.2.seconds, 1⟩, ⟨1, 1⟩⟩)))

/-- "Get uncached video", lines 221-243 of `cacheUpdate`: every frame of every
video range that is neither cached nor in flight is requested. -/
def cacheUpdateRequestVideo (hasVideo : Bool) (videoRanges : List TimeRange)
    (cache : List (RationalTime × VideoData)) (requests : List RationalTime) :
    List RationalTime :=
  if hasVideo then
    videoRanges.foldl (fun rq range =>
      (frames range).foldl (fun rq time =>
        if ¬ mapContains RationalTime.lt cache time ∧ ¬ setContains RationalTime.lt rq time
        then setInsert RationalTime.lt rq time else rq) rq) requests
  else requests

/-- The conversion of a `double` to `int64_t`: the fraction is dropped. -/
def truncate (x : ℚ) : ℤ := if 0 ≤ x then ⌊x⌋ else ⌈x⌉

/-- "Get uncached audio", lines 245-289 of `cacheUpdate`: every second touched
by a frame of an audio range that is neither cached nor in flight is
requested. -/
def cacheUpdateRequestAudio (hasAudio : Bool) (audioRanges : List TimeRange)
    (cache : List (ℤ × AudioData)) (requests : List ℤ) : List ℤ :=
  if hasAudio then
    let seconds : List ℤ :=
      audioRanges.foldl (fun s range =>
        (frames range).foldl (fun s time =>
          setInsert (fun a b : ℤ => a < b) s (truncate (time.rescaled_to 1).value)) s) []
    let new := seconds.filter (fun s =>
      ¬ mapContains (fun a b : ℤ => a < b) cache s ∧
      ¬ setContains (fun a b : ℤ => a < b) requests s)
    new.foldl (fun rq s => setInsert (fun a b : ℤ => a < b) rq s) requests
  else requests

/-- "Check for finished video", lines 291-305 of `cacheUpdate`: the data of
every request that is ready is stored in the cache under the time of the
request, and the request is dropped.  `ready` gives the data of the requests
that are ready at this moment. -/
def cacheUpdateFinishVideo (ready : RationalTime → Option VideoData)
    (cache : List (RationalTime × VideoData)) (requests : List RationalTime) :
    List (RationalTime × VideoData) × List RationalTime :=
  requests.foldl (fun s k =>
    match ready k with
    | some data => (mapInsert RationalTime.lt s.1 k { data with time := k }, s.2)
    | none => (s.1, s.2 ++ [k])) (cache, [])

/-- "Check for finished audio", lines 307-324 of `cacheUpdate`. -/
def cacheUpdateFinishAudio (ready : ℤ → Option AudioData)
    (cache : List (ℤ × AudioData)) (requests : List ℤ) :
    List (ℤ × AudioData) × List ℤ :=
  requests.foldl (fun s k =>
    match ready k with
    | some data =>
      (mapInsert (fun a b : ℤ => a < b) s.1 k { data with seconds := k }, s.2)
    | none => (s.1, s.2 ++ [k])) (cache, [])

/-- "Update cached frames", lines 326-364 of `cacheUpdate`: more than half a
second after the last time, the guarded cache snapshot is rebuilt from the two
caches.  The percentage is the count of the cached frames divided, as a
`float`, by the sum of the two budgets in frames, times 100. -/
def cacheUpdateInfo (timeRange : TimeRange) (cacheOptions : PlayerCacheOptions) (now : ℕ)
    (c : PlayerThread) : PlayerThread :=
  if (now : ℤ) - c.cacheTimer > 500000000 then
    let cachedVideoFrames := c.videoDataCache.map (fun e => e.2.time)
    let cachedVideoPercentage : Percentage :=
      Percentage.ofCount cachedVideoFrames.length
        ((cacheOptions.readAhead.rescaled_to timeRange.duration.rate).value +
          (cacheOptions.readBehind.rescaled_to timeRange.duration.rate).value)
    let cachedAudioFrames : List RationalTime :=
      c.audioDataCache.map (fun e => ⟨e.2.seconds, 1⟩)
    let cachedVideoRanges := toRanges cachedVideoFrames
    let cachedAudioRanges := (toRanges cachedAudioFrames).map (fun i =>
      (⟨tl.time.floor (i.start_time.rescaled_to timeRange.duration.rate),
        tl.time.ceil (i.duration.rescaled_to timeRange.duration.rate)⟩ : TimeRange))
    { c with
      cacheTimer := now
      mutexCacheInfo := ⟨cachedVideoPercentage, cachedVideoRanges, cachedAudioRanges⟩ }
  else c

/-- `Player::Private::cacheUpdate`, on the caches: the old entries are removed,
the missing ones requested, the finished requests stored and the snapshot
rebuilt.  `videoReady` and `audioReady` give the data of the requests that are
ready when they are checked. -/
def cacheUpdate (timeRange : TimeRange) (c : PlayerThread) (currentTime : RationalTime)
    (inOutRange : TimeRange) (audioOffset : ℚ) (cacheDirection : CacheDirection)
    (cacheOptions : PlayerCacheOptions) (now : ℕ)
    (videoReady : RationalTime → Option VideoData) (audioReady : ℤ → Option AudioData) :
    PlayerThread :=
  let videoRanges :=
    cacheUpdateVideoRanges timeRange currentTime inOutRange cacheDirection cacheOptions
  let audioRanges :=
    cacheUpdateAudioRanges timeRange currentTime inOutRange audioOffset cacheDirection
      cacheOptions
  let videoCache := cacheUpdateEvictVideo videoRanges c.videoDataCache
  let audioCache := cacheUpdateEvictAudio audioRanges c.audioDataCache
  let videoRequests :=
    cacheUpdateRequestVideo c.hasVideo videoRanges videoCache c.videoDataRequests
  let audioRequests :=
    cacheUpdateRequestAudio c.hasAudio audioRanges audioCache c.audioDataRequests
  let video := cacheUpdateFinishVideo videoReady videoCache videoRequests
  let audio := cacheUpdateFinishAudio audioReady audioCache audioRequests
  cacheUpdateInfo timeRange cacheOptions now
    { c with
      videoDataCache := video.1
      videoDataRequests := video.2
      audioDataCache := audio.1
      audioDataRequests := audio.2 }

/-- `Player::clearCache`. -/
def clearCache (p : Player) : Player :=
  { p with mutex := { p.mutex with clearRequests := true, clearCache := true } }

/-- One turn of the loop of the background thread, lines 178-310 of
`Player::_init`: the guarded values are read and the two flags taken down, the
requests and the caches are cleared when flagged, the caches are updated, and
while playing a current frame that is not cached yet holds back the playback
start anchor. -/
def threadIteration (p : Player) (c : PlayerThread) (now : ℕ)
    (videoReady : RationalTime → Option VideoData) (audioReady : ℤ → Option AudioData) :
    Player × PlayerThread :=
  let playback := p.mutex.playback
  let currentTime := p.mutex.currentTime
  let inOutRange := p.mutex.inOutRange
  let audioOffset := c.mutexAudioOffset
  let clearRequests := p.mutex.clearRequests
  let clearCache := p.mutex.clearCache
  let cacheDirection := p.mutex.cacheDirection
  let cacheOptions := c.mutexCacheOptions
  let p1 := { p with mutex := { p.mutex with clearRequests := false, clearCache := false } }
  let c1 := if clearRequests then { c with videoDataRequests := [], audioDataRequests := [] }
    else c
  let c2 := if clearCache then
      { c1 with
        videoDataCache := []
        mutexCacheInfo := PlayerCacheInfo.default
        audioDataCache := [] }
    else c1
  let c3 := cacheUpdate p.timeRange c2 currentTime inOutRange audioOffset cacheDirection
    cacheOptions now videoReady audioReady
  if c3.hasVideo ∧ ¬ mapContains RationalTime.lt c3.videoDataCache currentTime ∧
      playback ≠ Playback.Stop then
    (resetAudioTime
      { p1 with mutex := { p1.mutex with
          playbackStartTime := currentTime, playbackStartTimer := now } },
      { c3 with muteTimeout := now + c3.optionsMuteTimeout })
  else (p1, c3)

/-- `Player::tick`.  While playing without an external player the current time
is advanced from the playback start time by the elapsed `seconds` (read from
the audio device or the steady clock, lines 886-901) and passed through
`loopPlayback`; then the guarded current time and the observed cache snapshot
are synchronised. -/
def tick (p : Player) (c : PlayerThread) (seconds : ℚ) (now : ℕ) : Player × PlayerThread :=
  let timeRange := p.timeRange
  let playback := p.playback
  let p1 :=
    if playback ≠ Playback.Stop ∧ ¬ c.externalTimePlayer then
      let playbackStartTime := p.mutex.playbackStartTime
      let seconds := if Playback.Reverse = playback then -seconds else seconds
      let r := loopPlayback p
        (playbackStartTime.add
          (tl.time.floor (RationalTime.rescaled_to ⟨seconds, 1⟩ timeRange.duration.rate))) now
      { r.1 with currentTime := (setIfChanged RationalTime.eq r.1.currentTime r.2).1 }
    else p
  ({ p1 with mutex := { p1.mutex with currentTime := p1.currentTime } },
    { c with cacheInfo := (setIfChanged PlayerCacheInfo.eq c.cacheInfo c.mutexCacheInfo).1 })

/-- `Player::Private::rtAudioCallback`: the guarded values and the
reset flag are read, the flag is taken down, and the output of `nFrames`
frames is zeroed.  Playing forward, a reset empties the buffer and the frame
counter, the buffer is filled, `nFrames` frames are moved from the buffer to
the output when nothing silences the callback, and the frame counter goes up
by `nFrames`.  `fill` gives the buffer after the "Fill the audio buffer" loop
of lines 458-525; the counter is a `size_t`.  The result is the player, the
thread data and the output. -/
def rtAudioCallback (p : Player) (c : PlayerThread) (nFrames : ℕ) (now : ℕ)
    (fill : List ℤ → List ℤ) : Player × PlayerThread × List ℤ :=
  let playback := p.mutex.playback
  let externalTime := c.mutexExternalTime
  let speed := c.speed
  let mute := c.mute
  let muteTimeout := c.muteTimeout
  let reset := p.audioMutexReset
  let p1 := { p with audioMutexReset := false }
  let output := List.replicate nFrames (0 : ℤ)
  match playback with
  | Playback.Forward =>
    let c1 := if reset then { c with buffer := [], rtAudioCurrentFrame := 0 } else c
    let c2 := { c1 with buffer := fill c1.buffer }
    if speed = p.timeRange.duration.rate ∧ ¬ externalTime ∧ ¬ mute ∧ now ≥ muteTimeout ∧
        nFrames ≤ c2.buffer.length then
      (p1,
        { c2 with
          buffer := c2.buffer.drop nFrames
          rtAudioCurrentFrame := (c2.rtAudioCurrentFrame + nFrames) % 2 ^ 64 },
        c2.buffer.take nFrames)
    else
      (p1, { c2 with rtAudioCurrentFrame := (c2.rtAudioCurrentFrame + nFrames) % 2 ^ 64 },
        output)
  | Playback.Reverse =>
    (p1, { c with rtAudioCurrentFrame := (c.rtAudioCurrentFrame + nFrames) % 2 ^ 64 }, output)
  | Playback.Stop => (p1, c, output)

end Player

end timeline

end tl

namespace tl

namespace timeline

namespace PlayerThread

/-- `Player::_init`, for the members of `PlayerThread`: the observers get their
first values (volume 1, not muted, no audio offset, the cache options of the
player options, an empty cache snapshot), the guarded values are copied from
them, the speed is the rate of the timeline, and the thread starts the cache
timer at `now`.  What `_init` does not set is at the default of its type: no
external time, empty caches and requests, an empty audio buffer and a frame
counter and mute timeout of zero. -/
def init (timeRange : TimeRange) (hasVideo hasAudio : Bool) (cache : PlayerCacheOptions)
    (muteTimeout now : ℕ) : PlayerThread :=
  { hasVideo := hasVideo
    hasAudio := hasAudio
    optionsMuteTimeout := muteTimeout
    externalTimePlayer := false
    cacheInfo := PlayerCacheInfo.default
    mutexAudioOffset := 0
    mutexCacheOptions := cache
    mutexCacheInfo := PlayerCacheInfo.default
    mutexExternalTime := false
    videoDataCache := []
    videoDataRequests := []
    audioDataRequests := []
    cacheTimer := now
    audioDataCache := []
    speed := timeRange.duration.rate
    volume := 1
    mute := false
    muteTimeout := 0
    buffer := []
    rtAudioCurrentFrame := 0 }

end PlayerThread

end timeline

end tl

/-! ## Time actions as the specification words them, external time, volume -/

namespace tl

namespace math

/-- Modelled from the spec: `math::clamp` is declared in `tlCore/Math.h` ("Clamp
a value") and its body is not among the sources.  The value is held between
`min` and `max`. -/
def clamp (value min max : ℚ) : ℚ := Min.min (Max.max value min) max

end math

namespace timeline

namespace Player

/-- The time a time action seeks to, in the words of the specification: `Start`
the start of the in/out range, `End` its inclusive end, the frame steps the
current time plus or minus 1, 10 or 100 frames of the timeline, the jumps the
current time plus or minus 1 or 10 seconds. -/
def timeActionTime (p : Player) : TimeAction → RationalTime
  | TimeAction.Start => p.inOutRange.start_time
  | TimeAction.End => p.inOutRange.end_time_inclusive
  | TimeAction.FramePrev => p.currentTime.sub ⟨1, p.timeRange.duration.rate⟩
  | TimeAction.FramePrevX10 => p.currentTime.sub ⟨10, p.timeRange.duration.rate⟩
  | TimeAction.FramePrevX100 => p.currentTime.sub ⟨100, p.timeRange.duration.rate⟩
  | TimeAction.FrameNext => p.currentTime.add ⟨1, p.timeRange.duration.rate⟩
  | TimeAction.FrameNextX10 => p.currentTime.add ⟨10, p.timeRange.duration.rate⟩
  | TimeAction.FrameNextX100 => p.currentTime.add ⟨100, p.timeRange.duration.rate⟩
  | TimeAction.JumpBack1s => p.currentTime.sub ⟨1, 1⟩
  | TimeAction.JumpBack10s => p.currentTime.sub ⟨10, 1⟩
  | TimeAction.JumpForward1s => p.currentTime.add ⟨1, 1⟩
  | TimeAction.JumpForward10s => p.currentTime.add ⟨10, 1⟩

/-- The time actions that force `Playback::Stop`, in the words of the
specification: `Start`, `End` and the frame steps, not the four jumps. -/
def timeActionStops : TimeAction → Bool
  | TimeAction.JumpBack1s => false
  | TimeAction.JumpBack10s => false
  | TimeAction.JumpForward1s => false
  | TimeAction.JumpForward10s => false
  | _ => true

/-- A time action in the words of the specification: a seek to the computed
time, after a forced `Playback::Stop` where the action has one. -/
def timeActionSpec (p : Player) (time : TimeAction) (now : ℕ) : Player :=
  seek (if timeActionStops time then setPlayback p Playback.Stop now else p)
    (timeActionTime p time) now

/-- The callback of the observer that `Player::setExternalTime` puts on the
playback of the external player, lines 650-657. -/
def externalPlayback (p : Player) (value : Playback) (now : ℕ) : Player :=
  setPlayback p value now

/-- The callback of the observer that `Player::setExternalTime` puts on the
current time of the external player, lines 658-671: the external time is
translated and stored as the current time when it differs.  `getExternalTime`
(of `tlTimeline/Util`), the time range of the external player and the external
time mode of the player options are parameters. -/
def externalCurrentTime {M : Type}
    (getExternalTime : RationalTime → TimeRange → TimeRange → M → RationalTime)
    (p : Player) (externalTimeRange : TimeRange) (externalTimeMode : M)
    (value : RationalTime) : Player :=
  { p with
    currentTime := (setIfChanged RationalTime.eq p.currentTime
      (getExternalTime value externalTimeRange p.timeRange externalTimeMode)).1 }

/-- `Player::setVolume`, on the observed volume and the members of
`PlayerThread`: the clamped value goes to the observer and, when that changed
it, `value` goes to `audioMutex.volume`.  The result is the observed volume
(what `getVolume` returns) and the thread data. -/
def setVolume (volume : ℚ) (c : PlayerThread) (value : ℚ) : ℚ × PlayerThread :=
  let r := setIfChanged (fun a b : ℚ => a = b) volume (math.clamp value 0 1)
  if r.2 then (r.1, { c with volume := value }) else (r.1, c)

end Player

end timeline

end tl

/-! ## tlCore: the size of an image as text -/

namespace tl

namespace string

/-- Modelled from the spec: `string::split(const std::string&, char)` of
`tlCore/String.h` is not among the sources.  The text is cut at every
delimiter and the pieces that are not empty are returned in order. -/
def split (s : List Char) (delimiter : Char) : List (List Char) :=
  (s.splitOn delimiter).filter (fun piece => piece ≠ [])

end string

namespace image

/-- Modelled from the spec: the declaration of `image::Size` (`tlCore/Image.h`)
is not among the sources.  A size is a width and a height of the type
`SizeType`, an unsigned 16 bit number, and a pixel aspect ratio; `Size(w, h)`
has the pixel aspect ratio 1. -/
structure Size where
  w : ℕ
  h : ℕ
  pixelAspectRatio : ℚ
deriving DecidableEq

namespace Size

/-- The default size `Size()`: no width, no height, pixel aspect ratio 1. -/
def default : Size := ⟨0, 0, 1⟩

end Size

/-- The white space of `std::isspace` in the "C" locale: the space and the
characters 9 to 13. -/
def isSpace (c : Char) : Bool := c.toNat = 32 || (9 ≤ c.toNat && c.toNat ≤ 13)

/-- The `operator<<` of a stream for an unsigned number: its decimal digits. -/
def showNat (n : ℕ) : List Char := Nat.toDigits 10 n

/-- The characters `showNat` writes, as `operator>>` sees them: decimal digits,
which are neither white space, nor `x`, nor a colon, nor a sign. -/
def isDecimal (c : Char) : Prop :=
  c.isDigit = true ∧ isSpace c = false ∧ c ≠ 'x' ∧ c ≠ ':' ∧ c ≠ '-' ∧ c ≠ '+'

/-- The `operator>>` of a stream for a `std::string`: white space is skipped
and the characters up to the next white space are read.  The result is the
string and the rest of the stream. -/
def readString (input : List Char) : List Char × List Char :=
  ((input.dropWhile isSpace).takeWhile (fun c => ! isSpace c),
    (input.dropWhile isSpace).dropWhile (fun c => ! isSpace c))

/-- The standard `std::stoi(const std::string&)`: white space is skipped, a
sign is read, then decimal digits as far as they go.  No digit is an error
(`std::invalid_argument`), and so is a number outside of `int`
(`std::out_of_range`). -/
def stoi (s : List Char) : Option ℤ :=
  let s1 := s.dropWhile isSpace
  let signed : Bool × List Char :=
    match s1 with
    | '-' :: t => (true, t)
    | '+' :: t => (false, t)
    | _ => (false, s1)
  let digits := signed.2.takeWhile Char.isDigit
  if digits = [] then none
  else
    let n : ℕ := digits.foldl (fun acc c => acc * 10 + (c.toNat - 48)) 0
    let v : ℤ := if signed.1 then -(n : ℤ) else n
    if -(2 : ℤ) ^ 31 ≤ v ∧ v < 2 ^ 31 then some v else none

/-- The `operator<<` of `Size`, `tlCore/Image.cpp`: width, `x`, height, and
after a colon the pixel aspect ratio when it is not 1.  `showFloat` is the
`operator<<` of the stream for a `float`. -/
def writeSize (showFloat : ℚ → List Char) (value : Size) : List Char :=
  showNat value.w ++ ['x'] ++ showNat value.h ++
    (if value.pixelAspectRatio ≠ 1 then [':'] ++ showFloat value.pixelAspectRatio else [])

/-- The `operator>>` of `Size`, `tlCore/Image.cpp`, reading into `out`: a string
is read and split at the colon into the size and, when there is one, the pixel
aspect ratio; the size is split at `x` into width and height.  `stof` is
`std::stof`.  The result is `none` where the code throws, and else the size
read and the rest of the stream. -/
def readSize (stof : List Char → Option ℚ) (input : List Char) (out : Size) :
    Option (Size × List Char) :=
  let s := readString input
  let split := string.split s.1 ':'
  if split.length = 0 ∨ split.length > 2 then none
  else
    let out1 : Option Size :=
      if split.length = 2 then
        (stof (split.getD 1 [])).map (fun r => { out with pixelAspectRatio := r })
      else some out
    match out1 with
    | none => none
    | some out1 =>
      let split2 := string.split (split.getD 0 []) 'x'
      if split2.length ≠ 2 then none
      else
        match stoi (split2.getD 0 []), stoi (split2.getD 1 []) with
        | some w, some h =>
          some ({ out1 with w := (w % 2 ^ 16).toNat, h := (h % 2 ^ 16).toNat }, s.2)
        | _, _ => none

end image

end tl

/-! ## Facts about the opentime operators -/

namespace tl

namespace RationalTime

theorem not_gt_self (a : RationalTime) : ¬ a.gt a := lt_irrefl _

theorem not_lt_self (a : RationalTime) : ¬ a.lt a := fun h => h (le_refl _)

theorem eq_self (a : RationalTime) : a.eq a := by
  simp [eq, value_rescaled_to]

theorem ge_iff (a b : RationalTime) : a.ge b ↔ b.to_seconds ≤ a.to_seconds := Iff.rfl

theorem lt_iff (a b : RationalTime) : a.lt b ↔ a.to_seconds < b.to_seconds := by
  simp [lt, ge, to_seconds]

theorem le_iff (a b : RationalTime) : a.le b ↔ a.to_seconds ≤ b.to_seconds := by
  simp [le, gt, to_seconds]

theorem value_rescaled_to_self (a : RationalTime) : a.value_rescaled_to a.rate = a.value := by
  simp [value_rescaled_to]

theorem value_rescaled_to_div (a : RationalTime) (r : ℚ) (ha : a.rate ≠ 0) (hr : r ≠ 0) :
    a.value_rescaled_to r / r = a.to_seconds := by
  unfold value_rescaled_to to_seconds
  split_ifs with h
  · rw [h]
  · field_simp
    ring

theorem to_seconds_rescaled_to (a : RationalTime) (r : ℚ) (ha : a.rate ≠ 0) (hr : r ≠ 0) :
    (a.rescaled_to r).to_seconds = a.to_seconds := by
  simpa [rescaled_to, to_seconds] using value_rescaled_to_div a r ha hr

theorem to_seconds_add (a b : RationalTime) (ha : a.rate ≠ 0) (hb : b.rate ≠ 0) :
    (a.add b).to_seconds = a.to_seconds + b.to_seconds := by
  unfold add
  split_ifs with h
  · have := value_rescaled_to_div a b.rate ha hb
    simp only [to_seconds] at this ⊢
    rw [add_div, this]
  · have := value_rescaled_to_div b a.rate hb ha
    simp only [to_seconds] at this ⊢
    rw [add_div, this, add_comm]

theorem to_seconds_sub (a b : RationalTime) (ha : a.rate ≠ 0) (hb : b.rate ≠ 0) :
    (a.sub b).to_seconds = a.to_seconds - b.to_seconds := by
  unfold sub
  split_ifs with h
  · have := value_rescaled_to_div a b.rate ha hb
    simp only [to_seconds] at this ⊢
    rw [sub_div, this]
  · have := value_rescaled_to_div b a.rate hb ha
    simp only [to_seconds] at this ⊢
    rw [sub_div, this]

theorem rate_add (a b : RationalTime) : (a.add b).rate = max a.rate b.rate := by
  unfold add
  split_ifs with h
  · simp [max_eq_right (le_of_lt h)]
  · simp [max_eq_left (not_lt.mp h)]

theorem rate_sub (a b : RationalTime) : (a.sub b).rate = max a.rate b.rate := by
  unfold sub
  split_ifs with h
  · simp [max_eq_right (le_of_lt h)]
  · simp [max_eq_left (not_lt.mp h)]

end RationalTime

namespace TimeRange

theorem end_time_exclusive_eq (r : TimeRange) :
    r.end_time_exclusive =
      ⟨r.start_time.value_rescaled_to r.duration.rate + r.duration.value, r.duration.rate⟩ := by
  simp [end_time_exclusive, RationalTime.add, RationalTime.rescaled_to,
    RationalTime.value_rescaled_to]

theorem to_seconds_end_time_exclusive (r : TimeRange) (h : r.valid) :
    r.end_time_exclusive.to_seconds = r.start_time.to_seconds + r.duration.to_seconds := by
  have h1 : r.start_time.rate ≠ 0 := ne_of_gt h.1
  have h2 : r.duration.rate ≠ 0 := ne_of_gt h.2
  rw [end_time_exclusive_eq]
  have := RationalTime.value_rescaled_to_div r.start_time r.duration.rate h1 h2
  simp only [RationalTime.to_seconds] at this ⊢
  rw [add_div, this]

/-- The inclusive end of a range, case by case. -/
theorem end_time_inclusive_eq (r : TimeRange) :
    r.end_time_inclusive =
      if 1 < r.duration.value then
        if r.duration.value ≠ (⌊r.duration.value⌋ : ℤ) then
          ⟨(⌊r.start_time.value_rescaled_to r.duration.rate + r.duration.value⌋ : ℤ),
            r.duration.rate⟩
        else
          ⟨r.start_time.value_rescaled_to r.duration.rate + r.duration.value - 1,
            r.duration.rate⟩
      else r.start_time := by
  simp [end_time_inclusive, end_time_exclusive_eq, RationalTime.sub, RationalTime.rescaled_to,
    RationalTime.value_rescaled_to, RationalTime.floor]

/-- In a valid range the inclusive end is not before the start. -/
theorem start_le_end_time_inclusive (r : TimeRange) (h : r.valid) :
    r.start_time.le r.end_time_inclusive := by
  have h1 : r.start_time.rate ≠ 0 := ne_of_gt h.1
  have h2 : r.duration.rate ≠ 0 := ne_of_gt h.2
  have hs := RationalTime.value_rescaled_to_div r.start_time r.duration.rate h1 h2
  have hpos : 0 < r.duration.rate := h.2
  rw [RationalTime.le_iff, end_time_inclusive_eq]
  split_ifs with hd hf
  · simp only [RationalTime.to_seconds] at hs ⊢
    rw [← hs]
    apply div_le_div_of_nonneg_right _ (le_of_lt hpos)
    have := Int.sub_one_lt_floor (r.start_time.value_rescaled_to r.duration.rate + r.duration.value)
    linarith
  · simp only [RationalTime.to_seconds] at hs ⊢
    rw [← hs]
    apply div_le_div_of_nonneg_right _ (le_of_lt hpos)
    linarith
  · exact le_refl _

end TimeRange

end tl

/-! ## Looping a time -/

namespace tl.timeline

/-- The looped times that `PlayerTest::_loop` asserts for `[0/24, 24 frames)`. -/
theorem loop_PlayerTest_values :
    loop ⟨0, 24⟩ ⟨⟨0, 24⟩, ⟨24, 24⟩⟩ = ⟨0, 24⟩ ∧
    loop ⟨1, 24⟩ ⟨⟨0, 24⟩, ⟨24, 24⟩⟩ = ⟨1, 24⟩ ∧
    loop ⟨23, 24⟩ ⟨⟨0, 24⟩, ⟨24, 24⟩⟩ = ⟨23, 24⟩ ∧
    loop ⟨24, 24⟩ ⟨⟨0, 24⟩, ⟨24, 24⟩⟩ = ⟨0, 24⟩ ∧
    loop ⟨-1, 24⟩ ⟨⟨0, 24⟩, ⟨24, 24⟩⟩ = ⟨23, 24⟩ := by
  decide!

/-- C2: looping a time is idempotent, for every time and every time range:
`loop(loop(t, r), r) = loop(t, r)`. -/
theorem loop_idempotent (t : RationalTime) (r : TimeRange) :
    loop (loop t r) r = loop t r := by
  unfold loop loopFlag
  by_cases h1 : t.lt r.start_time
  · simp only [h1, if_true]
    split_ifs <;> simp_all [RationalTime.not_gt_self]
  · by_cases h2 : t.gt r.end_time_inclusive
    · simp only [h1, h2, if_true, if_false]
      split_ifs <;> simp_all [RationalTime.not_lt_self]
    · simp [h1, h2]

/-- C4: for every time range `r` and every time `t` with
`r.start_time <= t <= r.end_time_inclusive`, looping returns `t` itself and
does not set the looped flag. -/
theorem loop_inside_unchanged (t : RationalTime) (r : TimeRange)
    (h1 : r.start_time.le t) (h2 : t.le r.end_time_inclusive) :
    loop t r = t ∧ (loopFlag t r).2 = false := by
  have hlt : ¬ t.lt r.start_time := by
    rw [RationalTime.lt_iff]
    rw [RationalTime.le_iff] at h1
    exact not_lt.mpr h1
  have hgt : ¬ t.gt r.end_time_inclusive := h2
  simp [loop, loopFlag, hlt, hgt]

/-- C4 at the range of `PlayerTest::_loop`: `23/24` in `[0/24, 24 frames)`. -/
theorem loop_inside_unchanged_witness :
    loop ⟨23, 24⟩ ⟨⟨0, 24⟩, ⟨24, 24⟩⟩ = ⟨23, 24⟩ ∧
    (loopFlag ⟨23, 24⟩ ⟨⟨0, 24⟩, ⟨24, 24⟩⟩).2 = false :=
  loop_inside_unchanged ⟨23, 24⟩ ⟨⟨0, 24⟩, ⟨24, 24⟩⟩ (by decide!) (by decide!)

end tl.timeline


/-! ## Times and ranges given at one rate -/

namespace tl

namespace RationalTime

theorem add_mk (a b r : ℚ) : add ⟨a, r⟩ ⟨b, r⟩ = ⟨b + a, r⟩ := by
  simp [add, value_rescaled_to]

theorem sub_mk (a b r : ℚ) : sub ⟨a, r⟩ ⟨b, r⟩ = ⟨a - b, r⟩ := by
  simp [sub, value_rescaled_to]

theorem rescaled_to_mk (a r : ℚ) : rescaled_to ⟨a, r⟩ r = ⟨a, r⟩ := by
  simp [rescaled_to, value_rescaled_to]

theorem gt_mk (a b r : ℚ) (hr : 0 < r) : gt ⟨a, r⟩ ⟨b, r⟩ ↔ b < a := by
  simp [gt, div_lt_div_iff_of_pos_right hr]

theorem ge_mk (a b r : ℚ) (hr : 0 < r) : ge ⟨a, r⟩ ⟨b, r⟩ ↔ b ≤ a := by
  simp [ge, div_le_div_iff_of_pos_right hr]

theorem lt_mk (a b r : ℚ) (hr : 0 < r) : lt ⟨a, r⟩ ⟨b, r⟩ ↔ a < b := by
  simp [lt, ge_mk a b r hr]

theorem le_mk (a b r : ℚ) (hr : 0 < r) : le ⟨a, r⟩ ⟨b, r⟩ ↔ a ≤ b := by
  simp [le, gt_mk a b r hr]

theorem eq_mk (a b r : ℚ) : eq ⟨a, r⟩ ⟨b, r⟩ ↔ a = b := by
  simp [eq, value_rescaled_to]

end RationalTime

namespace TimeRange

theorem range_from_start_end_time_inclusive_mk (a b r : ℚ) :
    range_from_start_end_time_inclusive ⟨a, r⟩ ⟨b, r⟩ = ⟨⟨a, r⟩, ⟨b - a + 1, r⟩⟩ := by
  simp [range_from_start_end_time_inclusive,
    RationalTime.duration_from_start_end_time_inclusive]

theorem end_time_exclusive_mk (a d r : ℚ) :
    end_time_exclusive ⟨⟨a, r⟩, ⟨d, r⟩⟩ = ⟨a + d, r⟩ := by
  simp [end_time_exclusive_eq, RationalTime.value_rescaled_to]

theorem end_time_inclusive_mk (a r : ℚ) (d : ℤ) :
    end_time_inclusive ⟨⟨a, r⟩, ⟨d, r⟩⟩ = ⟨if (1 : ℚ) < d then a + d - 1 else a, r⟩ := by
  rw [end_time_inclusive_eq]
  by_cases h : (1 : ℚ) < d <;> simp [RationalTime.value_rescaled_to, h]

end TimeRange

end tl

/-! ## Looping a range -/

namespace tl.timeline

/-- The looped ranges that `PlayerTest::_loop` asserts. -/
theorem loopRanges_PlayerTest_values :
    loopRanges ⟨⟨0, 24⟩, ⟨24, 24⟩⟩ ⟨⟨0, 24⟩, ⟨24, 24⟩⟩ = [⟨⟨0, 24⟩, ⟨24, 24⟩⟩] ∧
    loopRanges ⟨⟨-10, 24⟩, ⟨34, 24⟩⟩ ⟨⟨0, 24⟩, ⟨24, 24⟩⟩ = [⟨⟨0, 24⟩, ⟨24, 24⟩⟩] ∧
    loopRanges ⟨⟨-10, 24⟩, ⟨20, 24⟩⟩ ⟨⟨0, 24⟩, ⟨24, 24⟩⟩ =
      [⟨⟨14, 24⟩, ⟨10, 24⟩⟩, ⟨⟨0, 24⟩, ⟨10, 24⟩⟩] ∧
    loopRanges ⟨⟨10, 24⟩, ⟨20, 24⟩⟩ ⟨⟨0, 24⟩, ⟨24, 24⟩⟩ =
      [⟨⟨10, 24⟩, ⟨14, 24⟩⟩, ⟨⟨0, 24⟩, ⟨6, 24⟩⟩] ∧
    loopRanges ⟨⟨-1, 24⟩, ⟨2, 24⟩⟩ ⟨⟨0, 24⟩, ⟨1, 24⟩⟩ = [⟨⟨0, 24⟩, ⟨1, 24⟩⟩] := by
  decide!

/-- C6: for every raw range whose duration is greater than or equal to the
duration of the in/out range, `loop` returns exactly one range, the in/out
range itself. -/
theorem loopRanges_collapse (value range : TimeRange)
    (h : value.duration.ge range.duration) :
    loopRanges value range = [range] := by
  simp [loopRanges, h]

/-- C6 at the ranges of `PlayerTest::_loop`: `[-10/24, 34 frames)` against
`[0/24, 24 frames)`. -/
theorem loopRanges_collapse_witness :
    loopRanges ⟨⟨-10, 24⟩, ⟨34, 24⟩⟩ ⟨⟨0, 24⟩, ⟨24, 24⟩⟩ = [⟨⟨0, 24⟩, ⟨24, 24⟩⟩] :=
  loopRanges_collapse ⟨⟨-10, 24⟩, ⟨34, 24⟩⟩ ⟨⟨0, 24⟩, ⟨24, 24⟩⟩ (by decide!)

end tl.timeline

namespace tl.timeline

/-- The start of a raw range wrapped into an in/out range of `d` frames lies
less than `d` frames after its start. -/
theorem wrap_offset_bounds (x d : ℚ) (hd : 0 < d) :
    0 ≤ x - d * ((⌊x / d⌋ : ℤ) : ℚ) ∧ x - d * ((⌊x / d⌋ : ℤ) : ℚ) < d := by
  have h1 : ((⌊x / d⌋ : ℤ) : ℚ) ≤ x / d := Int.floor_le _
  have h2 : x / d < ((⌊x / d⌋ : ℤ) : ℚ) + 1 := Int.lt_floor_add_one _
  have e : d * (x / d) = x := by field_simp
  have h3 := mul_le_mul_of_nonneg_left h1 (le_of_lt hd)
  have h4 := mul_lt_mul_of_pos_left h2 hd
  rw [e] at h3 h4
  constructor
  · linarith
  · linarith

/-- A range given at the rate of the duration of a valid range lies inside it
when its frames do. -/
theorem inside_mk_iff (range : TimeRange) (x m : ℚ) (hr : range.valid) :
    TimeRange.inside ⟨⟨x, range.duration.rate⟩, ⟨m, range.duration.rate⟩⟩ range ↔
      range.start_time.value_rescaled_to range.duration.rate ≤ x ∧
      x + m ≤ range.start_time.value_rescaled_to range.duration.rate +
        range.duration.value := by
  have hr1 : range.start_time.rate ≠ 0 := ne_of_gt hr.1
  have hr2 : range.duration.rate ≠ 0 := ne_of_gt hr.2
  have hs := RationalTime.value_rescaled_to_div range.start_time range.duration.rate hr1 hr2
  unfold TimeRange.inside
  rw [RationalTime.le_iff, RationalTime.le_iff, TimeRange.end_time_exclusive_mk,
    TimeRange.end_time_exclusive_eq range, ← hs]
  simp only [RationalTime.to_seconds]
  rw [div_le_div_iff_of_pos_right hr.2, div_le_div_iff_of_pos_right hr.2]

/-- The looped ranges of a valid raw range against a valid in/out range of
positive duration: one or two ranges, disjoint, inside the in/out range, and
of non-negative duration when the raw range is. -/
theorem loopRanges_properties (value range : TimeRange) (hv : value.valid) (hr : range.valid)
    (hd : 0 < range.duration.value) :
    ((loopRanges value range).length = 1 ∨ (loopRanges value range).length = 2) ∧
    (loopRanges value range).Pairwise TimeRange.disjoint ∧
    (∀ i ∈ loopRanges value range, i.inside range) ∧
    (0 ≤ value.duration.value → ∀ i ∈ loopRanges value range, 0 ≤ i.duration.value) := by
  have hrate := hr.2
  unfold loopRanges
  by_cases c1 : value.duration.ge range.duration
  · rw [if_pos c1]
    refine ⟨Or.inl rfl, List.pairwise_singleton _ _, ?_, ?_⟩
    · intro i hi
      rw [List.mem_singleton.1 hi]
      exact ⟨(RationalTime.le_iff _ _).2 (le_refl _), (RationalTime.le_iff _ _).2 (le_refl _)⟩
    · intro _ i hi
      rw [List.mem_singleton.1 hi]
      exact le_of_lt hd
  · rw [if_neg c1]
    by_cases c2 : value.start_time.ge range.start_time ∧
        value.end_time_exclusive.le range.end_time_exclusive
    · rw [if_pos c2]
      refine ⟨Or.inl rfl, List.pairwise_singleton _ _, ?_, ?_⟩
      · intro i hi
        rw [List.mem_singleton.1 hi]
        exact ⟨(RationalTime.le_iff _ _).2 ((RationalTime.ge_iff _ _).1 c2.1), c2.2⟩
      · intro h0 i hi
        rw [List.mem_singleton.1 hi]
        exact h0
    · rw [if_neg c2]
      simp only []
      have hn : value.duration.value_rescaled_to range.duration.rate < range.duration.value := by
        have h1 := RationalTime.value_rescaled_to_div value.duration range.duration.rate
          (ne_of_gt hv.2) (ne_of_gt hrate)
        have h2 : value.duration.to_seconds < range.duration.to_seconds := by
          have := (RationalTime.ge_iff _ _).not.1 c1
          exact not_le.1 this
        rw [← h1] at h2
        simp only [RationalTime.to_seconds] at h2
        exact (div_lt_div_iff_of_pos_right hrate).1 h2
      have hn0 : 0 ≤ value.duration.value →
          0 ≤ value.duration.value_rescaled_to range.duration.rate := by
        intro h0
        unfold RationalTime.value_rescaled_to
        split_ifs
        · exact h0
        · exact div_nonneg (mul_nonneg h0 (le_of_lt hrate)) (le_of_lt hv.2)
      obtain ⟨ho1, ho2⟩ := wrap_offset_bounds
        (value.start_time.value_rescaled_to range.duration.rate -
          range.start_time.value_rescaled_to range.duration.rate) range.duration.value hd
      by_cases c3 : value.start_time.value_rescaled_to range.duration.rate -
            range.start_time.value_rescaled_to range.duration.rate -
            range.duration.value *
              ((⌊(value.start_time.value_rescaled_to range.duration.rate -
                range.start_time.value_rescaled_to range.duration.rate) /
                range.duration.value⌋ : ℤ) : ℚ) +
          value.duration.value_rescaled_to range.duration.rate ≤ range.duration.value
      · rw [if_pos c3]
        refine ⟨Or.inl rfl, List.pairwise_singleton _ _, ?_, ?_⟩
        · intro i hi
          rw [List.mem_singleton.1 hi, inside_mk_iff range _ _ hr]
          constructor <;> linarith
        · intro h0 i hi
          rw [List.mem_singleton.1 hi]
          exact hn0 h0
      · rw [if_neg c3]
        have c3q := not_le.1 c3
        refine ⟨Or.inr rfl, ?_, ?_, ?_⟩
        · refine List.pairwise_cons.2 ⟨?_, List.pairwise_singleton _ _⟩
          intro j hj
          rw [List.mem_singleton.1 hj]
          right
          rw [TimeRange.end_time_exclusive_mk, RationalTime.le_mk _ _ _ hrate]
          linarith
        · intro i hi
          rcases List.mem_cons.1 hi with hi | hi
          · rw [hi, inside_mk_iff range _ _ hr]
            constructor <;> linarith
          · rw [List.mem_singleton.1 hi, inside_mk_iff range _ _ hr]
            constructor <;> linarith
        · intro _ i hi
          rcases List.mem_cons.1 hi with hi | hi
          · rw [hi]
            simp only []
            linarith
          · rw [List.mem_singleton.1 hi]
            simp only []
            linarith

/-- C5: for every raw range and every in/out range, both valid and the in/out
range of positive duration, `loop` returns exactly one or two ranges, the
returned ranges are pairwise disjoint, and each lies inside the in/out
range. -/
theorem loopRanges_disjoint_inside (value range : TimeRange) (hv : value.valid)
    (hr : range.valid) (hd : 0 < range.duration.value) :
    ((loopRanges value range).length = 1 ∨ (loopRanges value range).length = 2) ∧
    (loopRanges value range).Pairwise TimeRange.disjoint ∧
    ∀ i ∈ loopRanges value range, i.inside range :=
  have h := loopRanges_properties value range hv hr hd
  ⟨h.1, h.2.1, h.2.2.1⟩

/-- C5 at a range of `PlayerTest::_loop`, `[-10/24, 20 frames)` against
`[0/24, 24 frames)`, and at a raw range that lies wholly before the in/out
range, `[0/24, 5 frames)` against `[50/24, 10 frames)`, which is wrapped to
`[50/24, 5 frames)`. -/
theorem loopRanges_disjoint_inside_witness :
    loopRanges ⟨⟨-10, 24⟩, ⟨20, 24⟩⟩ ⟨⟨0, 24⟩, ⟨24, 24⟩⟩ =
      [⟨⟨14, 24⟩, ⟨10, 24⟩⟩, ⟨⟨0, 24⟩, ⟨10, 24⟩⟩] ∧
    loopRanges ⟨⟨0, 24⟩, ⟨5, 24⟩⟩ ⟨⟨50, 24⟩, ⟨10, 24⟩⟩ = [⟨⟨50, 24⟩, ⟨5, 24⟩⟩] ∧
    (loopRanges ⟨⟨-10, 24⟩, ⟨20, 24⟩⟩ ⟨⟨0, 24⟩, ⟨24, 24⟩⟩).Pairwise TimeRange.disjoint ∧
    (∀ i ∈ loopRanges ⟨⟨0, 24⟩, ⟨5, 24⟩⟩ ⟨⟨50, 24⟩, ⟨10, 24⟩⟩,
      i.inside ⟨⟨50, 24⟩, ⟨10, 24⟩⟩) :=
  ⟨by decide!, by decide!,
    (loopRanges_disjoint_inside ⟨⟨-10, 24⟩, ⟨20, 24⟩⟩ ⟨⟨0, 24⟩, ⟨24, 24⟩⟩ (by decide!)
      (by decide!) (by norm_num)).2.1,
    (loopRanges_disjoint_inside ⟨⟨0, 24⟩, ⟨5, 24⟩⟩ ⟨⟨50, 24⟩, ⟨10, 24⟩⟩ (by decide!)
      (by decide!) (by norm_num)).2.2⟩

/-- The raw video range of `cacheUpdate` at a current time given at the rate of
the timeline: it starts the floored behind-budget before the current time and
is as many frames long as both floored budgets and the current frame. -/
theorem cacheUpdateVideoRange_mk (timeRange : TimeRange) (rate t : ℚ)
    (cacheDirection : CacheDirection) (cacheOptions : PlayerCacheOptions)
    (hrate : timeRange.duration.rate = rate) :
    Player.cacheUpdateVideoRange timeRange ⟨t, rate⟩ cacheDirection cacheOptions =
      match cacheDirection with
      | CacheDirection.Forward =>
        ⟨⟨t - (⌊cacheOptions.readBehind.value_rescaled_to rate⌋ : ℤ), rate⟩,
          ⟨((⌊cacheOptions.readAhead.value_rescaled_to rate⌋ +
            ⌊cacheOptions.readBehind.value_rescaled_to rate⌋ + 1 : ℤ) : ℚ), rate⟩⟩
      | CacheDirection.Reverse =>
        ⟨⟨t - (⌊cacheOptions.readAhead.value_rescaled_to rate⌋ : ℤ), rate⟩,
          ⟨((⌊cacheOptions.readBehind.value_rescaled_to rate⌋ +
            ⌊cacheOptions.readAhead.value_rescaled_to rate⌋ + 1 : ℤ) : ℚ), rate⟩⟩ := by
  subst hrate
  cases cacheDirection <;>
    simp only [Player.cacheUpdateVideoRange, time.floor, RationalTime.rescaled_to,
      RationalTime.sub_mk, RationalTime.add_mk,
      TimeRange.range_from_start_end_time_inclusive_mk] <;>
    congr 2 <;> push_cast <;> ring

/-- A non-negative budget given at a valid rate stays non-negative when it is
rescaled to a positive rate and floored. -/
theorem floor_value_rescaled_to_nonneg (x : RationalTime) (rate : ℚ) (hr : 0 < rate)
    (hx : 0 ≤ x.value) (hv : x.valid) : 0 ≤ ⌊x.value_rescaled_to rate⌋ := by
  apply Int.floor_nonneg.mpr
  unfold RationalTime.value_rescaled_to
  split_ifs
  · exact hx
  · exact div_nonneg (mul_nonneg hx (le_of_lt hr)) (le_of_lt hv)

/-- A range built from a valid start and an inclusive end at the same rate and
no earlier is valid and at least one frame long. -/
theorem range_from_inclusive_valid (x y : RationalTime) (hx : x.valid)
    (hrate : x.rate = y.rate) (hle : x.to_seconds ≤ y.to_seconds) :
    (TimeRange.range_from_start_end_time_inclusive x y).valid ∧
    1 ≤ (TimeRange.range_from_start_end_time_inclusive x y).duration.value := by
  unfold TimeRange.range_from_start_end_time_inclusive
    RationalTime.duration_from_start_end_time_inclusive
  rw [if_pos hrate]
  refine ⟨⟨hx, hx⟩, ?_⟩
  simp only [RationalTime.to_seconds] at hle
  rw [← hrate, div_le_div_iff_of_pos_right hx] at hle
  simp only []
  linarith

/-- The raw video range of `cacheUpdate` is valid and at least one frame long
for a valid current time, a timeline of positive rate and budgets that are not
negative. -/
theorem cacheUpdateVideoRange_valid (timeRange : TimeRange) (currentTime : RationalTime)
    (cacheDirection : CacheDirection) (cacheOptions : PlayerCacheOptions)
    (htr : 0 < timeRange.duration.rate) (hc : currentTime.valid)
    (ha : 0 ≤ cacheOptions.readAhead.value) (hav : cacheOptions.readAhead.valid)
    (hb : 0 ≤ cacheOptions.readBehind.value) (hbv : cacheOptions.readBehind.valid) :
    (Player.cacheUpdateVideoRange timeRange currentTime cacheDirection cacheOptions).valid ∧
    1 ≤ (Player.cacheUpdateVideoRange timeRange currentTime cacheDirection
      cacheOptions).duration.value := by
  have hA := floor_value_rescaled_to_nonneg cacheOptions.readAhead _ htr ha hav
  have hB := floor_value_rescaled_to_nonneg cacheOptions.readBehind _ htr hb hbv
  have hAq : (0 : ℚ) ≤ (⌊cacheOptions.readAhead.value_rescaled_to
      timeRange.duration.rate⌋ : ℤ) := by exact_mod_cast hA
  have hBq : (0 : ℚ) ≤ (⌊cacheOptions.readBehind.value_rescaled_to
      timeRange.duration.rate⌋ : ℤ) := by exact_mod_cast hB
  have hc0 : currentTime.rate ≠ 0 := ne_of_gt hc
  have hr0 : timeRange.duration.rate ≠ 0 := ne_of_gt htr
  have key : ∀ p q : ℤ, (0 : ℚ) ≤ p → (0 : ℚ) ≤ q →
      (TimeRange.range_from_start_end_time_inclusive
        (currentTime.sub ⟨(p : ℚ), timeRange.duration.rate⟩)
        (currentTime.add ⟨(q : ℚ), timeRange.duration.rate⟩)).valid ∧
      1 ≤ (TimeRange.range_from_start_end_time_inclusive
        (currentTime.sub ⟨(p : ℚ), timeRange.duration.rate⟩)
        (currentTime.add ⟨(q : ℚ), timeRange.duration.rate⟩)).duration.value := by
    intro p q hp hq
    apply range_from_inclusive_valid
    · unfold RationalTime.valid
      rw [RationalTime.rate_sub]
      exact lt_max_of_lt_left hc
    · rw [RationalTime.rate_sub, RationalTime.rate_add]
    · rw [RationalTime.to_seconds_sub currentTime ⟨(p : ℚ), timeRange.duration.rate⟩ hc0 hr0,
        RationalTime.to_seconds_add currentTime ⟨(q : ℚ), timeRange.duration.rate⟩ hc0 hr0]
      have h1 : (0 : ℚ) ≤ (⟨(p : ℚ), timeRange.duration.rate⟩ : RationalTime).to_seconds :=
        div_nonneg hp (le_of_lt htr)
      have h2 : (0 : ℚ) ≤ (⟨(q : ℚ), timeRange.duration.rate⟩ : RationalTime).to_seconds :=
        div_nonneg hq (le_of_lt htr)
      linarith
  cases cacheDirection
  · exact key _ _ hBq hAq
  · exact key _ _ hAq hBq

/-- C1: for every current time, every in/out range of positive duration, both
cache directions and every read ahead and read behind that is not negative,
all of them valid, each range of the video window of `cacheUpdate`, the raw
range around the current time looped against the in/out range, has a duration
that is not negative and lies inside the in/out range. -/
theorem cacheUpdateVideoRanges_inside (timeRange : TimeRange) (currentTime : RationalTime)
    (inOutRange : TimeRange) (cacheDirection : CacheDirection)
    (cacheOptions : PlayerCacheOptions)
    (htr : 0 < timeRange.duration.rate) (hc : currentTime.valid) (hio : inOutRange.valid)
    (hd : 0 < inOutRange.duration.value)
    (ha : 0 ≤ cacheOptions.readAhead.value) (hav : cacheOptions.readAhead.valid)
    (hb : 0 ≤ cacheOptions.readBehind.value) (hbv : cacheOptions.readBehind.valid) :
    ∀ i ∈ Player.cacheUpdateVideoRanges timeRange currentTime inOutRange cacheDirection
        cacheOptions,
      0 ≤ i.duration.value ∧ i.inside inOutRange := by
  have hraw := cacheUpdateVideoRange_valid timeRange currentTime cacheDirection cacheOptions
    htr hc ha hav hb hbv
  have h := loopRanges_properties _ inOutRange hraw.1 hio hd
  intro i hi
  exact ⟨h.2.2.2 (le_trans zero_le_one hraw.2) i hi, h.2.2.1 i hi⟩

/-- C1 at the timeline of `PlayerTest::_player`, in/out range
`[10/24, 48 frames)`, current time `56/24`, read ahead 4 frames, forward: the
window wraps past the end, `[56/24, 2 frames)` and `[10/24, 3 frames)`.  With
the current time `0/24` before the in/out range `[50/24, 10 frames)` of a
timeline `[0/24, 100 frames)` the window is wrapped to `[50/24, 5 frames)`. -/
theorem cacheUpdateVideoRanges_inside_witness :
    Player.cacheUpdateVideoRanges ⟨⟨10, 24⟩, ⟨48, 24⟩⟩ ⟨56, 24⟩ ⟨⟨10, 24⟩, ⟨48, 24⟩⟩
        CacheDirection.Forward ⟨⟨4, 24⟩, ⟨0, 24⟩⟩ =
      [⟨⟨56, 24⟩, ⟨2, 24⟩⟩, ⟨⟨10, 24⟩, ⟨3, 24⟩⟩] ∧
    Player.cacheUpdateVideoRanges ⟨⟨0, 24⟩, ⟨100, 24⟩⟩ ⟨0, 24⟩ ⟨⟨50, 24⟩, ⟨10, 24⟩⟩
        CacheDirection.Forward ⟨⟨4, 24⟩, ⟨0, 24⟩⟩ = [⟨⟨50, 24⟩, ⟨5, 24⟩⟩] ∧
    (0 : ℚ) ≤ (⟨⟨10, 24⟩, ⟨3, 24⟩⟩ : TimeRange).duration.value ∧
    TimeRange.inside ⟨⟨10, 24⟩, ⟨3, 24⟩⟩ ⟨⟨10, 24⟩, ⟨48, 24⟩⟩ :=
  ⟨by decide!, by decide!,
    cacheUpdateVideoRanges_inside ⟨⟨10, 24⟩, ⟨48, 24⟩⟩ ⟨56, 24⟩ ⟨⟨10, 24⟩, ⟨48, 24⟩⟩
      CacheDirection.Forward ⟨⟨4, 24⟩, ⟨0, 24⟩⟩ (by norm_num) (by decide!) (by decide!)
      (by norm_num) (by norm_num) (by decide!) (by norm_num) (by decide!)
      ⟨⟨10, 24⟩, ⟨3, 24⟩⟩ (by decide!)⟩

end tl.timeline

/-! ## Seeking -/

namespace tl.timeline

/-- Two valid times that compare equal with `operator==` are the same time in
seconds. -/
theorem to_seconds_eq_of_eq (a b : RationalTime) (h : a.eq b) (ha : a.rate ≠ 0)
    (hb : b.rate ≠ 0) : a.to_seconds = b.to_seconds := by
  have := RationalTime.value_rescaled_to_div a b.rate ha hb
  rw [← this, h]
  rfl

/-- Between valid times `operator==` is symmetric. -/
theorem eq_symm (a b : RationalTime) (h : a.eq b) (ha : a.rate ≠ 0) (hb : b.rate ≠ 0) :
    b.eq a := by
  have hs := to_seconds_eq_of_eq a b h ha hb
  have := RationalTime.value_rescaled_to_div b a.rate hb ha
  unfold RationalTime.eq
  rw [← hs] at this
  unfold RationalTime.to_seconds at this
  exact (div_left_inj' ha).mp this

/-- The inclusive end of a valid range has a positive rate. -/
theorem rate_end_time_inclusive_pos (r : TimeRange) (hv : r.valid) :
    0 < r.end_time_inclusive.rate := by
  rw [TimeRange.end_time_inclusive_eq]
  split_ifs
  · exact hv.2
  · exact hv.2
  · exact hv.1

/-- A time looped into a valid range lies between the start and the inclusive
end of the range. -/
theorem loop_inside_range (t : RationalTime) (r : TimeRange) (hv : r.valid) :
    r.start_time.le (loop t r) ∧ (loop t r).le r.end_time_inclusive := by
  have hse := r.start_le_end_time_inclusive hv
  unfold loop loopFlag
  by_cases h1 : t.lt r.start_time
  · simp only [h1, if_true]
    exact ⟨hse, RationalTime.not_gt_self _⟩
  · by_cases h2 : t.gt r.end_time_inclusive
    · simp only [h1, h2, if_true, if_false]
      exact ⟨RationalTime.not_gt_self _, hse⟩
    · simp only [h1, h2, if_false]
      refine ⟨?_, h2⟩
      rw [RationalTime.le_iff]
      rw [RationalTime.lt_iff] at h1
      exact not_lt.mp h1

/-- A time of positive rate looped into a valid range has a positive rate. -/
theorem rate_loop_pos (t : RationalTime) (r : TimeRange) (hv : r.valid) (ht : 0 < t.rate) :
    0 < (loop t r).rate := by
  unfold loop loopFlag
  split_ifs
  · exact rate_end_time_inclusive_pos r hv
  · exact hv.1
  · exact ht

/-- The current time after `seek`: the looped time, unless it compares equal
to the current time, which is then kept. -/
theorem seek_currentTime_eq (p : Player) (t : RationalTime) (now : ℕ) :
    (p.seek t now).currentTime =
      if (loop (time.floor (t.rescaled_to p.timeRange.duration.rate)) p.timeRange).eq
          p.currentTime then p.currentTime
      else loop (time.floor (t.rescaled_to p.timeRange.duration.rate)) p.timeRange := by
  unfold Player.seek setIfChanged Player.resetAudioTime
  by_cases h : (loop (time.floor (t.rescaled_to p.timeRange.duration.rate)) p.timeRange).eq
      p.currentTime
  · simp [h]
  · simp only [h, if_false]
    split_ifs <;> rfl

/-- C7: for every time `t`, every valid time range of the timeline and every
valid current time, after `seek(t)` the current time equals (with
`operator==`, in both directions) the time `t` rescaled to the rate of the
timeline, floored and looped into the time range of the timeline, and it lies
between the start and the inclusive end of that range; the in/out range has no
part in it. -/
theorem seek_currentTime_in_timeRange (p : Player) (t : RationalTime) (now : ℕ)
    (hR : p.timeRange.valid) (hc : p.currentTime.valid) :
    (p.seek t now).currentTime.eq
        (loop (time.floor (t.rescaled_to p.timeRange.duration.rate)) p.timeRange) ∧
    (loop (time.floor (t.rescaled_to p.timeRange.duration.rate)) p.timeRange).eq
        (p.seek t now).currentTime ∧
    p.timeRange.start_time.le (p.seek t now).currentTime ∧
    (p.seek t now).currentTime.le p.timeRange.end_time_inclusive ∧
    ∀ inOutRange : TimeRange,
      ({ p with inOutRange := inOutRange }.seek t now).currentTime =
        (p.seek t now).currentTime := by
  have hin := loop_inside_range (time.floor (t.rescaled_to p.timeRange.duration.rate))
    p.timeRange hR
  have hrate := rate_loop_pos (time.floor (t.rescaled_to p.timeRange.duration.rate))
    p.timeRange hR hR.2
  have hc0 : p.currentTime.rate ≠ 0 := ne_of_gt hc
  refine ⟨?_, ?_, ?_, ?_, ?_⟩
  · rw [seek_currentTime_eq]
    split_ifs with h
    · exact eq_symm _ _ h (ne_of_gt hrate) hc0
    · exact RationalTime.eq_self _
  · rw [seek_currentTime_eq]
    split_ifs with h
    · exact h
    · exact RationalTime.eq_self _
  · rw [seek_currentTime_eq]
    split_ifs with h
    · rw [RationalTime.le_iff, ← to_seconds_eq_of_eq _ _ h (ne_of_gt hrate) hc0,
        ← RationalTime.le_iff]
      exact hin.1
    · exact hin.1
  · rw [seek_currentTime_eq]
    split_ifs with h
    · rw [RationalTime.le_iff, ← to_seconds_eq_of_eq _ _ h (ne_of_gt hrate) hc0,
        ← RationalTime.le_iff]
      exact hin.2
    · exact hin.2
  · intro inOutRange
    rw [seek_currentTime_eq, seek_currentTime_eq]

/-- C7 at the player of `PlayerTest::_player`: timeline `[10/24, 48 frames)`,
seeking to `11/24`. -/
theorem seek_currentTime_in_timeRange_witness :
    ((Player.init ⟨⟨10, 24⟩, ⟨48, 24⟩⟩ invalidTime).seek ⟨11, 24⟩ 0).currentTime = ⟨11, 24⟩ ∧
    TimeRange.start_time ⟨⟨10, 24⟩, ⟨48, 24⟩⟩ =
      (Player.init ⟨⟨10, 24⟩, ⟨48, 24⟩⟩ invalidTime).timeRange.start_time ∧
    (Player.init ⟨⟨10, 24⟩, ⟨48, 24⟩⟩ invalidTime).timeRange.start_time.le
      ((Player.init ⟨⟨10, 24⟩, ⟨48, 24⟩⟩ invalidTime).seek ⟨11, 24⟩ 0).currentTime :=
  ⟨by decide!, rfl,
    (seek_currentTime_in_timeRange (Player.init ⟨⟨10, 24⟩, ⟨48, 24⟩⟩ invalidTime) ⟨11, 24⟩ 0
      (by decide!) (by decide!)).2.2.1⟩

end tl.timeline

/-! ## Frame steps -/

namespace tl.timeline

/-- Looping a time into a range of `d` whole frames, `d` at least one, all at
one rate. -/
theorem loop_mk (m s r : ℚ) (d : ℤ) (hr : 0 < r) (hd : 1 ≤ d) :
    loop ⟨m, r⟩ ⟨⟨s, r⟩, ⟨d, r⟩⟩ =
      if m < s then ⟨s + d - 1, r⟩ else if s + d - 1 < m then ⟨s, r⟩ else ⟨m, r⟩ := by
  have he : (if (1 : ℚ) < d then s + d - 1 else s) = s + d - 1 := by
    split_ifs with h
    · rfl
    · have h1 : d ≤ 1 := by exact_mod_cast not_lt.mp h
      have h2 : d = 1 := le_antisymm h1 hd
      subst h2
      norm_num
  unfold loop loopFlag
  rw [TimeRange.end_time_inclusive_mk, he]
  simp only [RationalTime.lt_mk _ _ _ hr, RationalTime.gt_mk _ _ _ hr]
  split_ifs <;> rfl

/-- `setIfChanged` on times of one rate stores the new time. -/
theorem setIfChanged_eq_of_rate_eq (cur tmp : RationalTime) (h : tmp.rate = cur.rate) :
    (if tmp.eq cur then cur else tmp) = tmp := by
  split_ifs with he
  · obtain ⟨tv, tr⟩ := tmp
    obtain ⟨cv, cr⟩ := cur
    simp only at h
    subst h
    rw [RationalTime.eq_mk] at he
    rw [he]
  · rfl

/-- Seeking to a whole frame in a timeline of a whole number of frames, from a
current time at the rate of the timeline. -/
theorem seek_frame (p : Player) (now : ℕ) (r s : ℚ) (d m : ℤ) (c : ℚ) (hr : 0 < r)
    (hd : 1 ≤ d) (hR : p.timeRange = ⟨⟨s, r⟩, ⟨d, r⟩⟩) (hc : p.currentTime = ⟨c, r⟩) :
    (p.seek ⟨m, r⟩ now).currentTime = loop ⟨m, r⟩ p.timeRange := by
  have hfl : time.floor (RationalTime.rescaled_to ⟨m, r⟩ r) = ⟨m, r⟩ := by
    simp [time.floor, RationalTime.rescaled_to_mk]
  rw [seek_currentTime_eq, hR, hc]
  simp only [hfl]
  apply setIfChanged_eq_of_rate_eq
  rw [loop_mk _ _ _ _ hr hd]
  split_ifs <;> rfl

/-- `setPlayback(Stop)` changes neither the current time nor the time range of
the timeline. -/
theorem setPlayback_Stop_currentTime (p : Player) (now : ℕ) :
    (p.setPlayback Playback.Stop now).currentTime = p.currentTime ∧
    (p.setPlayback Playback.Stop now).timeRange = p.timeRange := by
  unfold Player.setPlayback setIfChanged Player.resetAudioTime
  cases p.loop <;> simp only [] <;> split_ifs <;> simp_all

/-- The current times that `PlayerTest::_player` asserts for the frame steps
in the timeline `[10/24, 48 frames)`. -/
theorem timeAction_PlayerTest_values :
    ((Player.init ⟨⟨10, 24⟩, ⟨48, 24⟩⟩ ⟨10, 24⟩).timeAction TimeAction.FrameNext
      0).currentTime = ⟨11, 24⟩ ∧
    ((Player.init ⟨⟨10, 24⟩, ⟨48, 24⟩⟩ ⟨11, 24⟩).timeAction TimeAction.FrameNextX10
      0).currentTime = ⟨21, 24⟩ ∧
    ((Player.init ⟨⟨10, 24⟩, ⟨48, 24⟩⟩ ⟨21, 24⟩).timeAction TimeAction.FrameNextX100
      0).currentTime = ⟨10, 24⟩ ∧
    ((Player.init ⟨⟨10, 24⟩, ⟨48, 24⟩⟩ ⟨10, 24⟩).timeAction TimeAction.FramePrev
      0).currentTime = ⟨57, 24⟩ ∧
    ((Player.init ⟨⟨10, 24⟩, ⟨48, 24⟩⟩ ⟨57, 24⟩).timeAction TimeAction.FramePrevX10
      0).currentTime = ⟨47, 24⟩ ∧
    ((Player.init ⟨⟨10, 24⟩, ⟨48, 24⟩⟩ ⟨47, 24⟩).timeAction TimeAction.FramePrevX100
      0).currentTime = ⟨57, 24⟩ := by
  decide!

/-- C8, as the claim states it, fails for a current time that is not a whole
frame: a player created at the current time `(21/2)/24` in the timeline
`[10/24, 48 frames)` is inside the time range, and `FrameNext` moves it to
`11/24`, because `seek` floors, while `loop(t + 1 frame, R)` is `(23/2)/24`. -/
theorem timeAction_fractional_counterexample :
    TimeRange.contains ⟨⟨10, 24⟩, ⟨48, 24⟩⟩
      (Player.init ⟨⟨10, 24⟩, ⟨48, 24⟩⟩ ⟨21 / 2, 24⟩).currentTime ∧
    ((Player.init ⟨⟨10, 24⟩, ⟨48, 24⟩⟩ ⟨21 / 2, 24⟩).timeAction TimeAction.FrameNext
      0).currentTime = ⟨11, 24⟩ ∧
    loop ((Player.init ⟨⟨10, 24⟩, ⟨48, 24⟩⟩ ⟨21 / 2, 24⟩).currentTime.add ⟨1, 24⟩)
      ⟨⟨10, 24⟩, ⟨48, 24⟩⟩ = ⟨23 / 2, 24⟩ ∧
    ¬ ((Player.init ⟨⟨10, 24⟩, ⟨48, 24⟩⟩ ⟨21 / 2, 24⟩).timeAction TimeAction.FrameNext
      0).currentTime.eq
        (loop ((Player.init ⟨⟨10, 24⟩, ⟨48, 24⟩⟩ ⟨21 / 2, 24⟩).currentTime.add ⟨1, 24⟩)
          ⟨⟨10, 24⟩, ⟨48, 24⟩⟩) := by
  decide!

/-- C8 (amended): in a timeline of a whole number `d` of frames, at least one,
for every current time that is a whole frame `k` inside the time range (at the
rate of the timeline) and `n` in `{1, 10, 100}`, the frame-next actions set
the current time to `loop(t + n frames, R)`, which is frame `k + n` or, past
the end, the start of the range; the frame-previous actions set it to
`loop(t - n frames, R)`, which is frame `k - n` or, before the start, the
inclusive end of the range. -/
theorem timeAction_frame_steps (p : Player) (now : ℕ) (r s : ℚ) (d k : ℤ)
    (hr : 0 < r) (hd : 1 ≤ d) (hR : p.timeRange = ⟨⟨s, r⟩, ⟨d, r⟩⟩)
    (hc : p.currentTime = ⟨k, r⟩) (h1 : s ≤ k) (h2 : (k : ℚ) ≤ s + d - 1) :
    (∀ x ∈ [(TimeAction.FrameNext, (1 : ℤ)), (TimeAction.FrameNextX10, 10),
        (TimeAction.FrameNextX100, 100)],
      (p.timeAction x.1 now).currentTime = loop (p.currentTime.add ⟨x.2, r⟩) p.timeRange ∧
      (p.timeAction x.1 now).currentTime =
        if (k : ℚ) + x.2 ≤ s + d - 1 then ⟨(k : ℚ) + x.2, r⟩ else p.timeRange.start_time) ∧
    (∀ x ∈ [(TimeAction.FramePrev, (1 : ℤ)), (TimeAction.FramePrevX10, 10),
        (TimeAction.FramePrevX100, 100)],
      (p.timeAction x.1 now).currentTime = loop (p.currentTime.sub ⟨x.2, r⟩) p.timeRange ∧
      (p.timeAction x.1 now).currentTime =
        if s ≤ (k : ℚ) - x.2 then ⟨(k : ℚ) - x.2, r⟩
        else p.timeRange.end_time_inclusive) := by
  obtain ⟨hsc, hst⟩ := setPlayback_Stop_currentTime p now
  have hrate : p.timeRange.duration.rate = r := by rw [hR]
  have hR1 : (p.setPlayback Playback.Stop now).timeRange = ⟨⟨s, r⟩, ⟨d, r⟩⟩ := by
    rw [hst, hR]
  have hc1 : (p.setPlayback Playback.Stop now).currentTime = ⟨k, r⟩ := by rw [hsc, hc]
  have hei : TimeRange.end_time_inclusive ⟨⟨s, r⟩, ⟨d, r⟩⟩ = ⟨s + d - 1, r⟩ := by
    rw [TimeRange.end_time_inclusive_mk]
    split_ifs with h
    · rfl
    · have h1 : d ≤ 1 := by exact_mod_cast not_lt.mp h
      have h2 : d = 1 := le_antisymm h1 hd
      subst h2
      simp
  have next : ∀ n : ℤ, 0 ≤ n →
      ((p.setPlayback Playback.Stop now).seek
        ((p.setPlayback Playback.Stop now).currentTime.add ⟨n, p.timeRange.duration.rate⟩)
        now).currentTime = loop (p.currentTime.add ⟨n, r⟩) p.timeRange ∧
      ((p.setPlayback Playback.Stop now).seek
        ((p.setPlayback Playback.Stop now).currentTime.add ⟨n, p.timeRange.duration.rate⟩)
        now).currentTime =
        if (k : ℚ) + n ≤ s + d - 1 then ⟨(k : ℚ) + n, r⟩ else p.timeRange.start_time := by
    intro n hn
    have hnq : (0 : ℚ) ≤ n := by exact_mod_cast hn
    have e : RationalTime.add ⟨(k : ℚ), r⟩ ⟨(n : ℚ), r⟩ = ⟨((k + n : ℤ) : ℚ), r⟩ := by
      rw [RationalTime.add_mk]; push_cast; rw [add_comm]
    rw [hrate, hc1, hc, e, seek_frame _ now r s d (k + n) k hr hd hR1 hc1, hst]
    refine ⟨rfl, ?_⟩
    rw [hR, loop_mk _ _ _ _ hr hd]
    push_cast
    have hks : ¬ (k : ℚ) + n < s := not_lt.mpr (by linarith)
    rw [if_neg hks]
    by_cases hle : (k : ℚ) + n ≤ s + d - 1
    · rw [if_neg (not_lt.mpr hle), if_pos hle]
    · rw [if_pos (not_le.mp hle), if_neg hle]
  have prev : ∀ n : ℤ, 0 ≤ n →
      ((p.setPlayback Playback.Stop now).seek
        ((p.setPlayback Playback.Stop now).currentTime.sub ⟨n, p.timeRange.duration.rate⟩)
        now).currentTime = loop (p.currentTime.sub ⟨n, r⟩) p.timeRange ∧
      ((p.setPlayback Playback.Stop now).seek
        ((p.setPlayback Playback.Stop now).currentTime.sub ⟨n, p.timeRange.duration.rate⟩)
        now).currentTime =
        if s ≤ (k : ℚ) - n then ⟨(k : ℚ) - n, r⟩ else p.timeRange.end_time_inclusive := by
    intro n hn
    have hnq : (0 : ℚ) ≤ n := by exact_mod_cast hn
    have e : RationalTime.sub ⟨(k : ℚ), r⟩ ⟨(n : ℚ), r⟩ = ⟨((k - n : ℤ) : ℚ), r⟩ := by
      rw [RationalTime.sub_mk]; push_cast; rfl
    rw [hrate, hc1, hc, e, seek_frame _ now r s d (k - n) k hr hd hR1 hc1, hst]
    refine ⟨rfl, ?_⟩
    rw [hR, loop_mk _ _ _ _ hr hd, hei]
    push_cast
    have hke : ¬ s + (d : ℚ) - 1 < k - n := not_lt.mpr (by linarith)
    by_cases hle : s ≤ (k : ℚ) - n
    · rw [if_neg (not_lt.mpr hle), if_neg hke, if_pos hle]
    · rw [if_pos (not_le.mp hle), if_neg hle]
  constructor
  · intro x hx
    simp only [List.mem_cons, List.mem_singleton, List.not_mem_nil, or_false] at hx
    rcases hx with rfl | rfl | rfl
    · simpa [Player.timeAction] using next 1 (by norm_num)
    · simpa [Player.timeAction] using next 10 (by norm_num)
    · simpa [Player.timeAction] using next 100 (by norm_num)
  · intro x hx
    simp only [List.mem_cons, List.mem_singleton, List.not_mem_nil, or_false] at hx
    rcases hx with rfl | rfl | rfl
    · simpa [Player.timeAction] using prev 1 (by norm_num)
    · simpa [Player.timeAction] using prev 10 (by norm_num)
    · simpa [Player.timeAction] using prev 100 (by norm_num)

/-- C8 at the player of `PlayerTest::_player`: timeline `[10/24, 48 frames)`,
current time `21/24`; `FrameNextX100` lands on the start `10/24`. -/
theorem timeAction_frame_steps_witness :
    ((Player.init ⟨⟨10, 24⟩, ⟨48, 24⟩⟩ ⟨21, 24⟩).timeAction TimeAction.FrameNextX100
      0).currentTime = ⟨10, 24⟩ ∧
    (∀ x ∈ [(TimeAction.FramePrev, (1 : ℤ)), (TimeAction.FramePrevX10, 10),
        (TimeAction.FramePrevX100, 100)],
      ((Player.init ⟨⟨10, 24⟩, ⟨48, 24⟩⟩ ⟨21, 24⟩).timeAction x.1 0).currentTime =
          loop ((Player.init ⟨⟨10, 24⟩, ⟨48, 24⟩⟩ ⟨21, 24⟩).currentTime.sub ⟨x.2, 24⟩)
            (Player.init ⟨⟨10, 24⟩, ⟨48, 24⟩⟩ ⟨21, 24⟩).timeRange ∧
      ((Player.init ⟨⟨10, 24⟩, ⟨48, 24⟩⟩ ⟨21, 24⟩).timeAction x.1 0).currentTime =
        if (10 : ℚ) ≤ ((21 : ℤ) : ℚ) - x.2 then ⟨((21 : ℤ) : ℚ) - x.2, 24⟩
        else (Player.init ⟨⟨10, 24⟩, ⟨48, 24⟩⟩ ⟨21, 24⟩).timeRange.end_time_inclusive) :=
  ⟨by decide!,
    (timeAction_frame_steps (Player.init ⟨⟨10, 24⟩, ⟨48, 24⟩⟩ ⟨21, 24⟩) 0 24 10 48 21
      (by norm_num) (by norm_num) (by decide!) (by decide!) (by norm_num) (by norm_num)).2⟩

end tl.timeline

/-! ## Overrun handling -/

namespace tl.timeline

/-- C9, as the claim states it, fails for a time that only reaches the
out-point: with `Loop::Once`, playing forward in the in/out range
`[10/24, 48 frames)`, whose inclusive end is `57/24`, `loopPlayback(57/24)`
returns `57/24` and leaves the playback at `Forward`; the playback stops one
frame later, at `58/24`. -/
theorem loopPlayback_once_at_out_point :
    RationalTime.ge ⟨57, 24⟩ (TimeRange.end_time_inclusive ⟨⟨10, 24⟩, ⟨48, 24⟩⟩) ∧
    ({ Player.init ⟨⟨10, 24⟩, ⟨48, 24⟩⟩ ⟨56, 24⟩ with
        loop := Loop.Once, playback := Playback.Forward }.loopPlayback ⟨57, 24⟩ 0).2 =
      ⟨57, 24⟩ ∧
    ({ Player.init ⟨⟨10, 24⟩, ⟨48, 24⟩⟩ ⟨56, 24⟩ with
        loop := Loop.Once, playback := Playback.Forward }.loopPlayback ⟨57, 24⟩ 0).1.playback =
      Playback.Forward ∧
    ({ Player.init ⟨⟨10, 24⟩, ⟨48, 24⟩⟩ ⟨56, 24⟩ with
        loop := Loop.Once, playback := Playback.Forward }.loopPlayback ⟨58, 24⟩ 0).1.playback =
      Playback.Stop := by
  decide!

/-- C9 (amended): with `Loop::Once` and playback `Forward`, for every advanced
time that passes the out-point (`t > inOutRange.end_time_inclusive`),
`loopPlayback` returns exactly the out-point and sets the playback, observed
and guarded, to `Stop`; symmetrically with playback `Reverse` for every time
before the in-point.  A time that does not pass the boundary ahead is returned
as it is and the state is left alone. -/
theorem loopPlayback_once (p : Player) (t : RationalTime) (now : ℕ)
    (hl : p.loop = Loop.Once) :
    (p.playback = Playback.Forward → t.gt p.inOutRange.end_time_inclusive →
      (p.loopPlayback t now).2 = p.inOutRange.end_time_inclusive ∧
      (p.loopPlayback t now).1.playback = Playback.Stop ∧
      (p.loopPlayback t now).1.mutex.playback = Playback.Stop) ∧
    (p.playback = Playback.Reverse → t.lt p.inOutRange.start_time →
      (p.loopPlayback t now).2 = p.inOutRange.start_time ∧
      (p.loopPlayback t now).1.playback = Playback.Stop ∧
      (p.loopPlayback t now).1.mutex.playback = Playback.Stop) ∧
    (p.playback = Playback.Forward → ¬ t.gt p.inOutRange.end_time_inclusive →
      p.loopPlayback t now = (p, t)) ∧
    (p.playback = Playback.Reverse → ¬ t.lt p.inOutRange.start_time →
      p.loopPlayback t now = (p, t)) := by
  unfold Player.loopPlayback setIfChanged
  rw [hl]
  refine ⟨?_, ?_, ?_, ?_⟩
  · intro hp hgt
    simp [hp, hgt]
  · intro hp hlt
    simp [hp, hlt]
  · intro hp hgt
    simp [hp, hgt]
  · intro hp hlt
    simp [hp, hlt]

/-- C9 at the in/out range `[10/24, 48 frames)`, whose inclusive end is
`57/24`: playing forward, the advanced time `58/24` is clamped to `57/24` and
the playback stops. -/
theorem loopPlayback_once_witness :
    ({ Player.init ⟨⟨10, 24⟩, ⟨48, 24⟩⟩ ⟨57, 24⟩ with
        loop := Loop.Once, playback := Playback.Forward }.loopPlayback ⟨58, 24⟩ 0).2 =
      TimeRange.end_time_inclusive ⟨⟨10, 24⟩, ⟨48, 24⟩⟩ ∧
    ({ Player.init ⟨⟨10, 24⟩, ⟨48, 24⟩⟩ ⟨57, 24⟩ with
        loop := Loop.Once, playback := Playback.Forward }.loopPlayback ⟨58, 24⟩ 0).1.playback =
      Playback.Stop ∧
    ({ Player.init ⟨⟨10, 24⟩, ⟨48, 24⟩⟩ ⟨57, 24⟩ with
        loop := Loop.Once,
        playback := Playback.Forward }.loopPlayback ⟨58, 24⟩ 0).1.mutex.playback =
      Playback.Stop :=
  (loopPlayback_once
    { Player.init ⟨⟨10, 24⟩, ⟨48, 24⟩⟩ ⟨57, 24⟩ with
      loop := Loop.Once, playback := Playback.Forward } ⟨58, 24⟩ 0 rfl).1 rfl (by decide!)

/-- C10: with `Loop::PingPong` and a valid in/out range, an advanced time that
overruns the out-point while the playback is `Forward` makes `loopPlayback`
return the out-point, a time inside the in/out range, turn the playback,
observed and guarded, to `Reverse`, set the cache direction to `Reverse` and
reset the playback start time to the returned time; symmetrically, a time that
overruns the in-point while the playback is `Reverse` returns the in-point and
turns the playback and the cache direction to `Forward`. -/
theorem loopPlayback_pingPong (p : Player) (t : RationalTime) (now : ℕ)
    (hl : p.loop = Loop.PingPong) (hv : p.inOutRange.valid) :
    (p.playback = Playback.Forward → t.gt p.inOutRange.end_time_inclusive →
      (p.loopPlayback t now).2 = p.inOutRange.end_time_inclusive ∧
      p.inOutRange.start_time.le (p.loopPlayback t now).2 ∧
      (p.loopPlayback t now).2.le p.inOutRange.end_time_inclusive ∧
      (p.loopPlayback t now).1.playback = Playback.Reverse ∧
      (p.loopPlayback t now).1.mutex.playback = Playback.Reverse ∧
      (p.loopPlayback t now).1.mutex.cacheDirection = CacheDirection.Reverse ∧
      (p.loopPlayback t now).1.mutex.playbackStartTime = (p.loopPlayback t now).2 ∧
      (p.loopPlayback t now).1.mutex.playbackStartTimer = now) ∧
    (p.playback = Playback.Reverse → t.lt p.inOutRange.start_time →
      (p.loopPlayback t now).2 = p.inOutRange.start_time ∧
      p.inOutRange.start_time.le (p.loopPlayback t now).2 ∧
      (p.loopPlayback t now).2.le p.inOutRange.end_time_inclusive ∧
      (p.loopPlayback t now).1.playback = Playback.Forward ∧
      (p.loopPlayback t now).1.mutex.playback = Playback.Forward ∧
      (p.loopPlayback t now).1.mutex.cacheDirection = CacheDirection.Forward ∧
      (p.loopPlayback t now).1.mutex.playbackStartTime = (p.loopPlayback t now).2 ∧
      (p.loopPlayback t now).1.mutex.playbackStartTimer = now) := by
  have hse := p.inOutRange.start_le_end_time_inclusive hv
  unfold Player.loopPlayback setIfChanged Player.resetAudioTime
  rw [hl]
  refine ⟨?_, ?_⟩
  · intro hp hgt
    simp [hp, hgt, RationalTime.not_gt_self, RationalTime.le]
    exact hse
  · intro hp hlt
    simp [hp, hlt, RationalTime.not_gt_self, RationalTime.le]
    exact hse

/-- C10 at the in/out range `[10/24, 48 frames)`: playing forward, the
advanced time `58/24` turns the playback around at `57/24`. -/
theorem loopPlayback_pingPong_witness :
    ({ Player.init ⟨⟨10, 24⟩, ⟨48, 24⟩⟩ ⟨57, 24⟩ with
        loop := Loop.PingPong, playback := Playback.Forward }.loopPlayback ⟨58, 24⟩ 7).2 =
      ⟨57, 24⟩ ∧
    ({ Player.init ⟨⟨10, 24⟩, ⟨48, 24⟩⟩ ⟨57, 24⟩ with
        loop := Loop.PingPong,
        playback := Playback.Forward }.loopPlayback ⟨58, 24⟩ 7).1.playback =
      Playback.Reverse ∧
    ({ Player.init ⟨⟨10, 24⟩, ⟨48, 24⟩⟩ ⟨57, 24⟩ with
        loop := Loop.PingPong,
        playback := Playback.Forward }.loopPlayback ⟨58, 24⟩ 7).1.mutex.cacheDirection =
      CacheDirection.Reverse :=
  ⟨by decide!,
    ((loopPlayback_pingPong
      { Player.init ⟨⟨10, 24⟩, ⟨48, 24⟩⟩ ⟨57, 24⟩ with
        loop := Loop.PingPong, playback := Playback.Forward } ⟨58, 24⟩ 7 rfl
      (by decide!)).1 rfl (by decide!)).2.2.2.1,
    ((loopPlayback_pingPong
      { Player.init ⟨⟨10, 24⟩, ⟨48, 24⟩⟩ ⟨57, 24⟩ with
        loop := Loop.PingPong, playback := Playback.Forward } ⟨58, 24⟩ 7 rfl
      (by decide!)).1 rfl (by decide!)).2.2.2.2.2.1⟩

end tl.timeline

/-! ## Overrun handling in loop mode -/

namespace tl.timeline

/-- C11, as the claim states it, fails for a time that overruns the out-point
by more than one frame: with `Loop::Loop` and the in/out range
`[10/24, 48 frames)`, whose inclusive end is `57/24`, the advanced time `59/24`
is wrapped to the start `10/24`, 49 frames earlier, which is no whole multiple
of the 48 frames of the in/out range (a circular wrap would give `11/24`). -/
theorem loopPlayback_loop_not_modular :
    ((Player.init ⟨⟨10, 24⟩, ⟨48, 24⟩⟩ ⟨57, 24⟩).loopPlayback ⟨59, 24⟩ 0).2 = ⟨10, 24⟩ ∧
    ¬ ∃ k : ℤ, (59 : ℤ) - 10 = k * 48 := by
  refine ⟨by decide!, ?_⟩
  rintro ⟨k, hk⟩
  omega

/-- C11 (amended): with `Loop::Loop` and a valid in/out range, for every
advanced time `t`, `loopPlayback` returns `loop(t, inOutRange)`, which lies
inside the in/out range: a time past the inclusive end becomes the start, a
time before the start becomes the inclusive end, any other time is returned as
it is.  The playback mode, observed and guarded, is left unchanged; whenever
the time wrapped, the playback start time is reset to the wrapped time, the
start timer to the present and the audio time is reset, and without a wrap the
state is left alone. -/
theorem loopPlayback_loop (p : Player) (t : RationalTime) (now : ℕ)
    (hl : p.loop = Loop.Loop) (hv : p.inOutRange.valid) :
    (p.loopPlayback t now).2 = loop t p.inOutRange ∧
    p.inOutRange.start_time.le (p.loopPlayback t now).2 ∧
    (p.loopPlayback t now).2.le p.inOutRange.end_time_inclusive ∧
    (t.lt p.inOutRange.start_time →
      (p.loopPlayback t now).2 = p.inOutRange.end_time_inclusive) ∧
    (¬ t.lt p.inOutRange.start_time → t.gt p.inOutRange.end_time_inclusive →
      (p.loopPlayback t now).2 = p.inOutRange.start_time) ∧
    (p.loopPlayback t now).1.playback = p.playback ∧
    (p.loopPlayback t now).1.mutex.playback = p.mutex.playback ∧
    ((loopFlag t p.inOutRange).2 = true →
      (p.loopPlayback t now).1.mutex.playbackStartTime = (p.loopPlayback t now).2 ∧
      (p.loopPlayback t now).1.mutex.playbackStartTimer = now ∧
      (p.loopPlayback t now).1.audioMutexReset = true) ∧
    ((loopFlag t p.inOutRange).2 = false → p.loopPlayback t now = (p, t)) := by
  have hin := loop_inside_range t p.inOutRange hv
  have h2 : (p.loopPlayback t now).2 = loop t p.inOutRange := by
    unfold Player.loopPlayback loop
    rw [hl]
    simp only []
    split_ifs <;> rfl
  refine ⟨h2, ?_, ?_, ?_, ?_, ?_, ?_, ?_, ?_⟩
  · rw [h2]; exact hin.1
  · rw [h2]; exact hin.2
  · intro hlt
    rw [h2]
    simp [loop, loopFlag, hlt]
  · intro hlt hgt
    rw [h2]
    simp [loop, loopFlag, hlt, hgt]
  · unfold Player.loopPlayback Player.resetAudioTime
    rw [hl]
    simp only []
    split_ifs <;> rfl
  · unfold Player.loopPlayback Player.resetAudioTime
    rw [hl]
    simp only []
    split_ifs <;> rfl
  · intro hf
    unfold Player.loopPlayback Player.resetAudioTime
    rw [hl]
    simp [hf]
  · intro hf
    have hlp : loop t p.inOutRange = t := by
      unfold loop loopFlag at *
      split_ifs at hf ⊢
      simp_all
    unfold Player.loopPlayback
    rw [hl]
    simp only [hf]
    simp only [loop] at hlp
    simp [hlp]

/-- C11 at the in/out range `[10/24, 48 frames)`: the advanced time `58/24`
wraps to the start `10/24` and the playback start time follows. -/
theorem loopPlayback_loop_witness :
    ((Player.init ⟨⟨10, 24⟩, ⟨48, 24⟩⟩ ⟨57, 24⟩).loopPlayback ⟨58, 24⟩ 3).2 = ⟨10, 24⟩ ∧
    ((Player.init ⟨⟨10, 24⟩, ⟨48, 24⟩⟩ ⟨57, 24⟩).loopPlayback ⟨58, 24⟩ 3).1.playback =
      Playback.Stop ∧
    ((Player.init ⟨⟨10, 24⟩, ⟨48, 24⟩⟩ ⟨57, 24⟩).loopPlayback ⟨58, 24⟩
      3).1.mutex.playbackStartTime =
      ((Player.init ⟨⟨10, 24⟩, ⟨48, 24⟩⟩ ⟨57, 24⟩).loopPlayback ⟨58, 24⟩ 3).2 :=
  ⟨by decide!,
    (loopPlayback_loop (Player.init ⟨⟨10, 24⟩, ⟨48, 24⟩⟩ ⟨57, 24⟩) ⟨58, 24⟩ 3 rfl
      (by decide!)).2.2.2.2.2.1,
    ((loopPlayback_loop (Player.init ⟨⟨10, 24⟩, ⟨48, 24⟩⟩ ⟨57, 24⟩) ⟨58, 24⟩ 3 rfl
      (by decide!)).2.2.2.2.2.2.2.1 (by decide!)).1⟩

end tl.timeline

/-! ## Starting playback at a boundary -/

namespace tl.timeline

/-- `Player::setPlayback` is its two halves in sequence. -/
theorem setPlayback_eq (p : Player) (value : Playback) (now : ℕ) :
    p.setPlayback value now =
      Player.storePlayback (p.setPlaybackTarget value now).1 (p.setPlaybackTarget value now).2
        now := rfl

/-- `seek` writes neither the playback modes, the loop mode, the ranges nor the
cache direction. -/
theorem seek_frame_fields (p : Player) (t : RationalTime) (now : ℕ) :
    (p.seek t now).playback = p.playback ∧
    (p.seek t now).mutex.playback = p.mutex.playback ∧
    (p.seek t now).mutex.cacheDirection = p.mutex.cacheDirection ∧
    (p.seek t now).loop = p.loop ∧
    (p.seek t now).inOutRange = p.inOutRange ∧
    (p.seek t now).timeRange = p.timeRange := by
  unfold Player.seek setIfChanged Player.resetAudioTime
  by_cases h : (loop (time.floor (t.rescaled_to p.timeRange.duration.rate)) p.timeRange).eq
      p.currentTime
  · simp [h]
  · simp only [h, if_false]
    split_ifs <;> simp

/-- What the second half of `setPlayback` leaves in the playback values. -/
theorem storePlayback_fields (p1 : Player) (value : Playback) (now : ℕ) :
    (Player.storePlayback p1 value now).currentTime = p1.currentTime ∧
    (value ≠ p1.playback →
      (Player.storePlayback p1 value now).playback = value ∧
      (Player.storePlayback p1 value now).mutex.playback = value ∧
      (value = Playback.Forward →
        (Player.storePlayback p1 value now).mutex.cacheDirection = CacheDirection.Forward) ∧
      (value = Playback.Reverse →
        (Player.storePlayback p1 value now).mutex.cacheDirection = CacheDirection.Reverse) ∧
      (value = Playback.Stop →
        (Player.storePlayback p1 value now).mutex.cacheDirection =
          p1.mutex.cacheDirection)) ∧
    (value = p1.playback → Player.storePlayback p1 value now = p1) := by
  unfold Player.storePlayback setIfChanged Player.resetAudioTime
  by_cases hc : value = p1.playback
  · simp [hc]
  · cases value <;> simp [hc]

/-- The second half of `setPlayback` keeps the playback values in agreement. -/
theorem storePlayback_playbackSynced (p1 : Player) (value : Playback) (now : ℕ)
    (h : p1.playbackSynced) : (Player.storePlayback p1 value now).playbackSynced := by
  obtain ⟨_, hch, hun⟩ := storePlayback_fields p1 value now
  by_cases hc : value = p1.playback
  · rw [hun hc]
    exact h
  · obtain ⟨h1, h2, h3, h4, _⟩ := hch hc
    unfold Player.playbackSynced
    rw [h1, h2]
    exact ⟨rfl, h3, h4⟩

/-- The state `Player::_init` builds has its playback values in agreement. -/
theorem init_playbackSynced (timeRange : TimeRange) (currentTime : RationalTime) :
    (Player.init timeRange currentTime).playbackSynced := by
  simp [Player.init, Player.playbackSynced]

/-- `seek` keeps the playback values in agreement. -/
theorem seek_playbackSynced (p : Player) (t : RationalTime) (now : ℕ)
    (h : p.playbackSynced) : (p.seek t now).playbackSynced := by
  obtain ⟨h1, h2, h3, _⟩ := seek_frame_fields p t now
  unfold Player.playbackSynced at *
  rw [h1, h2, h3]
  exact h

/-- The first half of `setPlayback` keeps the playback values in agreement. -/
theorem setPlaybackTarget_playbackSynced (p : Player) (value : Playback) (now : ℕ)
    (h : p.playbackSynced) : (p.setPlaybackTarget value now).1.playbackSynced := by
  have hs1 := seek_playbackSynced p p.inOutRange.start_time now h
  have hs2 := seek_playbackSynced p p.inOutRange.end_time_inclusive now h
  unfold Player.setPlaybackTarget
  cases p.loop <;> cases value <;> simp only [] <;> first | exact h | (split_ifs <;> assumption)

/-- `setPlayback` keeps the playback values in agreement. -/
theorem setPlayback_playbackSynced (p : Player) (value : Playback) (now : ℕ)
    (h : p.playbackSynced) : (p.setPlayback value now).playbackSynced := by
  rw [setPlayback_eq]
  exact storePlayback_playbackSynced _ _ _ (setPlaybackTarget_playbackSynced p value now h)

/-- `loopPlayback` keeps the playback values in agreement. -/
theorem loopPlayback_playbackSynced (p : Player) (t : RationalTime) (now : ℕ)
    (h : p.playbackSynced) : (p.loopPlayback t now).1.playbackSynced := by
  obtain ⟨h1, h2, h3⟩ := h
  unfold Player.loopPlayback setIfChanged Player.resetAudioTime
  cases hl : p.loop <;> simp only [] <;> split_ifs <;>
    simp_all [Player.playbackSynced]

/-- `timeAction` keeps the playback values in agreement. -/
theorem timeAction_playbackSynced (p : Player) (a : TimeAction) (now : ℕ)
    (h : p.playbackSynced) : (p.timeAction a now).playbackSynced := by
  have hp := setPlayback_playbackSynced p Playback.Stop now h
  unfold Player.timeAction
  cases a <;> simp only [] <;>
    first
      | exact seek_playbackSynced _ _ _ hp
      | exact seek_playbackSynced _ _ _ h

end tl.timeline

namespace tl.timeline

/-- C12, as the claim states it, fails when the in-point is not a frame of the
timeline.  In the timeline `[10/24, 48 frames)` with `Loop::Once`: the in/out
range `[(21/2)/24, 10 frames)` has the out-point `(39/2)/24`, and
`setPlayback(Forward)` at the out-point seeks to the floored in-point `10/24`;
the in/out range `[0/24, 20 frames)`, which starts before the timeline, has the
out-point `19/24`, and `setPlayback(Forward)` at the out-point seeks to
`57/24`, the time `0/24` looped into the timeline. -/
theorem setPlayback_once_counterexample :
    (({ Player.init ⟨⟨10, 24⟩, ⟨48, 24⟩⟩ ⟨39 / 2, 24⟩ with
        inOutRange := ⟨⟨21 / 2, 24⟩, ⟨10, 24⟩⟩, loop := Loop.Once } : Player).currentTime.eq
        (TimeRange.end_time_inclusive ⟨⟨21 / 2, 24⟩, ⟨10, 24⟩⟩) ∧
      (({ Player.init ⟨⟨10, 24⟩, ⟨48, 24⟩⟩ ⟨39 / 2, 24⟩ with
        inOutRange := ⟨⟨21 / 2, 24⟩, ⟨10, 24⟩⟩, loop := Loop.Once } : Player).setPlayback
        Playback.Forward 0).currentTime = ⟨10, 24⟩ ∧
      ¬ RationalTime.eq ⟨10, 24⟩ (⟨21 / 2, 24⟩ : RationalTime)) ∧
    (({ Player.init ⟨⟨10, 24⟩, ⟨48, 24⟩⟩ ⟨19, 24⟩ with
        inOutRange := ⟨⟨0, 24⟩, ⟨20, 24⟩⟩, loop := Loop.Once } : Player).currentTime.eq
        (TimeRange.end_time_inclusive ⟨⟨0, 24⟩, ⟨20, 24⟩⟩) ∧
      (({ Player.init ⟨⟨10, 24⟩, ⟨48, 24⟩⟩ ⟨19, 24⟩ with
        inOutRange := ⟨⟨0, 24⟩, ⟨20, 24⟩⟩, loop := Loop.Once } : Player).setPlayback
        Playback.Forward 0).currentTime = ⟨57, 24⟩ ∧
      ¬ RationalTime.eq ⟨57, 24⟩ (⟨0, 24⟩ : RationalTime)) := by
  decide!

/-- C12 (amended): with `Loop::Once`, in a timeline of a whole number of
frames and from a valid current time, `setPlayback(Forward)` while the current
time equals the out-point first seeks to the in-point: afterwards the playback
is `Forward` and the current time is what `seek` makes of the in-point, which
is the in-point itself whenever the in-point is a whole frame inside the time
range of the timeline; `setPlayback(Reverse)` while the current time equals
the in-point does the same with the out-point; in every other case
`setPlayback` leaves the current time unchanged. -/
theorem setPlayback_once (p : Player) (now : ℕ) (r s : ℚ) (d : ℤ)
    (hl : p.loop = Loop.Once) (hr : 0 < r) (hd : 1 ≤ d)
    (hR : p.timeRange = ⟨⟨s, r⟩, ⟨d, r⟩⟩) (hc : p.currentTime.valid) :
    (p.currentTime.eq p.inOutRange.end_time_inclusive →
      (p.setPlayback Playback.Forward now).playback = Playback.Forward ∧
      (p.setPlayback Playback.Forward now).currentTime =
        (p.seek p.inOutRange.start_time now).currentTime ∧
      ∀ k : ℤ, p.inOutRange.start_time = ⟨k, r⟩ → s ≤ k → (k : ℚ) ≤ s + d - 1 →
        (p.setPlayback Playback.Forward now).currentTime.eq p.inOutRange.start_time) ∧
    (p.currentTime.eq p.inOutRange.start_time →
      (p.setPlayback Playback.Reverse now).playback = Playback.Reverse ∧
      (p.setPlayback Playback.Reverse now).currentTime =
        (p.seek p.inOutRange.end_time_inclusive now).currentTime ∧
      ∀ k : ℤ, p.inOutRange.end_time_inclusive = ⟨k, r⟩ → s ≤ k → (k : ℚ) ≤ s + d - 1 →
        (p.setPlayback Playback.Reverse now).currentTime.eq
          p.inOutRange.end_time_inclusive) ∧
    (¬ p.currentTime.eq p.inOutRange.end_time_inclusive →
      (p.setPlayback Playback.Forward now).currentTime = p.currentTime) ∧
    (¬ p.currentTime.eq p.inOutRange.start_time →
      (p.setPlayback Playback.Reverse now).currentTime = p.currentTime) ∧
    (p.setPlayback Playback.Stop now).currentTime = p.currentTime := by
  have hc0 : p.currentTime.rate ≠ 0 := ne_of_gt hc
  have hseek : ∀ k : ℤ, s ≤ k → (k : ℚ) ≤ s + d - 1 →
      (p.seek ⟨k, r⟩ now).currentTime.eq ⟨k, r⟩ := by
    intro k h1 h2
    have hfl : time.floor (RationalTime.rescaled_to ⟨k, r⟩ r) = ⟨k, r⟩ := by
      simp [time.floor, RationalTime.rescaled_to_mk]
    have hlp : loop ⟨(k : ℚ), r⟩ ⟨⟨s, r⟩, ⟨d, r⟩⟩ = ⟨k, r⟩ := by
      rw [loop_mk _ _ _ _ hr hd, if_neg (not_lt.mpr h1), if_neg (not_lt.mpr h2)]
    rw [seek_currentTime_eq, hR]
    simp only [hfl, hlp]
    split_ifs with h
    · exact eq_symm _ _ h (ne_of_gt hr) hc0
    · exact RationalTime.eq_self _
  have hplay : ∀ (p1 : Player) (v : Playback),
      (Player.storePlayback p1 v now).playback = v := by
    intro p1 v
    obtain ⟨_, hch, hun⟩ := storePlayback_fields p1 v now
    by_cases hv : v = p1.playback
    · rw [hun hv, hv]
    · exact (hch hv).1
  refine ⟨?_, ?_, ?_, ?_, ?_⟩
  · intro hat
    have ht : p.setPlaybackTarget Playback.Forward now =
        (p.seek p.inOutRange.start_time now, Playback.Forward) := by
      simp [Player.setPlaybackTarget, hl, hat]
    rw [setPlayback_eq, ht]
    refine ⟨hplay _ _, (storePlayback_fields _ _ now).1, ?_⟩
    intro k hk h1 h2
    rw [(storePlayback_fields _ _ now).1, hk]
    exact hseek k h1 h2
  · intro hat
    have ht : p.setPlaybackTarget Playback.Reverse now =
        (p.seek p.inOutRange.end_time_inclusive now, Playback.Reverse) := by
      simp [Player.setPlaybackTarget, hl, hat]
    rw [setPlayback_eq, ht]
    refine ⟨hplay _ _, (storePlayback_fields _ _ now).1, ?_⟩
    intro k hk h1 h2
    rw [(storePlayback_fields _ _ now).1, hk]
    exact hseek k h1 h2
  · intro hat
    have ht : p.setPlaybackTarget Playback.Forward now = (p, Playback.Forward) := by
      simp [Player.setPlaybackTarget, hl, hat]
    rw [setPlayback_eq, ht]
    exact (storePlayback_fields _ _ now).1
  · intro hat
    have ht : p.setPlaybackTarget Playback.Reverse now = (p, Playback.Reverse) := by
      simp [Player.setPlaybackTarget, hl, hat]
    rw [setPlayback_eq, ht]
    exact (storePlayback_fields _ _ now).1
  · have ht : p.setPlaybackTarget Playback.Stop now = (p, Playback.Stop) := by
      simp [Player.setPlaybackTarget, hl]
    rw [setPlayback_eq, ht]
    exact (storePlayback_fields _ _ now).1

/-- C12 at the player of `PlayerTest::_player` with `Loop::Once`: at the
out-point `57/24` of the in/out range `[10/24, 48 frames)`,
`setPlayback(Forward)` seeks to the in-point `10/24`. -/
theorem setPlayback_once_witness :
    (({ Player.init ⟨⟨10, 24⟩, ⟨48, 24⟩⟩ ⟨57, 24⟩ with loop := Loop.Once } :
      Player).setPlayback Playback.Forward 0).currentTime = ⟨10, 24⟩ ∧
    (({ Player.init ⟨⟨10, 24⟩, ⟨48, 24⟩⟩ ⟨57, 24⟩ with loop := Loop.Once } :
      Player).setPlayback Playback.Forward 0).playback = Playback.Forward :=
  ⟨by decide!,
    ((setPlayback_once
      ({ Player.init ⟨⟨10, 24⟩, ⟨48, 24⟩⟩ ⟨57, 24⟩ with loop := Loop.Once } : Player) 0 24 10
      48 rfl (by norm_num) (by norm_num) (by decide!) (by decide!)).1 (by decide!)).1⟩

/-- C13: with `Loop::PingPong`, in a state whose playback values agree,
`setPlayback(Forward)` while the current time equals the out-point makes the
observed playback, the guarded playback and the cache direction `Reverse`, and
`setPlayback(Reverse)` while the current time equals the in-point makes them
`Forward`; neither call changes the current time. -/
theorem setPlayback_pingPong (p : Player) (now : ℕ) (hl : p.loop = Loop.PingPong)
    (hs : p.playbackSynced) :
    (p.currentTime.eq p.inOutRange.end_time_inclusive →
      (p.setPlayback Playback.Forward now).playback = Playback.Reverse ∧
      (p.setPlayback Playback.Forward now).mutex.playback = Playback.Reverse ∧
      (p.setPlayback Playback.Forward now).mutex.cacheDirection = CacheDirection.Reverse ∧
      (p.setPlayback Playback.Forward now).currentTime = p.currentTime) ∧
    (p.currentTime.eq p.inOutRange.start_time →
      (p.setPlayback Playback.Reverse now).playback = Playback.Forward ∧
      (p.setPlayback Playback.Reverse now).mutex.playback = Playback.Forward ∧
      (p.setPlayback Playback.Reverse now).mutex.cacheDirection = CacheDirection.Forward ∧
      (p.setPlayback Playback.Reverse now).currentTime = p.currentTime) := by
  have key : ∀ v : Playback, v ≠ Playback.Stop →
      (Player.storePlayback p v now).playback = v ∧
      (Player.storePlayback p v now).mutex.playback = v ∧
      (v = Playback.Forward →
        (Player.storePlayback p v now).mutex.cacheDirection = CacheDirection.Forward) ∧
      (v = Playback.Reverse →
        (Player.storePlayback p v now).mutex.cacheDirection = CacheDirection.Reverse) := by
    intro v _
    obtain ⟨_, hch, hun⟩ := storePlayback_fields p v now
    by_cases hv : v = p.playback
    · rw [hun hv]
      obtain ⟨h1, h2, h3⟩ := hs
      exact ⟨hv.symm, by rw [h1, hv], fun e => h2 (hv ▸ e), fun e => h3 (hv ▸ e)⟩
    · obtain ⟨h1, h2, h3, h4, _⟩ := hch hv
      exact ⟨h1, h2, h3, h4⟩
  constructor
  · intro hat
    have ht : p.setPlaybackTarget Playback.Forward now = (p, Playback.Reverse) := by
      simp [Player.setPlaybackTarget, hl, hat]
    rw [setPlayback_eq, ht]
    obtain ⟨h1, h2, _, h4⟩ := key Playback.Reverse (by decide)
    exact ⟨h1, h2, h4 rfl, (storePlayback_fields _ _ now).1⟩
  · intro hat
    have ht : p.setPlaybackTarget Playback.Reverse now = (p, Playback.Forward) := by
      simp [Player.setPlaybackTarget, hl, hat]
    rw [setPlayback_eq, ht]
    obtain ⟨h1, h2, h3, _⟩ := key Playback.Forward (by decide)
    exact ⟨h1, h2, h3 rfl, (storePlayback_fields _ _ now).1⟩

/-- C13 at the player of `PlayerTest::_player` with `Loop::PingPong`: at the
out-point `57/24`, `setPlayback(Forward)` starts the playback in reverse. -/
theorem setPlayback_pingPong_witness :
    (({ Player.init ⟨⟨10, 24⟩, ⟨48, 24⟩⟩ ⟨57, 24⟩ with loop := Loop.PingPong } :
      Player).setPlayback Playback.Forward 0).playback = Playback.Reverse ∧
    (({ Player.init ⟨⟨10, 24⟩, ⟨48, 24⟩⟩ ⟨57, 24⟩ with loop := Loop.PingPong } :
      Player).setPlayback Playback.Forward 0).mutex.playback = Playback.Reverse ∧
    (({ Player.init ⟨⟨10, 24⟩, ⟨48, 24⟩⟩ ⟨57, 24⟩ with loop := Loop.PingPong } :
      Player).setPlayback Playback.Forward 0).mutex.cacheDirection =
        CacheDirection.Reverse ∧
    (({ Player.init ⟨⟨10, 24⟩, ⟨48, 24⟩⟩ ⟨57, 24⟩ with loop := Loop.PingPong } :
      Player).setPlayback Playback.Forward 0).currentTime =
        ({ Player.init ⟨⟨10, 24⟩, ⟨48, 24⟩⟩ ⟨57, 24⟩ with loop := Loop.PingPong } :
          Player).currentTime :=
  (setPlayback_pingPong
    ({ Player.init ⟨⟨10, 24⟩, ⟨48, 24⟩⟩ ⟨57, 24⟩ with loop := Loop.PingPong } : Player) 0 rfl
    (by decide!)).1 (by decide!)

end tl.timeline

/-! ## In and out points -/

namespace tl.timeline

/-- Time ranges of whole frames at one rate of at most 384000 compare equal
with `operator==` only when they are the same range: one frame is then no
shorter than the tolerance of the comparison. -/
theorem timeRange_eq_mk (r : ℚ) (a b n m : ℤ) (hr : 0 < r) (hr2 : r ≤ 384000)
    (h : TimeRange.eq ⟨⟨a, r⟩, ⟨n, r⟩⟩ ⟨⟨b, r⟩, ⟨m, r⟩⟩) : a = b ∧ n = m := by
  have key : ∀ x y : ℤ, |(((x : ℚ) - y) / r)| < DEFAULT_EPSILON_s → x = y := by
    intro x y hxy
    rw [abs_div, abs_of_pos hr, div_lt_iff₀ hr] at hxy
    have h1 : |((x : ℚ) - y)| < 1 := by
      have : DEFAULT_EPSILON_s * r ≤ 1 := by
        unfold DEFAULT_EPSILON_s
        linarith
      linarith
    have h2 : |x - y| < 1 := by exact_mod_cast h1
    have h3 := abs_lt.mp h2
    omega
  unfold TimeRange.eq at h
  simp only [RationalTime.sub_mk, RationalTime.to_seconds] at h
  exact ⟨key a b h.1, key n m h.2⟩

/-- The in/out range after `setInOutRange`: the new range, unless it compares
equal to the stored one, which is then kept. -/
theorem setInOutRange_inOutRange (p : Player) (value : TimeRange) :
    (p.setInOutRange value).inOutRange =
      if value.eq p.inOutRange then p.inOutRange else value := by
  unfold Player.setInOutRange setIfChanged
  by_cases h : value.eq p.inOutRange <;> simp [h]

/-- `setInOutRange` stores a range of whole frames over a range of whole
frames, at one rate of at most 384000. -/
theorem setInOutRange_mk (p : Player) (r : ℚ) (a b n m : ℤ) (hr : 0 < r) (hr2 : r ≤ 384000)
    (hio : p.inOutRange = ⟨⟨a, r⟩, ⟨n, r⟩⟩) :
    (p.setInOutRange ⟨⟨b, r⟩, ⟨m, r⟩⟩).inOutRange = ⟨⟨b, r⟩, ⟨m, r⟩⟩ := by
  rw [setInOutRange_inOutRange]
  split_ifs with h
  · rw [hio] at h ⊢
    obtain ⟨h1, h2⟩ := timeRange_eq_mk r b a m n hr hr2 h
    rw [h1, h2]
  · rfl

/-- `setInOutRange` writes neither the time range of the timeline, the current
time, the playback mode nor the loop mode. -/
theorem setInOutRange_frame (p : Player) (value : TimeRange) :
    (p.setInOutRange value).timeRange = p.timeRange ∧
    (p.setInOutRange value).currentTime = p.currentTime ∧
    (p.setInOutRange value).playback = p.playback ∧
    (p.setInOutRange value).loop = p.loop := by
  unfold Player.setInOutRange setIfChanged
  split_ifs <;> simp

/-- The in/out ranges that `PlayerTest::_player` asserts: from
`[10/24, 33 frames)`, `setInPoint` at `12/24` and `setOutPoint` at `32/24` give
`[12/24, 21 frames)`, and the two resets give the time range of the timeline. -/
theorem setInPoint_PlayerTest_values :
    (({ (({ Player.init ⟨⟨10, 24⟩, ⟨48, 24⟩⟩ ⟨12, 24⟩ with
          inOutRange := ⟨⟨10, 24⟩, ⟨33, 24⟩⟩ } : Player).setInPoint) with
        currentTime := ⟨32, 24⟩ } : Player).setOutPoint).inOutRange =
      ⟨⟨12, 24⟩, ⟨21, 24⟩⟩ ∧
    (({ Player.init ⟨⟨10, 24⟩, ⟨48, 24⟩⟩ ⟨32, 24⟩ with
        inOutRange := ⟨⟨12, 24⟩, ⟨21, 24⟩⟩ } : Player).resetInPoint.resetOutPoint).inOutRange =
      ⟨⟨10, 24⟩, ⟨48, 24⟩⟩ := by
  decide!

/-- C14, as the claim states it, fails in three ways.  With the current time
`10/24` before the in-point of the in/out range `[12/24, 21 frames)`,
`setOutPoint` stores `[12/24, -1 frames)`, whose inclusive end is the in-point
`12/24`.  With the current time `(27/2)/24`, not a whole number of frames after
the in-point, it stores `[12/24, 5/2 frames)`, whose inclusive end is `14/24`.
At the rate 1000000, where one frame is below the tolerance of the comparison
of time ranges, `setInPoint` at frame 1 leaves the in/out range
`[0, 10 frames)` as it is. -/
theorem setOutPoint_counterexample :
    ((({ Player.init ⟨⟨10, 24⟩, ⟨48, 24⟩⟩ ⟨10, 24⟩ with
          inOutRange := ⟨⟨12, 24⟩, ⟨21, 24⟩⟩ } : Player).setOutPoint).inOutRange =
        ⟨⟨12, 24⟩, ⟨-1, 24⟩⟩ ∧
      TimeRange.end_time_inclusive ⟨⟨12, 24⟩, ⟨-1, 24⟩⟩ = ⟨12, 24⟩ ∧
      ¬ RationalTime.eq ⟨12, 24⟩ (⟨10, 24⟩ : RationalTime)) ∧
    ((({ Player.init ⟨⟨10, 24⟩, ⟨48, 24⟩⟩ ⟨27 / 2, 24⟩ with
          inOutRange := ⟨⟨12, 24⟩, ⟨21, 24⟩⟩ } : Player).setOutPoint).inOutRange =
        ⟨⟨12, 24⟩, ⟨5 / 2, 24⟩⟩ ∧
      TimeRange.end_time_inclusive ⟨⟨12, 24⟩, ⟨5 / 2, 24⟩⟩ = ⟨14, 24⟩ ∧
      ¬ RationalTime.eq ⟨14, 24⟩ (⟨27 / 2, 24⟩ : RationalTime)) ∧
    (((Player.init ⟨⟨0, 1000000⟩, ⟨10, 1000000⟩⟩ ⟨1, 1000000⟩).setInPoint).inOutRange =
        ⟨⟨0, 1000000⟩, ⟨10, 1000000⟩⟩ ∧
      ¬ RationalTime.eq ⟨0, 1000000⟩
        (Player.init ⟨⟨0, 1000000⟩, ⟨10, 1000000⟩⟩ ⟨1, 1000000⟩).currentTime) := by
  decide!

/-- C14 (amended): for every player state given in whole frames at one rate of
at most 384000, `setInPoint` sets the in/out start to the current time and
leaves the in/out exclusive end unchanged; `setOutPoint` leaves the in/out
start unchanged and, when the current time is not before the in-point, sets
the in/out inclusive end to the current time; `resetInPoint` followed by
`resetOutPoint` restores the in/out range to the time range of the timeline.
None of them moves the current time. -/
theorem setInPoint_setOutPoint (p : Player) (r : ℚ) (a n c s d : ℤ)
    (hr : 0 < r) (hr2 : r ≤ 384000) (hio : p.inOutRange = ⟨⟨a, r⟩, ⟨n, r⟩⟩)
    (hc : p.currentTime = ⟨c, r⟩) (hR : p.timeRange = ⟨⟨s, r⟩, ⟨d, r⟩⟩) (hd : 1 ≤ d) :
    (p.setInPoint.inOutRange.start_time = p.currentTime ∧
      p.setInPoint.inOutRange.end_time_exclusive = p.inOutRange.end_time_exclusive ∧
      p.setInPoint.currentTime = p.currentTime) ∧
    (p.setOutPoint.inOutRange.start_time = p.inOutRange.start_time ∧
      (a ≤ c → p.setOutPoint.inOutRange.end_time_inclusive = p.currentTime) ∧
      p.setOutPoint.currentTime = p.currentTime) ∧
    (p.resetInPoint.resetOutPoint.inOutRange = p.timeRange ∧
      p.resetInPoint.resetOutPoint.currentTime = p.currentTime) := by
  have hin : p.setInPoint.inOutRange = ⟨⟨c, r⟩, ⟨((a + n - c : ℤ) : ℚ), r⟩⟩ := by
    have hv : TimeRange.range_from_start_end_time p.currentTime
        p.inOutRange.end_time_exclusive = ⟨⟨c, r⟩, ⟨((a + n - c : ℤ) : ℚ), r⟩⟩ := by
      rw [hc, hio, TimeRange.end_time_exclusive_mk]
      simp [TimeRange.range_from_start_end_time, RationalTime.duration_from_start_end_time]
    unfold Player.setInPoint
    rw [hv]
    exact setInOutRange_mk p r a c n (a + n - c) hr hr2 hio
  have hout : p.setOutPoint.inOutRange = ⟨⟨a, r⟩, ⟨((c - a + 1 : ℤ) : ℚ), r⟩⟩ := by
    have hv : TimeRange.range_from_start_end_time_inclusive p.inOutRange.start_time
        p.currentTime = ⟨⟨a, r⟩, ⟨((c - a + 1 : ℤ) : ℚ), r⟩⟩ := by
      rw [hc, hio, TimeRange.range_from_start_end_time_inclusive_mk]
      push_cast
      rfl
    unfold Player.setOutPoint
    rw [hv]
    exact setInOutRange_mk p r a a n (c - a + 1) hr hr2 hio
  have hri : p.resetInPoint.inOutRange = ⟨⟨s, r⟩, ⟨((a + n - s : ℤ) : ℚ), r⟩⟩ := by
    have hv : TimeRange.range_from_start_end_time p.timeRange.start_time
        p.inOutRange.end_time_exclusive = ⟨⟨s, r⟩, ⟨((a + n - s : ℤ) : ℚ), r⟩⟩ := by
      rw [hR, hio, TimeRange.end_time_exclusive_mk]
      simp [TimeRange.range_from_start_end_time, RationalTime.duration_from_start_end_time]
    unfold Player.resetInPoint
    rw [hv]
    exact setInOutRange_mk p r a s n (a + n - s) hr hr2 hio
  have hei : TimeRange.end_time_inclusive ⟨⟨(s : ℚ), r⟩, ⟨(d : ℚ), r⟩⟩ =
      ⟨((s + d - 1 : ℤ) : ℚ), r⟩ := by
    rw [TimeRange.end_time_inclusive_mk]
    split_ifs with h
    · push_cast; rfl
    · have h1 : d ≤ 1 := by exact_mod_cast not_lt.mp h
      have h2 : d = 1 := le_antisymm h1 hd
      subst h2
      simp
  have hro : p.resetInPoint.resetOutPoint.inOutRange = ⟨⟨s, r⟩, ⟨d, r⟩⟩ := by
    have hRt : p.resetInPoint.timeRange = p.timeRange := (setInOutRange_frame p _).1
    have hv : TimeRange.range_from_start_end_time_inclusive
        p.resetInPoint.inOutRange.start_time p.resetInPoint.timeRange.end_time_inclusive =
        ⟨⟨s, r⟩, ⟨((d : ℤ) : ℚ), r⟩⟩ := by
      rw [hri, hRt, hR, hei, TimeRange.range_from_start_end_time_inclusive_mk]
      push_cast
      congr 2
      ring
    unfold Player.resetOutPoint
    rw [hv]
    exact setInOutRange_mk _ r s s (a + n - s) d hr hr2 hri
  refine ⟨⟨?_, ?_, ?_⟩, ⟨?_, ?_, ?_⟩, ?_, ?_⟩
  · rw [hin, hc]
  · rw [hin, hio, TimeRange.end_time_exclusive_mk, TimeRange.end_time_exclusive_mk]
    push_cast
    congr 1
    ring
  · exact (setInOutRange_frame p _).2.1
  · rw [hout, hio]
  · intro hac
    rw [hout, hc, TimeRange.end_time_inclusive_mk]
    split_ifs with h
    · push_cast
      congr 1
      ring
    · have h1 : c - a + 1 ≤ 1 := by exact_mod_cast not_lt.mp h
      have h2 : c = a := by omega
      rw [h2]
  · exact (setInOutRange_frame p _).2.1
  · rw [hro, hR]
  · unfold Player.resetOutPoint
    rw [(setInOutRange_frame _ _).2.1]
    exact (setInOutRange_frame p _).2.1

/-- C14 at the in/out range of `PlayerTest::_player`: from
`[10/24, 33 frames)`, `setInPoint` at `12/24` gives the start `12/24` and keeps
the exclusive end `43/24`. -/
theorem setInPoint_setOutPoint_witness :
    (({ Player.init ⟨⟨10, 24⟩, ⟨48, 24⟩⟩ ⟨12, 24⟩ with
        inOutRange := ⟨⟨10, 24⟩, ⟨33, 24⟩⟩ } : Player).setInPoint).inOutRange =
      ⟨⟨12, 24⟩, ⟨31, 24⟩⟩ ∧
    (({ Player.init ⟨⟨10, 24⟩, ⟨48, 24⟩⟩ ⟨12, 24⟩ with
        inOutRange := ⟨⟨10, 24⟩, ⟨33, 24⟩⟩ } : Player).setInPoint).inOutRange.start_time =
      ({ Player.init ⟨⟨10, 24⟩, ⟨48, 24⟩⟩ ⟨12, 24⟩ with
        inOutRange := ⟨⟨10, 24⟩, ⟨33, 24⟩⟩ } : Player).currentTime ∧
    (({ Player.init ⟨⟨10, 24⟩, ⟨48, 24⟩⟩ ⟨12, 24⟩ with
        inOutRange := ⟨⟨10, 24⟩, ⟨33, 24⟩⟩ } :
      Player).setInPoint).inOutRange.end_time_exclusive =
      ({ Player.init ⟨⟨10, 24⟩, ⟨48, 24⟩⟩ ⟨12, 24⟩ with
        inOutRange := ⟨⟨10, 24⟩, ⟨33, 24⟩⟩ } : Player).inOutRange.end_time_exclusive :=
  ⟨by decide!,
    (setInPoint_setOutPoint
      ({ Player.init ⟨⟨10, 24⟩, ⟨48, 24⟩⟩ ⟨12, 24⟩ with
        inOutRange := ⟨⟨10, 24⟩, ⟨33, 24⟩⟩ } : Player) 24 10 33 12 10 48 (by norm_num)
      (by norm_num) (by decide!) (by decide!) (by decide!) (by norm_num)).1.1,
    (setInPoint_setOutPoint
      ({ Player.init ⟨⟨10, 24⟩, ⟨48, 24⟩⟩ ⟨12, 24⟩ with
        inOutRange := ⟨⟨10, 24⟩, ⟨33, 24⟩⟩ } : Player) 24 10 33 12 10 48 (by norm_num)
      (by norm_num) (by decide!) (by decide!) (by decide!) (by norm_num)).1.2.1⟩

end tl.timeline

/-! ## The raw windows of the cache -/

namespace tl.timeline

/-- C19: the raw video window of `cacheUpdate` is the range built with
`range_from_start_end_time_inclusive` from `currentTime - readBehind` to
`currentTime + readAhead` for the forward cache direction and from
`currentTime - readAhead` to `currentTime + readBehind` for the reverse one,
where both budgets are rescaled to the rate of the timeline and floored to
whole frames; the reverse window is the forward window with the two budgets
swapped.  For a current time at the rate of the timeline and non-negative
budgets the window starts at the first of the two times and its inclusive end
is the second.  With both budgets zero the window starts at the current time
and is one frame long. -/
theorem cacheUpdateVideoRange_window (timeRange : TimeRange) (currentTime : RationalTime)
    (cacheOptions : PlayerCacheOptions) :
    (Player.cacheUpdateVideoRange timeRange currentTime CacheDirection.Forward cacheOptions =
      TimeRange.range_from_start_end_time_inclusive
        (currentTime.sub
          ⟨(⌊cacheOptions.readBehind.value_rescaled_to timeRange.duration.rate⌋ : ℤ),
            timeRange.duration.rate⟩)
        (currentTime.add
          ⟨(⌊cacheOptions.readAhead.value_rescaled_to timeRange.duration.rate⌋ : ℤ),
            timeRange.duration.rate⟩)) ∧
    (Player.cacheUpdateVideoRange timeRange currentTime CacheDirection.Reverse cacheOptions =
      TimeRange.range_from_start_end_time_inclusive
        (currentTime.sub
          ⟨(⌊cacheOptions.readAhead.value_rescaled_to timeRange.duration.rate⌋ : ℤ),
            timeRange.duration.rate⟩)
        (currentTime.add
          ⟨(⌊cacheOptions.readBehind.value_rescaled_to timeRange.duration.rate⌋ : ℤ),
            timeRange.duration.rate⟩)) ∧
    (Player.cacheUpdateVideoRange timeRange currentTime CacheDirection.Reverse cacheOptions =
      Player.cacheUpdateVideoRange timeRange currentTime CacheDirection.Forward
        ⟨cacheOptions.readBehind, cacheOptions.readAhead⟩) ∧
    (currentTime.rate = timeRange.duration.rate → 0 < timeRange.duration.rate →
      0 ≤ cacheOptions.readAhead.value → cacheOptions.readAhead.valid →
      0 ≤ cacheOptions.readBehind.value → cacheOptions.readBehind.valid →
      (Player.cacheUpdateVideoRange timeRange currentTime CacheDirection.Forward
          cacheOptions).end_time_inclusive =
        currentTime.add
          ⟨(⌊cacheOptions.readAhead.value_rescaled_to timeRange.duration.rate⌋ : ℤ),
            timeRange.duration.rate⟩ ∧
      (Player.cacheUpdateVideoRange timeRange currentTime CacheDirection.Reverse
          cacheOptions).end_time_inclusive =
        currentTime.add
          ⟨(⌊cacheOptions.readBehind.value_rescaled_to timeRange.duration.rate⌋ : ℤ),
            timeRange.duration.rate⟩) ∧
    (cacheOptions.readAhead.value = 0 → cacheOptions.readBehind.value = 0 →
      ∀ cacheDirection : CacheDirection,
        currentTime.eq
          (Player.cacheUpdateVideoRange timeRange currentTime cacheDirection
            cacheOptions).start_time ∧
        (Player.cacheUpdateVideoRange timeRange currentTime cacheDirection
          cacheOptions).duration.value = 1 ∧
        (currentTime.rate = timeRange.duration.rate →
          Player.cacheUpdateVideoRange timeRange currentTime cacheDirection cacheOptions =
            ⟨currentTime, ⟨1, timeRange.duration.rate⟩⟩)) := by
  refine ⟨rfl, rfl, rfl, ?_, ?_⟩
  · intro hrate hr ha hav hb hbv
    obtain ⟨t, cr⟩ := currentTime
    simp only at hrate
    subst hrate
    have hA := floor_value_rescaled_to_nonneg cacheOptions.readAhead _ hr ha hav
    have hB := floor_value_rescaled_to_nonneg cacheOptions.readBehind _ hr hb hbv
    have hAq : (0 : ℚ) ≤ (⌊cacheOptions.readAhead.value_rescaled_to
        timeRange.duration.rate⌋ : ℤ) := by exact_mod_cast hA
    have hBq : (0 : ℚ) ≤ (⌊cacheOptions.readBehind.value_rescaled_to
        timeRange.duration.rate⌋ : ℤ) := by exact_mod_cast hB
    constructor
    · rw [cacheUpdateVideoRange_mk timeRange _ t CacheDirection.Forward cacheOptions rfl]
      simp only [TimeRange.end_time_inclusive_mk, RationalTime.add_mk]
      congr 1
      split_ifs with h
      · push_cast; ring
      · push_cast at h
        have h1 : (⌊cacheOptions.readAhead.value_rescaled_to
            timeRange.duration.rate⌋ : ℚ) = 0 := by linarith
        have h2 : (⌊cacheOptions.readBehind.value_rescaled_to
            timeRange.duration.rate⌋ : ℚ) = 0 := by linarith
        rw [h1, h2]; ring
    · rw [cacheUpdateVideoRange_mk timeRange _ t CacheDirection.Reverse cacheOptions rfl]
      simp only [TimeRange.end_time_inclusive_mk, RationalTime.add_mk]
      congr 1
      split_ifs with h
      · push_cast; ring
      · push_cast at h
        have h1 : (⌊cacheOptions.readAhead.value_rescaled_to
            timeRange.duration.rate⌋ : ℚ) = 0 := by linarith
        have h2 : (⌊cacheOptions.readBehind.value_rescaled_to
            timeRange.duration.rate⌋ : ℚ) = 0 := by linarith
        rw [h1, h2]; ring
  · intro ha hb cacheDirection
    have hA : cacheOptions.readAhead.value_rescaled_to timeRange.duration.rate = 0 := by
      unfold RationalTime.value_rescaled_to
      rw [ha]
      simp
    have hB : cacheOptions.readBehind.value_rescaled_to timeRange.duration.rate = 0 := by
      unfold RationalTime.value_rescaled_to
      rw [hb]
      simp
    cases cacheDirection <;>
      simp only [Player.cacheUpdateVideoRange, time.floor, RationalTime.rescaled_to, hA, hB,
        Int.floor_zero, Int.cast_zero] <;>
      (refine ⟨?_, ?_, ?_⟩
       · unfold RationalTime.eq TimeRange.range_from_start_end_time_inclusive RationalTime.sub
         split_ifs <;> simp [RationalTime.value_rescaled_to]
       · unfold TimeRange.range_from_start_end_time_inclusive
           RationalTime.duration_from_start_end_time_inclusive RationalTime.sub RationalTime.add
         split_ifs <;> simp_all [RationalTime.value_rescaled_to]
       · intro hrate
         obtain ⟨t, cr⟩ := currentTime
         simp only at hrate
         subst hrate
         simp [RationalTime.sub_mk, RationalTime.add_mk,
           TimeRange.range_from_start_end_time_inclusive_mk])

end tl.timeline

namespace tl.timeline

/-- The exclusive end, in seconds, of a range built from a start and an
inclusive end of one rate: one frame after the inclusive end. -/
theorem to_seconds_end_range_from_inclusive (x y : RationalTime) (h : x.rate = y.rate) :
    (TimeRange.range_from_start_end_time_inclusive x y).end_time_exclusive.to_seconds =
      y.to_seconds + 1 / x.rate := by
  obtain ⟨xv, xr⟩ := x
  obtain ⟨yv, yr⟩ := y
  simp only at h
  subst h
  rw [TimeRange.range_from_start_end_time_inclusive_mk, TimeRange.end_time_exclusive_mk]
  simp only [RationalTime.to_seconds]
  rw [← add_div]
  congr 1
  ring

/-- Subtracting zero frames of a rate that is not above the rate of a time
leaves the time as it is. -/
theorem sub_zero_frames (x : RationalTime) (r : ℚ) (h : r ≤ x.rate) :
    x.sub ⟨0, r⟩ = x := by
  unfold RationalTime.sub
  rw [if_neg (not_lt.mpr h)]
  simp [RationalTime.value_rescaled_to]

/-- Adding zero frames of a rate that is not above the rate of a time leaves
the time as it is. -/
theorem add_zero_frames (x : RationalTime) (r : ℚ) (h : r ≤ x.rate) :
    x.add ⟨0, r⟩ = x := by
  unfold RationalTime.add
  rw [if_neg (not_lt.mpr h)]
  simp [RationalTime.value_rescaled_to]

/-- The audio offset as a time at the rate of the timeline has the value
`audioOffset * rate`. -/
theorem cacheUpdateAudioOffsetTime_eq (timeRange : TimeRange) (audioOffset : ℚ) :
    Player.cacheUpdateAudioOffsetTime timeRange audioOffset =
      ⟨audioOffset * timeRange.duration.rate, timeRange.duration.rate⟩ := by
  unfold Player.cacheUpdateAudioOffsetTime RationalTime.rescaled_to
    RationalTime.value_rescaled_to
  split_ifs with h
  · simp only at h
    rw [h]
    simp
  · simp

/-- The two audio offsets of `cacheUpdate` are whole frames at the rate of the
timeline: the ahead one is the rounded size of a negative offset, the behind
one the rounded positive offset, and each is zero otherwise. -/
theorem cacheUpdateAudioOffset_eq (timeRange : TimeRange) (audioOffset : ℚ)
    (hr : 0 < timeRange.duration.rate) :
    Player.cacheUpdateAudioOffsetAhead timeRange audioOffset =
      ⟨if audioOffset < 0 then
          ((⌊-(audioOffset * timeRange.duration.rate) + 1 / 2⌋ : ℤ) : ℚ) else 0,
        timeRange.duration.rate⟩ ∧
    Player.cacheUpdateAudioOffsetBehind timeRange audioOffset =
      ⟨if 0 < audioOffset then
          ((⌊audioOffset * timeRange.duration.rate + 1 / 2⌋ : ℤ) : ℚ) else 0,
        timeRange.duration.rate⟩ := by
  unfold Player.cacheUpdateAudioOffsetAhead Player.cacheUpdateAudioOffsetBehind
  rw [cacheUpdateAudioOffsetTime_eq]
  have h1 : audioOffset * timeRange.duration.rate < 0 ↔ audioOffset < 0 := by
    constructor
    · intro h
      by_contra hc
      have := mul_nonneg (not_lt.mp hc) (le_of_lt hr)
      linarith
    · intro h
      exact mul_neg_of_neg_of_pos h hr
  have h2 : audioOffset * timeRange.duration.rate > 0 ↔ 0 < audioOffset := by
    constructor
    · intro h
      by_contra hc
      have := mul_nonpos_of_nonpos_of_nonneg (not_lt.mp hc) (le_of_lt hr)
      linarith
    · intro h
      exact mul_pos h hr
  constructor
  · by_cases h : audioOffset < 0
    · have h' := h1.mpr h
      simp only [h', h, if_true, time.round, RationalTime.neg]
      have : (0 : ℚ) ≤ -(audioOffset * timeRange.duration.rate) := by linarith
      simp [this]
    · have h' : ¬ audioOffset * timeRange.duration.rate < 0 := fun hc => h (h1.mp hc)
      simp only [h', h, if_false, time.round]
      norm_num
  · by_cases h : 0 < audioOffset
    · have h' := h2.mpr h
      simp only [h', h, if_true, time.round]
      have : (0 : ℚ) ≤ audioOffset * timeRange.duration.rate := le_of_lt h'
      simp [this]
    · have h' : ¬ audioOffset * timeRange.duration.rate > 0 := fun hc => h (h2.mp hc)
      simp only [h', h, if_false, time.round]
      norm_num

/-- Taking the start of an inclusive range earlier by `bh` and its inclusive
end later by `ah` moves the start and the exclusive end by as many seconds. -/
theorem to_seconds_widen (S E bh ah : RationalTime) (hS : 0 < S.rate) (hSE : S.rate = E.rate)
    (hb : 0 < bh.rate) (hbS : bh.rate ≤ S.rate) (ha : 0 < ah.rate) (haE : ah.rate ≤ E.rate) :
    (TimeRange.range_from_start_end_time_inclusive (S.sub bh) (E.add ah)).start_time.to_seconds
        = (TimeRange.range_from_start_end_time_inclusive S E).start_time.to_seconds -
          bh.to_seconds ∧
    (TimeRange.range_from_start_end_time_inclusive (S.sub bh)
        (E.add ah)).end_time_exclusive.to_seconds =
      (TimeRange.range_from_start_end_time_inclusive S E).end_time_exclusive.to_seconds +
        ah.to_seconds := by
  have hE : 0 < E.rate := hSE ▸ hS
  have r1 : (S.sub bh).rate = S.rate := by
    rw [RationalTime.rate_sub, max_eq_left hbS]
  have r2 : (E.add ah).rate = E.rate := by
    rw [RationalTime.rate_add, max_eq_left haE]
  constructor
  · exact RationalTime.to_seconds_sub S bh (ne_of_gt hS) (ne_of_gt hb)
  · rw [to_seconds_end_range_from_inclusive _ _ (by rw [r1, r2, hSE]),
      to_seconds_end_range_from_inclusive _ _ hSE,
      RationalTime.to_seconds_add E ah (ne_of_gt hE) (ne_of_gt ha), r1]
    ring

/-- C20: for a valid current time and a timeline of positive rate, the raw
audio window of `cacheUpdate` is the raw video window widened by the audio
offset.  A negative offset gives a zero behind-offset and an ahead-offset of
`|offset|` rounded to frames; a positive offset gives a zero ahead-offset and a
behind-offset of the offset rounded to frames.  In the forward direction the
audio window starts the behind-offset before the video window and ends the
ahead-offset after it, in the reverse direction it starts the ahead-offset
before and ends the behind-offset after; with the offset 0 the two windows are
equal. -/
theorem cacheUpdateAudioRange_window (timeRange : TimeRange) (currentTime : RationalTime)
    (audioOffset : ℚ) (cacheOptions : PlayerCacheOptions)
    (hr : 0 < timeRange.duration.rate) (hc : currentTime.valid) :
    (audioOffset < 0 →
      (Player.cacheUpdateAudioOffsetBehind timeRange audioOffset).to_seconds = 0 ∧
      (Player.cacheUpdateAudioOffsetAhead timeRange audioOffset) =
        ⟨((⌊|audioOffset| * timeRange.duration.rate + 1 / 2⌋ : ℤ) : ℚ),
          timeRange.duration.rate⟩) ∧
    (0 < audioOffset →
      (Player.cacheUpdateAudioOffsetAhead timeRange audioOffset).to_seconds = 0 ∧
      (Player.cacheUpdateAudioOffsetBehind timeRange audioOffset) =
        ⟨((⌊audioOffset * timeRange.duration.rate + 1 / 2⌋ : ℤ) : ℚ),
          timeRange.duration.rate⟩) ∧
    ((Player.cacheUpdateAudioRange timeRange currentTime audioOffset CacheDirection.Forward
          cacheOptions).start_time.to_seconds =
        (Player.cacheUpdateVideoRange timeRange currentTime CacheDirection.Forward
          cacheOptions).start_time.to_seconds -
          (Player.cacheUpdateAudioOffsetBehind timeRange audioOffset).to_seconds ∧
      (Player.cacheUpdateAudioRange timeRange currentTime audioOffset CacheDirection.Forward
          cacheOptions).end_time_exclusive.to_seconds =
        (Player.cacheUpdateVideoRange timeRange currentTime CacheDirection.Forward
          cacheOptions).end_time_exclusive.to_seconds +
          (Player.cacheUpdateAudioOffsetAhead timeRange audioOffset).to_seconds) ∧
    ((Player.cacheUpdateAudioRange timeRange currentTime audioOffset CacheDirection.Reverse
          cacheOptions).start_time.to_seconds =
        (Player.cacheUpdateVideoRange timeRange currentTime CacheDirection.Reverse
          cacheOptions).start_time.to_seconds -
          (Player.cacheUpdateAudioOffsetAhead timeRange audioOffset).to_seconds ∧
      (Player.cacheUpdateAudioRange timeRange currentTime audioOffset CacheDirection.Reverse
          cacheOptions).end_time_exclusive.to_seconds =
        (Player.cacheUpdateVideoRange timeRange currentTime CacheDirection.Reverse
          cacheOptions).end_time_exclusive.to_seconds +
          (Player.cacheUpdateAudioOffsetBehind timeRange audioOffset).to_seconds) ∧
    (audioOffset = 0 → ∀ cacheDirection : CacheDirection,
      Player.cacheUpdateAudioRange timeRange currentTime audioOffset cacheDirection
          cacheOptions =
        Player.cacheUpdateVideoRange timeRange currentTime cacheDirection cacheOptions) := by
  obtain ⟨hah, hbh⟩ := cacheUpdateAudioOffset_eq timeRange audioOffset hr
  have rah : (Player.cacheUpdateAudioOffsetAhead timeRange audioOffset).rate =
      timeRange.duration.rate := by rw [hah]
  have rbh : (Player.cacheUpdateAudioOffsetBehind timeRange audioOffset).rate =
      timeRange.duration.rate := by rw [hbh]
  have hsub : ∀ X : RationalTime, X.rate = timeRange.duration.rate →
      (currentTime.sub X).rate = (currentTime.add X).rate ∧
      0 < (currentTime.sub X).rate ∧ timeRange.duration.rate ≤ (currentTime.sub X).rate ∧
      timeRange.duration.rate ≤ (currentTime.add X).rate := by
    intro X hX
    rw [RationalTime.rate_sub, RationalTime.rate_add, hX]
    exact ⟨rfl, lt_max_of_lt_left hc, le_max_right _ _, le_max_right _ _⟩
  refine ⟨?_, ?_, ?_, ?_, ?_⟩
  · intro hneg
    have hnp : ¬ 0 < audioOffset := not_lt.mpr (le_of_lt hneg)
    rw [hah, hbh]
    simp only [hneg, hnp, if_true, if_false, RationalTime.to_seconds, zero_div, true_and]
    rw [abs_of_neg hneg, neg_mul]
  · intro hpos
    have hnn : ¬ audioOffset < 0 := not_lt.mpr (le_of_lt hpos)
    rw [hah, hbh]
    simp only [hpos, hnn, if_true, if_false, RationalTime.to_seconds, zero_div, true_and]
  · obtain ⟨h1, h2, h3, _⟩ := hsub
      (time.floor (cacheOptions.readBehind.rescaled_to timeRange.duration.rate)) rfl
    obtain ⟨_, _, _, h4⟩ := hsub
      (time.floor (cacheOptions.readAhead.rescaled_to timeRange.duration.rate)) rfl
    have hrates : (currentTime.sub
        (time.floor (cacheOptions.readBehind.rescaled_to timeRange.duration.rate))).rate =
        (currentTime.add
          (time.floor (cacheOptions.readAhead.rescaled_to timeRange.duration.rate))).rate := by
      rw [RationalTime.rate_sub, RationalTime.rate_add]
      rfl
    exact to_seconds_widen _ _ _ _ h2 hrates (rbh ▸ hr) (rbh ▸ h3) (rah ▸ hr) (rah ▸ h4)
  · obtain ⟨h1, h2, h3, _⟩ := hsub
      (time.floor (cacheOptions.readAhead.rescaled_to timeRange.duration.rate)) rfl
    obtain ⟨_, _, _, h4⟩ := hsub
      (time.floor (cacheOptions.readBehind.rescaled_to timeRange.duration.rate)) rfl
    have hrates : (currentTime.sub
        (time.floor (cacheOptions.readAhead.rescaled_to timeRange.duration.rate))).rate =
        (currentTime.add
          (time.floor (cacheOptions.readBehind.rescaled_to timeRange.duration.rate))).rate := by
      rw [RationalTime.rate_sub, RationalTime.rate_add]
      rfl
    exact to_seconds_widen _ _ _ _ h2 hrates (rah ▸ hr) (rah ▸ h3) (rbh ▸ hr) (rbh ▸ h4)
  · intro h0 cacheDirection
    have ha0 : Player.cacheUpdateAudioOffsetAhead timeRange audioOffset =
        ⟨0, timeRange.duration.rate⟩ := by
      rw [hah, h0]; simp
    have hb0 : Player.cacheUpdateAudioOffsetBehind timeRange audioOffset =
        ⟨0, timeRange.duration.rate⟩ := by
      rw [hbh, h0]; simp
    cases cacheDirection <;>
      simp only [Player.cacheUpdateAudioRange, Player.cacheUpdateVideoRange, ha0, hb0] <;>
      rw [sub_zero_frames _ _ (by rw [RationalTime.rate_sub]; exact le_max_right _ _),
        add_zero_frames _ _ (by rw [RationalTime.rate_add]; exact le_max_right _ _)]

/-- C20 at the timeline of `PlayerTest::_player`: current time `20/24`, read
ahead 4 frames, read behind 2 frames, forward.  The video window is
`[18/24, 7 frames)`; the audio offset `-0.1 s` (rounded to 2 frames) gives the
audio window `[18/24, 9 frames)`, the audio offset `0.25 s` (6 frames) gives
`[12/24, 13 frames)`. -/
theorem cacheUpdateAudioRange_window_witness :
    Player.cacheUpdateVideoRange ⟨⟨10, 24⟩, ⟨48, 24⟩⟩ ⟨20, 24⟩ CacheDirection.Forward
      ⟨⟨4, 24⟩, ⟨2, 24⟩⟩ = ⟨⟨18, 24⟩, ⟨7, 24⟩⟩ ∧
    Player.cacheUpdateAudioRange ⟨⟨10, 24⟩, ⟨48, 24⟩⟩ ⟨20, 24⟩ (-1 / 10)
      CacheDirection.Forward ⟨⟨4, 24⟩, ⟨2, 24⟩⟩ = ⟨⟨18, 24⟩, ⟨9, 24⟩⟩ ∧
    Player.cacheUpdateAudioRange ⟨⟨10, 24⟩, ⟨48, 24⟩⟩ ⟨20, 24⟩ (1 / 4)
      CacheDirection.Forward ⟨⟨4, 24⟩, ⟨2, 24⟩⟩ = ⟨⟨12, 24⟩, ⟨13, 24⟩⟩ ∧
    Player.cacheUpdateAudioRange ⟨⟨10, 24⟩, ⟨48, 24⟩⟩ ⟨20, 24⟩ 0
      CacheDirection.Forward ⟨⟨4, 24⟩, ⟨2, 24⟩⟩ =
      Player.cacheUpdateVideoRange ⟨⟨10, 24⟩, ⟨48, 24⟩⟩ ⟨20, 24⟩ CacheDirection.Forward
        ⟨⟨4, 24⟩, ⟨2, 24⟩⟩ :=
  ⟨by decide!, by decide!, by decide!,
    (cacheUpdateAudioRange_window ⟨⟨10, 24⟩, ⟨48, 24⟩⟩ ⟨20, 24⟩ 0 ⟨⟨4, 24⟩, ⟨2, 24⟩⟩
      (by norm_num) (by decide!)).2.2.2.2 rfl CacheDirection.Forward⟩

/-- C19 at the timeline of `PlayerTest::_player`: current time `20/24`, read
ahead 4 frames, read behind 2 frames.  The forward window is
`[18/24, 7 frames)`, the reverse window `[16/24, 7 frames)`, and with both
budgets zero the window is `[20/24, 1 frame)`. -/
theorem cacheUpdateVideoRange_window_witness :
    Player.cacheUpdateVideoRange ⟨⟨10, 24⟩, ⟨48, 24⟩⟩ ⟨20, 24⟩ CacheDirection.Forward
      ⟨⟨4, 24⟩, ⟨2, 24⟩⟩ = ⟨⟨18, 24⟩, ⟨7, 24⟩⟩ ∧
    Player.cacheUpdateVideoRange ⟨⟨10, 24⟩, ⟨48, 24⟩⟩ ⟨20, 24⟩ CacheDirection.Reverse
      ⟨⟨4, 24⟩, ⟨2, 24⟩⟩ = ⟨⟨16, 24⟩, ⟨7, 24⟩⟩ ∧
    Player.cacheUpdateVideoRange ⟨⟨10, 24⟩, ⟨48, 24⟩⟩ ⟨20, 24⟩ CacheDirection.Forward
      ⟨⟨0, 24⟩, ⟨0, 24⟩⟩ = ⟨⟨20, 24⟩, ⟨1, 24⟩⟩ :=
  ⟨by decide!, by decide!,
    ((cacheUpdateVideoRange_window ⟨⟨10, 24⟩, ⟨48, 24⟩⟩ ⟨20, 24⟩ ⟨⟨0, 24⟩, ⟨0, 24⟩⟩).2.2.2.2
      rfl rfl CacheDirection.Forward).2.2 rfl⟩

end tl.timeline

/-! ## Eviction from the caches -/

namespace tl.timeline

theorem cacheUpdateEvictAudio_mem (audioRanges : List TimeRange)
    (cache : List (ℤ × AudioData)) (e : ℤ × AudioData) :
    e ∈ Player.cacheUpdateEvictAudio audioRanges cache ↔
      e ∈ cache ∧ ∃ i ∈ audioRanges, i.intersects ⟨⟨e.2.seconds, 1⟩, ⟨1, 1⟩⟩ := by
  simp [Player.cacheUpdateEvictAudio, List.mem_filter]

theorem intersects_of_inside (i : TimeRange) (s : ℤ)
    (h : TimeRange.inside ⟨⟨s, 1⟩, ⟨1, 1⟩⟩ i) : i.intersects ⟨⟨s, 1⟩, ⟨1, 1⟩⟩ := by
  obtain ⟨h1, h2⟩ := h
  rw [RationalTime.le_iff] at h1 h2
  rw [TimeRange.end_time_exclusive_mk] at h2
  simp only [RationalTime.to_seconds, div_one] at h1 h2
  unfold TimeRange.intersects
  rw [TimeRange.end_time_exclusive_mk]
  simp only [RationalTime.to_seconds, div_one, DEFAULT_EPSILON_s] at *
  constructor
  · have : (1 : ℚ) / (2 * 192000) ≤ 1 := by norm_num
    linarith
  · have : (1 : ℚ) / (2 * 192000) ≤ 1 := by norm_num
    linarith

/-- C18, as stated, does not hold.  With a read ahead of 4 seconds and a read
behind of half a second, at frame 12 of 240 frames at 24 frames a second, the
planned audio range is `[0/24, 109 frames)`, a little over four and a half
seconds.  The audio eviction step keeps the entry of second 4, removing only
that of second 5, although the second `[4, 5)` is not contained in the planned
range: it merely overlaps it. -/
theorem cacheUpdateEvictAudio_counterexample :
    Player.cacheUpdateAudioRanges ⟨⟨0, 24⟩, ⟨240, 24⟩⟩ ⟨12, 24⟩ ⟨⟨0, 24⟩, ⟨240, 24⟩⟩ 0
        CacheDirection.Forward ⟨⟨4, 1⟩, ⟨1 / 2, 1⟩⟩ = [⟨⟨0, 24⟩, ⟨109, 24⟩⟩] ∧
    Player.cacheUpdateEvictAudio [⟨⟨0, 24⟩, ⟨109, 24⟩⟩]
        [(3, ⟨3, [1]⟩), (4, ⟨4, [1]⟩), (5, ⟨5, [1]⟩)] = [(3, ⟨3, [1]⟩), (4, ⟨4, [1]⟩)] ∧
    ¬ TimeRange.inside ⟨⟨4, 1⟩, ⟨1, 1⟩⟩ ⟨⟨0, 24⟩, ⟨109, 24⟩⟩ := by
  decide!

/-- C18, amended: containment is replaced by intersection.  In the audio
eviction step of `cacheUpdate` an entry of the audio cache is kept if and only
if some planned audio range intersects the second `[s, s + 1)` it holds, every
other entry is removed, and the entries kept stay in their order.  An entry
whose second is contained in a planned range is among those kept. -/
theorem cacheUpdateEvictAudio_intersects (audioRanges : List TimeRange)
    (cache : List (ℤ × AudioData)) :
    (∀ e, e ∈ Player.cacheUpdateEvictAudio audioRanges cache ↔
      e ∈ cache ∧ ∃ i ∈ audioRanges, i.intersects ⟨⟨e.2.seconds, 1⟩, ⟨1, 1⟩⟩) ∧
    (Player.cacheUpdateEvictAudio audioRanges cache).Sublist cache ∧
    (∀ e ∈ cache, (∃ i ∈ audioRanges, TimeRange.inside ⟨⟨e.2.seconds, 1⟩, ⟨1, 1⟩⟩ i) →
      e ∈ Player.cacheUpdateEvictAudio audioRanges cache) := by
  refine ⟨cacheUpdateEvictAudio_mem audioRanges cache, List.filter_sublist _, ?_⟩
  rintro e he ⟨i, hi, hin⟩
  exact (cacheUpdateEvictAudio_mem audioRanges cache e).2
    ⟨he, i, hi, intersects_of_inside i e.2.seconds hin⟩

/-- C18, amended, at the values of the counterexample: the entries of the
seconds 3 and 4 are kept, the second one by intersection only. -/
theorem cacheUpdateEvictAudio_intersects_witness :
    ((4, ⟨4, [1]⟩) : ℤ × AudioData) ∈ Player.cacheUpdateEvictAudio [⟨⟨0, 24⟩, ⟨109, 24⟩⟩]
        [(3, ⟨3, [1]⟩), (4, ⟨4, [1]⟩), (5, ⟨5, [1]⟩)] ∧
    ((3, ⟨3, [1]⟩) : ℤ × AudioData) ∈ Player.cacheUpdateEvictAudio [⟨⟨0, 24⟩, ⟨109, 24⟩⟩]
        [(3, ⟨3, [1]⟩), (4, ⟨4, [1]⟩), (5, ⟨5, [1]⟩)] :=
  ⟨((cacheUpdateEvictAudio_intersects [⟨⟨0, 24⟩, ⟨109, 24⟩⟩]
      [(3, ⟨3, [1]⟩), (4, ⟨4, [1]⟩), (5, ⟨5, [1]⟩)]).1 (4, ⟨4, [1]⟩)).2 (by decide!),
    (cacheUpdateEvictAudio_intersects [⟨⟨0, 24⟩, ⟨109, 24⟩⟩]
      [(3, ⟨3, [1]⟩), (4, ⟨4, [1]⟩), (5, ⟨5, [1]⟩)]).2.2 (3, ⟨3, [1]⟩) (by decide!)
      (by decide!)⟩

end tl.timeline

namespace tl.timeline

theorem cacheUpdateEvictVideo_mem (videoRanges : List TimeRange)
    (cache : List (RationalTime × VideoData)) (e : RationalTime × VideoData) :
    e ∈ Player.cacheUpdateEvictVideo videoRanges cache ↔
      e ∈ cache ∧ ∃ i ∈ videoRanges, i.contains e.2.time := by
  simp [Player.cacheUpdateEvictVideo, List.mem_filter]

theorem mem_mapInsert {K V : Type} (lt : K → K → Prop) [DecidableRel lt] (m : List (K × V))
    (k : K) (v : V) (e : K × V) (h : e ∈ mapInsert lt m k v) : e ∈ m ∨ e.2 = v := by
  induction m with
  | nil =>
    simp only [mapInsert, List.mem_singleton] at h
    right
    rw [h]
  | cons a rest ih =>
    unfold mapInsert at h
    split_ifs at h with h1 h2
    · rcases List.mem_cons.1 h with h | h
      · right
        rw [h]
      · left
        exact h
    · rcases List.mem_cons.1 h with h | h
      · left
        rw [h]
        exact List.mem_cons_self _ _
      · rcases ih h with h | h
        · left
          exact List.mem_cons_of_mem _ h
        · right
          exact h
    · rcases List.mem_cons.1 h with h | h
      · right
        rw [h]
      · left
        exact List.mem_cons_of_mem _ h

theorem cacheUpdateFinishVideo_foldl_mem (ready : RationalTime → Option VideoData)
    (requests : List RationalTime) (s : List (RationalTime × VideoData) × List RationalTime)
    (e : RationalTime × VideoData)
    (h : e ∈ (requests.foldl (fun s k =>
      match ready k with
      | some data => (mapInsert RationalTime.lt s.1 k { data with time := k }, s.2)
      | none => (s.1, s.2 ++ [k])) s).1) :
    e ∈ s.1 ∨ ∃ k ∈ requests, ∃ d, ready k = some d ∧ e.2 = { d with time := k } := by
  induction requests generalizing s with
  | nil => exact Or.inl h
  | cons k rest ih =>
    rw [List.foldl_cons] at h
    rcases ih _ h with h | ⟨k1, hk1, d, hd, he⟩
    · cases hr : ready k with
      | none =>
        rw [hr] at h
        exact Or.inl h
      | some data =>
        rw [hr] at h
        rcases mem_mapInsert _ _ _ _ _ h with h | h
        · exact Or.inl h
        · exact Or.inr ⟨k, List.mem_cons_self _ _, data, hr, h⟩
    · exact Or.inr ⟨k1, List.mem_cons_of_mem _ hk1, d, hd, he⟩

theorem cacheUpdateInfo_videoDataCache (timeRange : TimeRange)
    (cacheOptions : PlayerCacheOptions) (now : ℕ) (c : PlayerThread) :
    (Player.cacheUpdateInfo timeRange cacheOptions now c).videoDataCache = c.videoDataCache := by
  unfold Player.cacheUpdateInfo
  split_ifs <;> rfl

theorem cacheUpdate_videoDataCache (timeRange : TimeRange) (c : PlayerThread)
    (currentTime : RationalTime) (inOutRange : TimeRange) (audioOffset : ℚ)
    (cacheDirection : CacheDirection) (cacheOptions : PlayerCacheOptions) (now : ℕ)
    (videoReady : RationalTime → Option VideoData) (audioReady : ℤ → Option AudioData) :
    (Player.cacheUpdate timeRange c currentTime inOutRange audioOffset cacheDirection
      cacheOptions now videoReady audioReady).videoDataCache =
    (Player.cacheUpdateFinishVideo videoReady
      (Player.cacheUpdateEvictVideo
        (Player.cacheUpdateVideoRanges timeRange currentTime inOutRange cacheDirection
          cacheOptions) c.videoDataCache)
      (Player.cacheUpdateRequestVideo c.hasVideo
        (Player.cacheUpdateVideoRanges timeRange currentTime inOutRange cacheDirection
          cacheOptions)
        (Player.cacheUpdateEvictVideo
          (Player.cacheUpdateVideoRanges timeRange currentTime inOutRange cacheDirection
            cacheOptions) c.videoDataCache)
        c.videoDataRequests)).1 := by
  unfold Player.cacheUpdate
  simp only [cacheUpdateInfo_videoDataCache]

theorem cacheUpdate_videoDataCache_mem (timeRange : TimeRange) (c : PlayerThread)
    (currentTime : RationalTime) (inOutRange : TimeRange) (audioOffset : ℚ)
    (cacheDirection : CacheDirection) (cacheOptions : PlayerCacheOptions) (now : ℕ)
    (videoReady : RationalTime → Option VideoData) (audioReady : ℤ → Option AudioData)
    (e : RationalTime × VideoData)
    (h : e ∈ (Player.cacheUpdate timeRange c currentTime inOutRange audioOffset cacheDirection
      cacheOptions now videoReady audioReady).videoDataCache) :
    (e ∈ c.videoDataCache ∧
      ∃ i ∈ Player.cacheUpdateVideoRanges timeRange currentTime inOutRange cacheDirection
        cacheOptions, i.contains e.2.time) ∨
    ∃ k d, videoReady k = some d ∧ e.2 = { d with time := k } := by
  rw [cacheUpdate_videoDataCache] at h
  unfold Player.cacheUpdateFinishVideo at h
  rcases cacheUpdateFinishVideo_foldl_mem _ _ _ _ h with h | ⟨k, _, d, hd, he⟩
  · exact Or.inl ((cacheUpdateEvictVideo_mem _ _ _).1 h)
  · exact Or.inr ⟨k, d, hd, he⟩

theorem cacheUpdateVideoRanges_one_frame (timeRange : TimeRange) (k s n : ℤ) (r : ℚ)
    (hr : 0 < r) (hrate : timeRange.duration.rate = r) (h1 : s ≤ k) (h2 : k + 1 ≤ s + n - 1) :
    Player.cacheUpdateVideoRanges timeRange ⟨k, r⟩ ⟨⟨s, r⟩, ⟨n, r⟩⟩ CacheDirection.Forward
      ⟨⟨1, r⟩, ⟨0, r⟩⟩ = [⟨⟨k, r⟩, ⟨2, r⟩⟩] := by
  have h1q : (s : ℚ) ≤ k := by exact_mod_cast h1
  have h2q : (k : ℚ) + 1 ≤ s + n - 1 := by exact_mod_cast h2
  unfold Player.cacheUpdateVideoRanges
  rw [cacheUpdateVideoRange_mk timeRange r k CacheDirection.Forward _ hrate]
  simp only [RationalTime.value_rescaled_to, if_true, Int.floor_one, Int.floor_zero]
  have e1 : ((k : ℚ) - ((0 : ℤ) : ℚ)) = k := by simp
  have e2 : (((1 + 0 + 1 : ℤ) : ℚ)) = ((2 : ℤ) : ℚ) := by norm_num
  rw [e1, e2]
  unfold loopRanges
  simp only [TimeRange.end_time_exclusive_mk, RationalTime.ge_mk _ _ _ hr,
    RationalTime.le_mk _ _ _ hr]
  by_cases hn : n = 2
  · subst hn
    have hks : k = s := by omega
    subst hks
    simp
  · have hn2 : (2 : ℤ) < n := by omega
    have hnq : (2 : ℚ) < n := by exact_mod_cast hn2
    have h3 : ¬ ((n : ℚ) ≤ ((2 : ℤ) : ℚ)) := by
      push_cast
      linarith
    rw [if_neg h3, if_pos]
    · norm_num
    · push_cast
      constructor <;> linarith

end tl.timeline

namespace tl.timeline

/-- C17, as stated, does not hold.  A player of 48 frames at 24 frames a second
with a read ahead of one frame and no read behind starts with empty caches.
A first `cacheUpdate` at frame 10 requests the frames 10 and 11; neither is
ready.  A second `cacheUpdate` at frame 13 plans the range `[13/24, 2 frames)`
and finds the request of frame 11 finished: it stores the frame after the
eviction step, so after `cacheUpdate` the video cache holds the frame 11, which
no planned range covers and which is two frames behind the current time. -/
theorem cacheUpdate_stale_counterexample :
    (Player.cacheUpdate ⟨⟨0, 24⟩, ⟨48, 24⟩⟩
        (PlayerThread.init ⟨⟨0, 24⟩, ⟨48, 24⟩⟩ true false ⟨⟨1, 24⟩, ⟨0, 24⟩⟩ 0 0)
        ⟨10, 24⟩ ⟨⟨0, 24⟩, ⟨48, 24⟩⟩ 0 CacheDirection.Forward ⟨⟨1, 24⟩, ⟨0, 24⟩⟩ 0
        (fun _ => none) (fun _ => none)).videoDataRequests = [⟨10, 24⟩, ⟨11, 24⟩] ∧
    Player.cacheUpdateVideoRanges ⟨⟨0, 24⟩, ⟨48, 24⟩⟩ ⟨13, 24⟩ ⟨⟨0, 24⟩, ⟨48, 24⟩⟩
        CacheDirection.Forward ⟨⟨1, 24⟩, ⟨0, 24⟩⟩ = [⟨⟨13, 24⟩, ⟨2, 24⟩⟩] ∧
    (Player.cacheUpdate ⟨⟨0, 24⟩, ⟨48, 24⟩⟩
        (Player.cacheUpdate ⟨⟨0, 24⟩, ⟨48, 24⟩⟩
          (PlayerThread.init ⟨⟨0, 24⟩, ⟨48, 24⟩⟩ true false ⟨⟨1, 24⟩, ⟨0, 24⟩⟩ 0 0)
          ⟨10, 24⟩ ⟨⟨0, 24⟩, ⟨48, 24⟩⟩ 0 CacheDirection.Forward ⟨⟨1, 24⟩, ⟨0, 24⟩⟩ 0
          (fun _ => none) (fun _ => none))
        ⟨13, 24⟩ ⟨⟨0, 24⟩, ⟨48, 24⟩⟩ 0 CacheDirection.Forward ⟨⟨1, 24⟩, ⟨0, 24⟩⟩ 0
        (fun t => if t = ⟨11, 24⟩ then some ⟨t, some 1⟩ else none)
        (fun _ => none)).videoDataCache = [(⟨11, 24⟩, ⟨⟨11, 24⟩, some 1⟩)] ∧
    ¬ TimeRange.contains ⟨⟨13, 24⟩, ⟨2, 24⟩⟩ ⟨11, 24⟩ ∧
    RationalTime.lt ⟨11, 24⟩ (RationalTime.sub ⟨13, 24⟩ ⟨1, 24⟩) := by
  decide!

/-- C17, amended: the finished requests are taken into account.  The eviction
step of `cacheUpdate` keeps exactly the entries of the video cache whose time
some planned video range covers.  The requests found finished are stored after
that step, so the claim about the cache after `cacheUpdate` needs every request
that is ready to be for a time some planned range covers: then every entry
left in the cache is covered by a planned range.  In particular, for whole
frames at the rate of the timeline, a read ahead of one frame, no read behind
and a window that ends within the in/out range, every cached time is then at
or after the current time and less than two frames, so for whole frames at
most one frame, ahead of it. -/
theorem cacheUpdate_video_covered (timeRange : TimeRange) (c : PlayerThread)
    (currentTime : RationalTime) (inOutRange : TimeRange) (audioOffset : ℚ)
    (cacheDirection : CacheDirection) (cacheOptions : PlayerCacheOptions) (now : ℕ)
    (videoReady : RationalTime → Option VideoData) (audioReady : ℤ → Option AudioData)
    (hready : ∀ k d, videoReady k = some d →
      ∃ i ∈ Player.cacheUpdateVideoRanges timeRange currentTime inOutRange cacheDirection
        cacheOptions, i.contains k) :
    (∀ e, e ∈ Player.cacheUpdateEvictVideo
        (Player.cacheUpdateVideoRanges timeRange currentTime inOutRange cacheDirection
          cacheOptions) c.videoDataCache ↔
      e ∈ c.videoDataCache ∧
        ∃ i ∈ Player.cacheUpdateVideoRanges timeRange currentTime inOutRange cacheDirection
          cacheOptions, i.contains e.2.time) ∧
    (∀ e ∈ (Player.cacheUpdate timeRange c currentTime inOutRange audioOffset cacheDirection
        cacheOptions now videoReady audioReady).videoDataCache,
      ∃ i ∈ Player.cacheUpdateVideoRanges timeRange currentTime inOutRange cacheDirection
        cacheOptions, i.contains e.2.time) ∧
    (∀ (k s n : ℤ) (r : ℚ), 0 < r → timeRange.duration.rate = r → currentTime = ⟨k, r⟩ →
      inOutRange = ⟨⟨s, r⟩, ⟨n, r⟩⟩ → cacheDirection = CacheDirection.Forward →
      cacheOptions = ⟨⟨1, r⟩, ⟨0, r⟩⟩ → s ≤ k → k + 1 ≤ s + n - 1 →
      ∀ e ∈ (Player.cacheUpdate timeRange c currentTime inOutRange audioOffset cacheDirection
          cacheOptions now videoReady audioReady).videoDataCache,
        currentTime.le e.2.time ∧ e.2.time.lt (currentTime.add ⟨2, r⟩)) := by
  have hcov : ∀ e ∈ (Player.cacheUpdate timeRange c currentTime inOutRange audioOffset
      cacheDirection cacheOptions now videoReady audioReady).videoDataCache,
      ∃ i ∈ Player.cacheUpdateVideoRanges timeRange currentTime inOutRange cacheDirection
        cacheOptions, i.contains e.2.time := by
    intro e he
    rcases cacheUpdate_videoDataCache_mem _ _ _ _ _ _ _ _ _ _ _ he with ⟨_, h⟩ | ⟨k, d, hd, hk⟩
    · exact h
    · rw [hk]
      exact hready k d hd
  refine ⟨cacheUpdateEvictVideo_mem _ _, hcov, ?_⟩
  intro k s n r hr hrate hcur hio hdir hopt h1 h2 e he
  obtain ⟨i, hi, hc⟩ := hcov e he
  rw [hcur, hio, hdir, hopt, cacheUpdateVideoRanges_one_frame timeRange k s n r hr hrate h1 h2,
    List.mem_singleton] at hi
  rw [hi] at hc
  obtain ⟨hc1, hc2⟩ := hc
  rw [TimeRange.end_time_exclusive_mk] at hc2
  rw [hcur, RationalTime.add_mk]
  exact ⟨hc1, by rwa [add_comm] at hc2⟩

/-- C17, amended, at a player of 48 frames at 24 frames a second: the cache
holds the frames 9 and 10, the current time is frame 10 and the request of
frame 11 is ready.  After `cacheUpdate` the cache holds the frames 10 and 11,
both covered by the planned range. -/
theorem cacheUpdate_video_covered_witness :
    (Player.cacheUpdate ⟨⟨0, 24⟩, ⟨48, 24⟩⟩
        { PlayerThread.init ⟨⟨0, 24⟩, ⟨48, 24⟩⟩ true false ⟨⟨1, 24⟩, ⟨0, 24⟩⟩ 0 0 with
          videoDataCache := [(⟨9, 24⟩, ⟨⟨9, 24⟩, some 1⟩), (⟨10, 24⟩, ⟨⟨10, 24⟩, some 2⟩)] }
        ⟨10, 24⟩ ⟨⟨0, 24⟩, ⟨48, 24⟩⟩ 0 CacheDirection.Forward ⟨⟨1, 24⟩, ⟨0, 24⟩⟩ 0
        (fun t => if t = ⟨11, 24⟩ then some ⟨t, some 3⟩ else none)
        (fun _ => none)).videoDataCache =
      [(⟨10, 24⟩, ⟨⟨10, 24⟩, some 2⟩), (⟨11, 24⟩, ⟨⟨11, 24⟩, some 3⟩)] ∧
    (∀ e ∈ (Player.cacheUpdate ⟨⟨0, 24⟩, ⟨48, 24⟩⟩
        { PlayerThread.init ⟨⟨0, 24⟩, ⟨48, 24⟩⟩ true false ⟨⟨1, 24⟩, ⟨0, 24⟩⟩ 0 0 with
          videoDataCache := [(⟨9, 24⟩, ⟨⟨9, 24⟩, some 1⟩), (⟨10, 24⟩, ⟨⟨10, 24⟩, some 2⟩)] }
        ⟨10, 24⟩ ⟨⟨0, 24⟩, ⟨48, 24⟩⟩ 0 CacheDirection.Forward ⟨⟨1, 24⟩, ⟨0, 24⟩⟩ 0
        (fun t => if t = ⟨11, 24⟩ then some ⟨t, some 3⟩ else none)
        (fun _ => none)).videoDataCache,
      RationalTime.le ⟨10, 24⟩ e.2.time ∧
        e.2.time.lt (RationalTime.add ⟨10, 24⟩ ⟨2, 24⟩)) :=
  ⟨by decide!,
    (cacheUpdate_video_covered ⟨⟨0, 24⟩, ⟨48, 24⟩⟩
      { PlayerThread.init ⟨⟨0, 24⟩, ⟨48, 24⟩⟩ true false ⟨⟨1, 24⟩, ⟨0, 24⟩⟩ 0 0 with
        videoDataCache := [(⟨9, 24⟩, ⟨⟨9, 24⟩, some 1⟩), (⟨10, 24⟩, ⟨⟨10, 24⟩, some 2⟩)] }
      ⟨10, 24⟩ ⟨⟨0, 24⟩, ⟨48, 24⟩⟩ 0 CacheDirection.Forward ⟨⟨1, 24⟩, ⟨0, 24⟩⟩ 0
      (fun t => if t = ⟨11, 24⟩ then some ⟨t, some 3⟩ else none) (fun _ => none)
      (by
        intro k d hk
        by_cases h : k = ⟨11, 24⟩
        · subst h
          decide!
        · simp [h] at hk)).2.2 10 0 48 24 (by norm_num) rfl (by simp) (by simp) rfl (by simp)
      (by norm_num) (by norm_num)⟩

end tl.timeline

/-! ## Clearing the cache -/

namespace tl.timeline

theorem cacheUpdateFinishVideo_none (cache : List (RationalTime × VideoData))
    (requests : List RationalTime) :
    (Player.cacheUpdateFinishVideo (fun _ => none) cache requests).1 = cache := by
  unfold Player.cacheUpdateFinishVideo
  have key : ∀ (rq : List RationalTime) (s : List (RationalTime × VideoData) × List RationalTime),
      (rq.foldl (fun s k =>
        match (fun _ => none : RationalTime → Option VideoData) k with
        | some data => (mapInsert RationalTime.lt s.1 k { data with time := k }, s.2)
        | none => (s.1, s.2 ++ [k])) s).1 = s.1 := by
    intro rq
    induction rq with
    | nil => intro s; rfl
    | cons k rest ih => intro s; exact ih _
  exact key requests _

theorem cacheUpdateFinishAudio_none (cache : List (ℤ × AudioData)) (requests : List ℤ) :
    (Player.cacheUpdateFinishAudio (fun _ => none) cache requests).1 = cache := by
  unfold Player.cacheUpdateFinishAudio
  have key : ∀ (rq : List ℤ) (s : List (ℤ × AudioData) × List ℤ),
      (rq.foldl (fun s k =>
        match (fun _ => none : ℤ → Option AudioData) k with
        | some data =>
          (mapInsert (fun a b : ℤ => a < b) s.1 k { data with seconds := k }, s.2)
        | none => (s.1, s.2 ++ [k])) s).1 = s.1 := by
    intro rq
    induction rq with
    | nil => intro s; rfl
    | cons k rest ih => intro s; exact ih _
  exact key requests _

theorem cacheUpdateInfo_frames (timeRange : TimeRange) (cacheOptions : PlayerCacheOptions)
    (now : ℕ) (c : PlayerThread)
    (h0 : c.mutexCacheInfo.videoFrames = [] ∧ c.mutexCacheInfo.audioFrames = [])
    (h : (now : ℤ) - c.cacheTimer > 500000000 → c.videoDataCache = [] ∧ c.audioDataCache = []) :
    (Player.cacheUpdateInfo timeRange cacheOptions now c).mutexCacheInfo.videoFrames = [] ∧
    (Player.cacheUpdateInfo timeRange cacheOptions now c).mutexCacheInfo.audioFrames = [] := by
  unfold Player.cacheUpdateInfo
  split_ifs with ht
  · obtain ⟨hv, ha⟩ := h ht
    simp [hv, ha, toRanges]
  · exact h0

theorem cacheUpdate_frames_empty (timeRange : TimeRange) (c : PlayerThread)
    (currentTime : RationalTime) (inOutRange : TimeRange) (audioOffset : ℚ)
    (cacheDirection : CacheDirection) (cacheOptions : PlayerCacheOptions) (now : ℕ)
    (videoReady : RationalTime → Option VideoData) (audioReady : ℤ → Option AudioData)
    (hv : c.videoDataCache = []) (ha : c.audioDataCache = [])
    (h0 : c.mutexCacheInfo.videoFrames = [] ∧ c.mutexCacheInfo.audioFrames = [])
    (h : (now : ℤ) - c.cacheTimer ≤ 500000000 ∨
      ((∀ k, videoReady k = none) ∧ ∀ s, audioReady s = none)) :
    (Player.cacheUpdate timeRange c currentTime inOutRange audioOffset cacheDirection
      cacheOptions now videoReady audioReady).mutexCacheInfo.videoFrames = [] ∧
    (Player.cacheUpdate timeRange c currentTime inOutRange audioOffset cacheDirection
      cacheOptions now videoReady audioReady).mutexCacheInfo.audioFrames = [] := by
  unfold Player.cacheUpdate
  apply cacheUpdateInfo_frames
  · exact h0
  · intro ht
    rcases h with h | ⟨h1, h2⟩
    · exact absurd ht (not_lt.2 h)
    · have e1 : videoReady = fun _ => none := funext h1
      have e2 : audioReady = fun _ => none := funext h2
      subst e1
      subst e2
      simp only [cacheUpdateFinishVideo_none, cacheUpdateFinishAudio_none, hv, ha]
      simp [Player.cacheUpdateEvictVideo, Player.cacheUpdateEvictAudio]

theorem threadIteration_mutexCacheInfo (p : Player) (c : PlayerThread) (now : ℕ)
    (videoReady : RationalTime → Option VideoData) (audioReady : ℤ → Option AudioData)
    (hcr : p.mutex.clearRequests = true) (hcc : p.mutex.clearCache = true) :
    (Player.threadIteration p c now videoReady audioReady).2.mutexCacheInfo =
      (Player.cacheUpdate p.timeRange
        { c with
          videoDataRequests := []
          audioDataRequests := []
          videoDataCache := []
          mutexCacheInfo := PlayerCacheInfo.default
          audioDataCache := [] }
        p.mutex.currentTime p.mutex.inOutRange c.mutexAudioOffset p.mutex.cacheDirection
        c.mutexCacheOptions now videoReady audioReady).mutexCacheInfo := by
  unfold Player.threadIteration
  simp only [hcr, hcc, if_true]
  split_ifs <;> rfl

theorem tick_cacheInfo (p : Player) (c : PlayerThread) (seconds : ℚ) (now : ℕ) :
    (Player.tick p c seconds now).2.cacheInfo =
      (setIfChanged PlayerCacheInfo.eq c.cacheInfo c.mutexCacheInfo).1 := rfl

theorem setIfChanged_cacheInfo_frames (stored value : PlayerCacheInfo)
    (h : value.videoFrames = [] ∧ value.audioFrames = []) :
    (setIfChanged PlayerCacheInfo.eq stored value).1.videoFrames = [] ∧
    (setIfChanged PlayerCacheInfo.eq stored value).1.audioFrames = [] := by
  unfold setIfChanged
  split_ifs with he
  · obtain ⟨_, h1, h2⟩ := he
    rw [h.1] at h1
    rw [h.2] at h2
    exact ⟨List.forall₂_nil_left_iff.1 h1, List.forall₂_nil_left_iff.1 h2⟩
  · exact h

/-- C16, as stated, does not hold.  A player of 48 frames at 24 frames a second
with a read ahead of one frame starts with empty caches at clock reading 0.
`clearCache` is called; the loop of the thread runs once, 0.6 seconds later,
and the two frames it requests are ready when it checks them, so it stores
them and, the cache timer having run out, rebuilds the snapshot from them.
The `tick` that follows publishes a snapshot whose list of cached video ranges
is `[0/24, 2 frames)`, not the empty list. -/
theorem clearCache_tick_counterexample :
    (Player.tick
      (Player.threadIteration
        (Player.clearCache (Player.init ⟨⟨0, 24⟩, ⟨48, 24⟩⟩ invalidTime))
        (PlayerThread.init ⟨⟨0, 24⟩, ⟨48, 24⟩⟩ true false ⟨⟨1, 24⟩, ⟨0, 24⟩⟩ 0 0)
        600000000 (fun t => some ⟨t, some 1⟩) (fun _ => none)).1
      (Player.threadIteration
        (Player.clearCache (Player.init ⟨⟨0, 24⟩, ⟨48, 24⟩⟩ invalidTime))
        (PlayerThread.init ⟨⟨0, 24⟩, ⟨48, 24⟩⟩ true false ⟨⟨1, 24⟩, ⟨0, 24⟩⟩ 0 0)
        600000000 (fun t => some ⟨t, some 1⟩) (fun _ => none)).2
      0 600000000).2.cacheInfo.videoFrames = [⟨⟨0, 24⟩, ⟨2, 24⟩⟩] := by
  decide!

/-- C16, amended: a condition on the turn of the loop is added.  After
`clearCache`, one turn of the loop of the thread and then `tick`, the published
snapshot has an empty list of cached video ranges and an empty list of cached
audio ranges, provided that in that turn the cache timer has not run out (at
most half a second since the snapshot was last rebuilt) or none of the requests
is ready when the turn checks them. -/
theorem clearCache_tick_cacheInfo (p : Player) (c : PlayerThread) (now now2 : ℕ)
    (seconds : ℚ) (videoReady : RationalTime → Option VideoData)
    (audioReady : ℤ → Option AudioData)
    (h : (now : ℤ) - c.cacheTimer ≤ 500000000 ∨
      ((∀ k, videoReady k = none) ∧ ∀ s, audioReady s = none)) :
    (Player.tick
      (Player.threadIteration (Player.clearCache p) c now videoReady audioReady).1
      (Player.threadIteration (Player.clearCache p) c now videoReady audioReady).2
      seconds now2).2.cacheInfo.videoFrames = [] ∧
    (Player.tick
      (Player.threadIteration (Player.clearCache p) c now videoReady audioReady).1
      (Player.threadIteration (Player.clearCache p) c now videoReady audioReady).2
      seconds now2).2.cacheInfo.audioFrames = [] := by
  rw [tick_cacheInfo]
  apply setIfChanged_cacheInfo_frames
  rw [threadIteration_mutexCacheInfo _ _ _ _ _ rfl rfl]
  exact cacheUpdate_frames_empty _ _ _ _ _ _ _ _ _ _ rfl rfl ⟨rfl, rfl⟩ h

/-- C16, amended, at the player of the counterexample with a turn of the loop
0.1 seconds after the start: the cache timer has not run out, and the snapshot
published by `tick` has two empty lists although the two frames requested are
ready and stored. -/
theorem clearCache_tick_cacheInfo_witness :
    ((600000000 : ℕ) : ℤ) - (500000000 : ℕ) ≤ 500000000 ∧
    (Player.threadIteration
      (Player.clearCache (Player.init ⟨⟨0, 24⟩, ⟨48, 24⟩⟩ invalidTime))
      (PlayerThread.init ⟨⟨0, 24⟩, ⟨48, 24⟩⟩ true false ⟨⟨1, 24⟩, ⟨0, 24⟩⟩ 0 500000000)
      600000000 (fun t => some ⟨t, some 1⟩) (fun _ => none)).2.videoDataCache =
      [(⟨0, 24⟩, ⟨⟨0, 24⟩, some 1⟩), (⟨1, 24⟩, ⟨⟨1, 24⟩, some 1⟩)] ∧
    ((Player.tick
      (Player.threadIteration
        (Player.clearCache (Player.init ⟨⟨0, 24⟩, ⟨48, 24⟩⟩ invalidTime))
        (PlayerThread.init ⟨⟨0, 24⟩, ⟨48, 24⟩⟩ true false ⟨⟨1, 24⟩, ⟨0, 24⟩⟩ 0 500000000)
        600000000 (fun t => some ⟨t, some 1⟩) (fun _ => none)).1
      (Player.threadIteration
        (Player.clearCache (Player.init ⟨⟨0, 24⟩, ⟨48, 24⟩⟩ invalidTime))
        (PlayerThread.init ⟨⟨0, 24⟩, ⟨48, 24⟩⟩ true false ⟨⟨1, 24⟩, ⟨0, 24⟩⟩ 0 500000000)
        600000000 (fun t => some ⟨t, some 1⟩) (fun _ => none)).2
      0 600000000).2.cacheInfo.videoFrames = [] ∧
    (Player.tick
      (Player.threadIteration
        (Player.clearCache (Player.init ⟨⟨0, 24⟩, ⟨48, 24⟩⟩ invalidTime))
        (PlayerThread.init ⟨⟨0, 24⟩, ⟨48, 24⟩⟩ true false ⟨⟨1, 24⟩, ⟨0, 24⟩⟩ 0 500000000)
        600000000 (fun t => some ⟨t, some 1⟩) (fun _ => none)).1
      (Player.threadIteration
        (Player.clearCache (Player.init ⟨⟨0, 24⟩, ⟨48, 24⟩⟩ invalidTime))
        (PlayerThread.init ⟨⟨0, 24⟩, ⟨48, 24⟩⟩ true false ⟨⟨1, 24⟩, ⟨0, 24⟩⟩ 0 500000000)
        600000000 (fun t => some ⟨t, some 1⟩) (fun _ => none)).2
      0 600000000).2.cacheInfo.audioFrames = []) :=
  ⟨by decide, by decide!,
    clearCache_tick_cacheInfo (Player.init ⟨⟨0, 24⟩, ⟨48, 24⟩⟩ invalidTime)
      (PlayerThread.init ⟨⟨0, 24⟩, ⟨48, 24⟩⟩ true false ⟨⟨1, 24⟩, ⟨0, 24⟩⟩ 0 500000000)
      600000000 600000000 0 (fun t => some ⟨t, some 1⟩) (fun _ => none)
      (Or.inl (by decide))⟩

end tl.timeline

/-! ## The audio callback -/

namespace tl.timeline

/-- C15, as stated, does not hold.  A player of 48 frames at 24 frames a second
plays forward and is muted; its audio frame counter has reached 512.  A seek
to frame 20 raises the reset flag.  The next call of the audio callback for
256 frames writes 256 frames of silence, as claimed, but it resets the frame
counter before adding to it: the counter goes from 512 to 256, not to 768. -/
theorem rtAudioCallback_reset_counterexample :
    (Player.seek
      (Player.setPlayback (Player.init ⟨⟨0, 24⟩, ⟨48, 24⟩⟩ invalidTime) Playback.Forward 0)
      ⟨20, 24⟩ 0).mutex.playback = Playback.Forward ∧
    (Player.seek
      (Player.setPlayback (Player.init ⟨⟨0, 24⟩, ⟨48, 24⟩⟩ invalidTime) Playback.Forward 0)
      ⟨20, 24⟩ 0).audioMutexReset = true ∧
    (Player.rtAudioCallback
      (Player.seek
        (Player.setPlayback (Player.init ⟨⟨0, 24⟩, ⟨48, 24⟩⟩ invalidTime) Playback.Forward 0)
        ⟨20, 24⟩ 0)
      { PlayerThread.init ⟨⟨0, 24⟩, ⟨48, 24⟩⟩ true true ⟨⟨1, 24⟩, ⟨0, 24⟩⟩ 0 0 with
        mute := true, rtAudioCurrentFrame := 512 }
      256 0 id).2.2 = List.replicate 256 0 ∧
    (Player.rtAudioCallback
      (Player.seek
        (Player.setPlayback (Player.init ⟨⟨0, 24⟩, ⟨48, 24⟩⟩ invalidTime) Playback.Forward 0)
        ⟨20, 24⟩ 0)
      { PlayerThread.init ⟨⟨0, 24⟩, ⟨48, 24⟩⟩ true true ⟨⟨1, 24⟩, ⟨0, 24⟩⟩ 0 0 with
        mute := true, rtAudioCurrentFrame := 512 }
      256 0 id).2.1.rtAudioCurrentFrame = 256 := by
  decide!

/-- C15, amended: the reset flag is taken into account.  In a call of the
audio callback while playing forward, if the speed differs from the rate of
the timeline, or external time is on, or mute is on, or the mute timeout has
not passed, or the buffer holds fewer than `nFrames` frames after it has been
filled, then the output is `nFrames` frames of silence.  The frame counter is
first set to zero when the reset flag is up and then goes up by `nFrames` (as a
`size_t`); so it advances by exactly `nFrames` when the flag is down and the
counter does not wrap. -/
theorem rtAudioCallback_silence (p : Player) (c : PlayerThread) (nFrames now : ℕ)
    (fill : List ℤ → List ℤ) (hp : p.mutex.playback = Playback.Forward)
    (h : c.speed ≠ p.timeRange.duration.rate ∨ c.mutexExternalTime = true ∨ c.mute = true ∨
      now < c.muteTimeout ∨
      (fill (if p.audioMutexReset then [] else c.buffer)).length < nFrames) :
    (Player.rtAudioCallback p c nFrames now fill).2.2 = List.replicate nFrames 0 ∧
    (Player.rtAudioCallback p c nFrames now fill).2.1.rtAudioCurrentFrame =
      ((if p.audioMutexReset then 0 else c.rtAudioCurrentFrame) + nFrames) % 2 ^ 64 ∧
    (p.audioMutexReset = false → c.rtAudioCurrentFrame + nFrames < 2 ^ 64 →
      (Player.rtAudioCallback p c nFrames now fill).2.1.rtAudioCurrentFrame =
        c.rtAudioCurrentFrame + nFrames) := by
  have hcond : ¬ (c.speed = p.timeRange.duration.rate ∧ ¬ c.mutexExternalTime = true ∧
      ¬ c.mute = true ∧ now ≥ c.muteTimeout ∧
      nFrames ≤ (fill (if p.audioMutexReset then [] else c.buffer)).length) := by
    rintro ⟨h1, h2, h3, h4, h5⟩
    rcases h with h | h | h | h | h
    · exact h h1
    · exact h2 h
    · exact h3 h
    · exact absurd h4 (not_le.2 h)
    · exact absurd h5 (not_le.2 h)
  have key : (Player.rtAudioCallback p c nFrames now fill).2.2 = List.replicate nFrames 0 ∧
      (Player.rtAudioCallback p c nFrames now fill).2.1.rtAudioCurrentFrame =
        ((if p.audioMutexReset then 0 else c.rtAudioCurrentFrame) + nFrames) % 2 ^ 64 := by
    unfold Player.rtAudioCallback
    simp only [hp]
    by_cases hr : p.audioMutexReset = true
    · simp only [hr, if_true] at hcond ⊢
      rw [if_neg hcond]
      exact ⟨rfl, rfl⟩
    · have hr2 : p.audioMutexReset = false := by simpa using hr
      simp only [hr2, Bool.false_eq_true, if_false] at hcond ⊢
      rw [if_neg hcond]
      exact ⟨rfl, rfl⟩
  refine ⟨key.1, key.2, ?_⟩
  intro hr hlt
  rw [key.2, hr]
  simp only [Bool.false_eq_true, if_false]
  exact Nat.mod_eq_of_lt hlt

/-- C15, amended, at a muted player of 48 frames at 24 frames a second that
plays forward with the reset flag down and a frame counter of 512: a call for
256 frames writes silence and takes the counter to 768. -/
theorem rtAudioCallback_silence_witness :
    (Player.rtAudioCallback
      { Player.setPlayback (Player.init ⟨⟨0, 24⟩, ⟨48, 24⟩⟩ invalidTime) Playback.Forward 0 with
        audioMutexReset := false }
      { PlayerThread.init ⟨⟨0, 24⟩, ⟨48, 24⟩⟩ true true ⟨⟨1, 24⟩, ⟨0, 24⟩⟩ 0 0 with
        mute := true, rtAudioCurrentFrame := 512 }
      256 0 id).2.2 = List.replicate 256 0 ∧
    (Player.rtAudioCallback
      { Player.setPlayback (Player.init ⟨⟨0, 24⟩, ⟨48, 24⟩⟩ invalidTime) Playback.Forward 0 with
        audioMutexReset := false }
      { PlayerThread.init ⟨⟨0, 24⟩, ⟨48, 24⟩⟩ true true ⟨⟨1, 24⟩, ⟨0, 24⟩⟩ 0 0 with
        mute := true, rtAudioCurrentFrame := 512 }
      256 0 id).2.1.rtAudioCurrentFrame = 512 + 256 :=
  have h := rtAudioCallback_silence
    { Player.setPlayback (Player.init ⟨⟨0, 24⟩, ⟨48, 24⟩⟩ invalidTime) Playback.Forward 0 with
      audioMutexReset := false }
    { PlayerThread.init ⟨⟨0, 24⟩, ⟨48, 24⟩⟩ true true ⟨⟨1, 24⟩, ⟨0, 24⟩⟩ 0 0 with
      mute := true, rtAudioCurrentFrame := 512 }
    256 0 id (by decide!) (Or.inr (Or.inr (Or.inl rfl)))
  ⟨h.1, h.2.2 rfl (by norm_num)⟩

end tl.timeline

/-! ## Time actions, seek and setPlayback: what they write -/

namespace tl.timeline

theorem setPlayback_Stop_fields (p : Player) (now : ℕ) :
    (p.setPlayback Playback.Stop now).playback = Playback.Stop ∧
    (p.setPlayback Playback.Stop now).inOutRange = p.inOutRange := by
  unfold Player.setPlayback setIfChanged Player.resetAudioTime
  cases p.loop <;> simp only [] <;> split_ifs <;> simp_all

/-- C22: every time action is the seek the specification describes.  `Start`
seeks to the start of the in/out range, `End` to its inclusive end, the frame
steps to the current time plus or minus 1, 10 or 100 frames, the jumps to the
current time plus or minus 1 or 10 seconds (`timeActionSpec`, the time
computed on the state before the action); `Start`, `End` and the frame steps
first force `Playback::Stop` and leave the player stopped, the four jumps leave
the playback mode as it was. -/
theorem timeAction_refines_spec (p : Player) (time : TimeAction) (now : ℕ) :
    p.timeAction time now = p.timeActionSpec time now ∧
    (Player.timeActionStops time = true →
      p.timeAction time now =
        (p.setPlayback Playback.Stop now).seek (p.timeActionTime time) now ∧
      (p.timeAction time now).playback = Playback.Stop) ∧
    (Player.timeActionStops time = false →
      p.timeAction time now = p.seek (p.timeActionTime time) now ∧
      (p.timeAction time now).playback = p.playback) := by
  have h1 := (setPlayback_Stop_currentTime p now).1
  have h2 := (setPlayback_Stop_currentTime p now).2
  have h3 := (setPlayback_Stop_fields p now).1
  have h4 := (setPlayback_Stop_fields p now).2
  have hs : ∀ q : Player, ∀ t : RationalTime, (q.seek t now).playback = q.playback :=
    fun q t => (seek_frame_fields q t now).1
  cases time <;>
    simp [Player.timeAction, Player.timeActionSpec, Player.timeActionStops,
      Player.timeActionTime, h1, h2, h3, h4, hs]

/-- C22 at the player of `PlayerTest::_player`, `[10/24, 48 frames)`: stopped at
`10/24`, `FrameNext` is the seek to `11/24`; playing forward, `JumpForward1s`
is the seek to `34/24` and the player goes on playing. -/
theorem timeAction_refines_spec_witness :
    ((Player.init ⟨⟨10, 24⟩, ⟨48, 24⟩⟩ ⟨10, 24⟩).timeAction TimeAction.FrameNext 0 =
        ((Player.init ⟨⟨10, 24⟩, ⟨48, 24⟩⟩ ⟨10, 24⟩).setPlayback Playback.Stop 0).seek
          ((Player.init ⟨⟨10, 24⟩, ⟨48, 24⟩⟩ ⟨10, 24⟩).timeActionTime TimeAction.FrameNext) 0 ∧
      ((Player.init ⟨⟨10, 24⟩, ⟨48, 24⟩⟩ ⟨10, 24⟩).timeAction TimeAction.FrameNext
        0).playback = Playback.Stop) ∧
    (Player.init ⟨⟨10, 24⟩, ⟨48, 24⟩⟩ ⟨10, 24⟩).timeActionTime TimeAction.FrameNext =
      ⟨11, 24⟩ ∧
    ((Player.init ⟨⟨10, 24⟩, ⟨48, 24⟩⟩ ⟨10, 24⟩).setPlayback Playback.Forward
      0).timeActionTime TimeAction.JumpForward1s = ⟨34, 24⟩ ∧
    (((Player.init ⟨⟨10, 24⟩, ⟨48, 24⟩⟩ ⟨10, 24⟩).setPlayback Playback.Forward
      0).timeAction TimeAction.JumpForward1s 0).playback = Playback.Forward :=
  ⟨(timeAction_refines_spec (Player.init ⟨⟨10, 24⟩, ⟨48, 24⟩⟩ ⟨10, 24⟩) TimeAction.FrameNext
      0).2.1 rfl,
    by decide!, by decide!, by decide!⟩

end tl.timeline

namespace tl.timeline

theorem seek_mutex_flags (p : Player) (t : RationalTime) (now : ℕ) :
    (¬ (loop (time.floor (t.rescaled_to p.timeRange.duration.rate)) p.timeRange).eq
        p.currentTime → (p.seek t now).mutex.clearRequests = true) ∧
    ((loop (time.floor (t.rescaled_to p.timeRange.duration.rate)) p.timeRange).eq
        p.currentTime → p.seek t now = p) ∧
    (p.seek t now).mutex.clearCache = p.mutex.clearCache ∧
    (¬ (loop (time.floor (t.rescaled_to p.timeRange.duration.rate)) p.timeRange).eq
        p.currentTime →
      (p.seek t now).mutex.currentTime =
        loop (time.floor (t.rescaled_to p.timeRange.duration.rate)) p.timeRange) := by
  unfold Player.seek setIfChanged Player.resetAudioTime
  by_cases h : (loop (time.floor (t.rescaled_to p.timeRange.duration.rate)) p.timeRange).eq
      p.currentTime
  · simp [h]
  · simp only [h, if_false]
    split_ifs <;> simp

/-- C24, as stated, does not hold.  A new player of `[10/24, 48 frames)` at
`10/24` has the clear flags up; one turn of the loop of the thread takes them
down.  The player is then sent to `58/24`, which loops to `10/24`, the current
time: `seek` finds nothing changed and leaves the clear-requests flag down. -/
theorem seek_same_time_counterexample :
    loop (time.floor (RationalTime.rescaled_to ⟨58, 24⟩ 24)) ⟨⟨10, 24⟩, ⟨48, 24⟩⟩ = ⟨10, 24⟩ ∧
    (Player.init ⟨⟨10, 24⟩, ⟨48, 24⟩⟩ ⟨10, 24⟩).mutex.clearRequests = true ∧
    (Player.init ⟨⟨10, 24⟩, ⟨48, 24⟩⟩ ⟨10, 24⟩).mutex.clearCache = true ∧
    (Player.threadIteration (Player.init ⟨⟨10, 24⟩, ⟨48, 24⟩⟩ ⟨10, 24⟩)
      (PlayerThread.init ⟨⟨10, 24⟩, ⟨48, 24⟩⟩ true false ⟨⟨1, 24⟩, ⟨0, 24⟩⟩ 0 0) 0
      (fun _ => none) (fun _ => none)).1.currentTime = ⟨10, 24⟩ ∧
    (Player.threadIteration (Player.init ⟨⟨10, 24⟩, ⟨48, 24⟩⟩ ⟨10, 24⟩)
      (PlayerThread.init ⟨⟨10, 24⟩, ⟨48, 24⟩⟩ true false ⟨⟨1, 24⟩, ⟨0, 24⟩⟩ 0 0) 0
      (fun _ => none) (fun _ => none)).1.mutex.clearRequests = false ∧
    ((Player.threadIteration (Player.init ⟨⟨10, 24⟩, ⟨48, 24⟩⟩ ⟨10, 24⟩)
      (PlayerThread.init ⟨⟨10, 24⟩, ⟨48, 24⟩⟩ true false ⟨⟨1, 24⟩, ⟨0, 24⟩⟩ 0 0) 0
      (fun _ => none) (fun _ => none)).1.seek ⟨58, 24⟩ 0).mutex.clearRequests = false := by
  decide!

/-- C24, amended: a seek to the current time is set apart.  A call of `seek`
whose looped target differs from the current time raises the clear-requests
flag, so that the next turn of the loop of the thread empties the two request
maps before it updates the caches, which it does not empty; a call whose
looped target equals the current time changes nothing.  No call of `seek`
writes the clear-cache flag. -/
theorem seek_clearRequests (p : Player) (t : RationalTime) (now : ℕ) :
    (¬ (loop (time.floor (t.rescaled_to p.timeRange.duration.rate)) p.timeRange).eq
        p.currentTime →
      (p.seek t now).mutex.clearRequests = true ∧
      (p.mutex.clearCache = false →
        ∀ (c : PlayerThread) (now2 : ℕ) (videoReady : RationalTime → Option VideoData)
          (audioReady : ℤ → Option AudioData),
          Player.threadIteration (p.seek t now) c now2 videoReady audioReady =
            Player.threadIteration (p.seek t now)
              { c with videoDataRequests := [], audioDataRequests := [] }
              now2 videoReady audioReady)) ∧
    ((loop (time.floor (t.rescaled_to p.timeRange.duration.rate)) p.timeRange).eq
        p.currentTime → p.seek t now = p) ∧
    (p.seek t now).mutex.clearCache = p.mutex.clearCache := by
  have h := seek_mutex_flags p t now
  refine ⟨fun hne => ⟨h.1 hne, ?_⟩, h.2.1, h.2.2.1⟩
  intro hcc c now2 videoReady audioReady
  have hcr := h.1 hne
  have hcc2 : (p.seek t now).mutex.clearCache = false := by rw [h.2.2.1, hcc]
  unfold Player.threadIteration
  simp only [hcr, hcc2, if_true, Bool.false_eq_true, if_false]

/-- C24, amended, at the player of `PlayerTest::_player` after one turn of the
loop of the thread, which has taken the clear flags down: stopped at `10/24`, a
seek to `11/24` raises the clear-requests flag and leaves the clear-cache flag
down, and a seek to `10/24` changes nothing. -/
theorem seek_clearRequests_witness :
    (Player.threadIteration (Player.init ⟨⟨10, 24⟩, ⟨48, 24⟩⟩ ⟨10, 24⟩)
      (PlayerThread.init ⟨⟨10, 24⟩, ⟨48, 24⟩⟩ true false ⟨⟨1, 24⟩, ⟨0, 24⟩⟩ 0 0) 0
      (fun _ => none) (fun _ => none)).1.mutex.clearRequests = false ∧
    ((Player.threadIteration (Player.init ⟨⟨10, 24⟩, ⟨48, 24⟩⟩ ⟨10, 24⟩)
      (PlayerThread.init ⟨⟨10, 24⟩, ⟨48, 24⟩⟩ true false ⟨⟨1, 24⟩, ⟨0, 24⟩⟩ 0 0) 0
      (fun _ => none) (fun _ => none)).1.seek ⟨11, 24⟩ 0).mutex.clearRequests = true ∧
    ((Player.threadIteration (Player.init ⟨⟨10, 24⟩, ⟨48, 24⟩⟩ ⟨10, 24⟩)
      (PlayerThread.init ⟨⟨10, 24⟩, ⟨48, 24⟩⟩ true false ⟨⟨1, 24⟩, ⟨0, 24⟩⟩ 0 0) 0
      (fun _ => none) (fun _ => none)).1.seek ⟨11, 24⟩ 0).mutex.clearCache = false ∧
    (Player.threadIteration (Player.init ⟨⟨10, 24⟩, ⟨48, 24⟩⟩ ⟨10, 24⟩)
      (PlayerThread.init ⟨⟨10, 24⟩, ⟨48, 24⟩⟩ true false ⟨⟨1, 24⟩, ⟨0, 24⟩⟩ 0 0) 0
      (fun _ => none) (fun _ => none)).1.seek ⟨10, 24⟩ 0 =
      (Player.threadIteration (Player.init ⟨⟨10, 24⟩, ⟨48, 24⟩⟩ ⟨10, 24⟩)
        (PlayerThread.init ⟨⟨10, 24⟩, ⟨48, 24⟩⟩ true false ⟨⟨1, 24⟩, ⟨0, 24⟩⟩ 0 0) 0
        (fun _ => none) (fun _ => none)).1 :=
  ⟨by decide!,
    ((seek_clearRequests
      (Player.threadIteration (Player.init ⟨⟨10, 24⟩, ⟨48, 24⟩⟩ ⟨10, 24⟩)
        (PlayerThread.init ⟨⟨10, 24⟩, ⟨48, 24⟩⟩ true false ⟨⟨1, 24⟩, ⟨0, 24⟩⟩ 0 0) 0
        (fun _ => none) (fun _ => none)).1 ⟨11, 24⟩ 0).1 (by decide!)).1,
    by decide!,
    (seek_clearRequests
      (Player.threadIteration (Player.init ⟨⟨10, 24⟩, ⟨48, 24⟩⟩ ⟨10, 24⟩)
        (PlayerThread.init ⟨⟨10, 24⟩, ⟨48, 24⟩⟩ true false ⟨⟨1, 24⟩, ⟨0, 24⟩⟩ 0 0) 0
        (fun _ => none) (fun _ => none)).1 ⟨10, 24⟩ 0).2.1 (by decide!)⟩

end tl.timeline

namespace tl.timeline

theorem setPlaybackTarget_Stop (p : Player) (now : ℕ) :
    p.setPlaybackTarget Playback.Stop now = (p, Playback.Stop) := by
  unfold Player.setPlaybackTarget
  cases p.loop <;> rfl

theorem setPlaybackTarget_ne_Stop (p : Player) (value : Playback) (now : ℕ)
    (h : value ≠ Playback.Stop) : (p.setPlaybackTarget value now).2 ≠ Playback.Stop := by
  unfold Player.setPlaybackTarget
  cases value <;> cases p.loop <;> simp only [] <;>
    first
    | exact absurd rfl h
    | exact h
    | (split_ifs <;> simp)

theorem setPlaybackTarget_playback (p : Player) (value : Playback) (now : ℕ) :
    (p.setPlaybackTarget value now).1.playback = p.playback := by
  unfold Player.setPlaybackTarget
  cases value <;> cases p.loop <;> simp only [] <;>
    first
    | rfl
    | (split_ifs <;> first | rfl | exact (seek_frame_fields _ _ _).1)

theorem storePlayback_anchor (p1 : Player) (value : Playback) (now : ℕ)
    (hc : value ≠ p1.playback) :
    (Player.storePlayback p1 value now).playback = value ∧
    (Player.storePlayback p1 value now).mutex.clearRequests = true ∧
    (value ≠ Playback.Stop →
      (Player.storePlayback p1 value now).mutex.playbackStartTime =
        (Player.storePlayback p1 value now).currentTime ∧
      (Player.storePlayback p1 value now).mutex.playbackStartTimer = now ∧
      (Player.storePlayback p1 value now).audioMutexReset = true) ∧
    (value = Playback.Stop →
      (Player.storePlayback p1 value now).mutex.playbackStartTime =
        p1.mutex.playbackStartTime ∧
      (Player.storePlayback p1 value now).mutex.playbackStartTimer =
        p1.mutex.playbackStartTimer) := by
  unfold Player.storePlayback setIfChanged Player.resetAudioTime
  cases value <;> simp [hc]

end tl.timeline

namespace tl.timeline

/-- C25, as stated, does not hold for `Stop`.  A player of `[10/24, 48 frames)`
starts to play forward at clock reading 0 and a `tick` ten frames later takes
it to `20/24`.  `setPlayback(Stop)` at clock reading 2000 changes the playback
mode and raises the clear-requests flag, but leaves the playback start anchor
at the time `10/24` and the clock reading 0. -/
theorem setPlayback_Stop_anchor_counterexample :
    ((Player.tick ((Player.init ⟨⟨10, 24⟩, ⟨48, 24⟩⟩ ⟨10, 24⟩).setPlayback Playback.Forward 0)
      (PlayerThread.init ⟨⟨10, 24⟩, ⟨48, 24⟩⟩ true false ⟨⟨1, 24⟩, ⟨0, 24⟩⟩ 0 0)
      (10 / 24) 1000).1.setPlayback Playback.Stop 2000).playback = Playback.Stop ∧
    ((Player.tick ((Player.init ⟨⟨10, 24⟩, ⟨48, 24⟩⟩ ⟨10, 24⟩).setPlayback Playback.Forward 0)
      (PlayerThread.init ⟨⟨10, 24⟩, ⟨48, 24⟩⟩ true false ⟨⟨1, 24⟩, ⟨0, 24⟩⟩ 0 0)
      (10 / 24) 1000).1.setPlayback Playback.Stop 2000).currentTime = ⟨20, 24⟩ ∧
    ((Player.tick ((Player.init ⟨⟨10, 24⟩, ⟨48, 24⟩⟩ ⟨10, 24⟩).setPlayback Playback.Forward 0)
      (PlayerThread.init ⟨⟨10, 24⟩, ⟨48, 24⟩⟩ true false ⟨⟨1, 24⟩, ⟨0, 24⟩⟩ 0 0)
      (10 / 24) 1000).1.setPlayback Playback.Stop 2000).mutex.playbackStartTime = ⟨10, 24⟩ ∧
    ((Player.tick ((Player.init ⟨⟨10, 24⟩, ⟨48, 24⟩⟩ ⟨10, 24⟩).setPlayback Playback.Forward 0)
      (PlayerThread.init ⟨⟨10, 24⟩, ⟨48, 24⟩⟩ true false ⟨⟨1, 24⟩, ⟨0, 24⟩⟩ 0 0)
      (10 / 24) 1000).1.setPlayback Playback.Stop 2000).mutex.playbackStartTimer = 0 := by
  decide!

/-- C25, amended: `Stop` is set apart.  Every call of `setPlayback` that changes
the playback mode raises the clear-requests flag.  When the call is for
`Forward` or `Reverse` it also resets the playback start anchor, the anchor
time to the current time and the anchor instant to now, and resets the audio
time; when it is for `Stop` it leaves the anchor as it was. -/
theorem setPlayback_anchor (p : Player) (value : Playback) (now : ℕ)
    (h : (p.setPlayback value now).playback ≠ p.playback) :
    (p.setPlayback value now).mutex.clearRequests = true ∧
    (value ≠ Playback.Stop →
      (p.setPlayback value now).mutex.playbackStartTime =
        (p.setPlayback value now).currentTime ∧
      (p.setPlayback value now).mutex.playbackStartTimer = now ∧
      (p.setPlayback value now).audioMutexReset = true) ∧
    (value = Playback.Stop →
      (p.setPlayback value now).mutex.playbackStartTime = p.mutex.playbackStartTime ∧
      (p.setPlayback value now).mutex.playbackStartTimer = p.mutex.playbackStartTimer) := by
  rw [setPlayback_eq] at h ⊢
  have hc : (p.setPlaybackTarget value now).2 ≠ (p.setPlaybackTarget value now).1.playback := by
    intro he
    apply h
    rw [(storePlayback_fields _ _ now).2.2 he]
    exact setPlaybackTarget_playback p value now
  have key := storePlayback_anchor _ _ now hc
  refine ⟨key.2.1, fun hv => key.2.2.1 (setPlaybackTarget_ne_Stop p value now hv), ?_⟩
  intro hv
  subst hv
  rw [setPlaybackTarget_Stop] at key ⊢
  exact key.2.2.2 rfl

/-- C25, amended, at the player of `PlayerTest::_player`, stopped at `10/24`:
`setPlayback(Forward)` at clock reading 7 changes the playback mode, raises the
clear-requests flag and sets the anchor to `10/24` and 7. -/
theorem setPlayback_anchor_witness :
    ((Player.init ⟨⟨10, 24⟩, ⟨48, 24⟩⟩ ⟨10, 24⟩).setPlayback Playback.Forward
      7).mutex.clearRequests = true ∧
    ((Player.init ⟨⟨10, 24⟩, ⟨48, 24⟩⟩ ⟨10, 24⟩).setPlayback Playback.Forward
        7).mutex.playbackStartTime =
      ((Player.init ⟨⟨10, 24⟩, ⟨48, 24⟩⟩ ⟨10, 24⟩).setPlayback Playback.Forward
        7).currentTime ∧
    ((Player.init ⟨⟨10, 24⟩, ⟨48, 24⟩⟩ ⟨10, 24⟩).setPlayback Playback.Forward
      7).mutex.playbackStartTimer = 7 ∧
    ((Player.init ⟨⟨10, 24⟩, ⟨48, 24⟩⟩ ⟨10, 24⟩).setPlayback Playback.Forward
      7).currentTime = ⟨10, 24⟩ :=
  have h := setPlayback_anchor (Player.init ⟨⟨10, 24⟩, ⟨48, 24⟩⟩ ⟨10, 24⟩) Playback.Forward 7
    (by decide!)
  ⟨h.1, (h.2.1 (by decide)).1, (h.2.1 (by decide)).2.1, by decide!⟩

end tl.timeline

/-! ## The reset flag of the audio callback, the volume -/

namespace tl.timeline

/-- C26, as stated, does not hold for `Reverse` and `Stop`.  A player is set to
play in reverse, which raises the reset flag; its audio buffer holds three
frames and its frame counter is at 512.  The audio callback for 256 frames
takes the flag down but keeps the buffer and counts on to 768.  A stopped
player with the flag up after a seek loses the flag in the callback with the
buffer and the counter untouched. -/
theorem rtAudioCallback_reverse_reset_counterexample :
    ((Player.init ⟨⟨10, 24⟩, ⟨48, 24⟩⟩ ⟨20, 24⟩).setPlayback Playback.Reverse
      0).audioMutexReset = true ∧
    (Player.rtAudioCallback
      ((Player.init ⟨⟨10, 24⟩, ⟨48, 24⟩⟩ ⟨20, 24⟩).setPlayback Playback.Reverse 0)
      { PlayerThread.init ⟨⟨10, 24⟩, ⟨48, 24⟩⟩ true true ⟨⟨1, 24⟩, ⟨0, 24⟩⟩ 0 0 with
        buffer := [5, 6, 7], rtAudioCurrentFrame := 512 }
      256 0 id).1.audioMutexReset = false ∧
    (Player.rtAudioCallback
      ((Player.init ⟨⟨10, 24⟩, ⟨48, 24⟩⟩ ⟨20, 24⟩).setPlayback Playback.Reverse 0)
      { PlayerThread.init ⟨⟨10, 24⟩, ⟨48, 24⟩⟩ true true ⟨⟨1, 24⟩, ⟨0, 24⟩⟩ 0 0 with
        buffer := [5, 6, 7], rtAudioCurrentFrame := 512 }
      256 0 id).2.1.buffer = [5, 6, 7] ∧
    (Player.rtAudioCallback
      ((Player.init ⟨⟨10, 24⟩, ⟨48, 24⟩⟩ ⟨20, 24⟩).setPlayback Playback.Reverse 0)
      { PlayerThread.init ⟨⟨10, 24⟩, ⟨48, 24⟩⟩ true true ⟨⟨1, 24⟩, ⟨0, 24⟩⟩ 0 0 with
        buffer := [5, 6, 7], rtAudioCurrentFrame := 512 }
      256 0 id).2.1.rtAudioCurrentFrame = 768 ∧
    ((Player.init ⟨⟨10, 24⟩, ⟨48, 24⟩⟩ ⟨20, 24⟩).seek ⟨30, 24⟩ 0).audioMutexReset = true ∧
    (Player.rtAudioCallback
      ((Player.init ⟨⟨10, 24⟩, ⟨48, 24⟩⟩ ⟨20, 24⟩).seek ⟨30, 24⟩ 0)
      { PlayerThread.init ⟨⟨10, 24⟩, ⟨48, 24⟩⟩ true true ⟨⟨1, 24⟩, ⟨0, 24⟩⟩ 0 0 with
        buffer := [5, 6, 7], rtAudioCurrentFrame := 512 }
      256 0 id).1.audioMutexReset = false ∧
    (Player.rtAudioCallback
      ((Player.init ⟨⟨10, 24⟩, ⟨48, 24⟩⟩ ⟨20, 24⟩).seek ⟨30, 24⟩ 0)
      { PlayerThread.init ⟨⟨10, 24⟩, ⟨48, 24⟩⟩ true true ⟨⟨1, 24⟩, ⟨0, 24⟩⟩ 0 0 with
        buffer := [5, 6, 7], rtAudioCurrentFrame := 512 }
      256 0 id).2.1.rtAudioCurrentFrame = 512 := by
  decide!

/-- C26, amended: the flush is tied to `Forward`.  Every call of the audio
callback takes the reset flag down.  With the flag up and the playback
`Forward`, the buffer is emptied and the frame counter set to zero before the
buffer is filled and the audio copied: the buffer is filled from the empty
buffer, the output is silence or the first `nFrames` frames of that, and the
counter leaves the call at `nFrames`.  With the playback `Reverse` the buffer
is kept and the counter goes up by `nFrames`; with `Stop` neither changes. -/
theorem rtAudioCallback_reset (p : Player) (c : PlayerThread) (nFrames now : ℕ)
    (fill : List ℤ → List ℤ) (hr : p.audioMutexReset = true) :
    (Player.rtAudioCallback p c nFrames now fill).1.audioMutexReset = false ∧
    (p.mutex.playback = Playback.Forward →
      (Player.rtAudioCallback p c nFrames now fill).2.1.rtAudioCurrentFrame =
        nFrames % 2 ^ 64 ∧
      (((Player.rtAudioCallback p c nFrames now fill).2.1.buffer = fill [] ∧
          (Player.rtAudioCallback p c nFrames now fill).2.2 = List.replicate nFrames 0) ∨
        ((Player.rtAudioCallback p c nFrames now fill).2.1.buffer = (fill []).drop nFrames ∧
          (Player.rtAudioCallback p c nFrames now fill).2.2 = (fill []).take nFrames))) ∧
    (p.mutex.playback = Playback.Reverse →
      (Player.rtAudioCallback p c nFrames now fill).2.1.buffer = c.buffer ∧
      (Player.rtAudioCallback p c nFrames now fill).2.1.rtAudioCurrentFrame =
        (c.rtAudioCurrentFrame + nFrames) % 2 ^ 64) ∧
    (p.mutex.playback = Playback.Stop →
      (Player.rtAudioCallback p c nFrames now fill).2.1 = c) := by
  refine ⟨?_, ?_, ?_, ?_⟩
  · unfold Player.rtAudioCallback
    cases p.mutex.playback
    · rfl
    · simp only []
      split_ifs <;> rfl
    · rfl
  · intro hp
    unfold Player.rtAudioCallback
    simp only [hp, hr, if_true]
    split_ifs
    · exact ⟨by simp, Or.inr ⟨rfl, rfl⟩⟩
    · exact ⟨by simp, Or.inl ⟨rfl, rfl⟩⟩
  · intro hp
    unfold Player.rtAudioCallback
    simp [hp]
  · intro hp
    unfold Player.rtAudioCallback
    simp only [hp]

/-- C26, amended, at a player set to play forward, which raises the reset
flag, with three frames in the buffer and a frame counter of 512: the callback
for 256 frames takes the flag down and leaves the counter at 256. -/
theorem rtAudioCallback_reset_witness :
    (Player.rtAudioCallback
      ((Player.init ⟨⟨10, 24⟩, ⟨48, 24⟩⟩ ⟨20, 24⟩).setPlayback Playback.Forward 0)
      { PlayerThread.init ⟨⟨10, 24⟩, ⟨48, 24⟩⟩ true true ⟨⟨1, 24⟩, ⟨0, 24⟩⟩ 0 0 with
        buffer := [5, 6, 7], rtAudioCurrentFrame := 512 }
      256 0 id).1.audioMutexReset = false ∧
    (Player.rtAudioCallback
      ((Player.init ⟨⟨10, 24⟩, ⟨48, 24⟩⟩ ⟨20, 24⟩).setPlayback Playback.Forward 0)
      { PlayerThread.init ⟨⟨10, 24⟩, ⟨48, 24⟩⟩ true true ⟨⟨1, 24⟩, ⟨0, 24⟩⟩ 0 0 with
        buffer := [5, 6, 7], rtAudioCurrentFrame := 512 }
      256 0 id).2.1.rtAudioCurrentFrame = 256 % 2 ^ 64 :=
  have h := rtAudioCallback_reset
    ((Player.init ⟨⟨10, 24⟩, ⟨48, 24⟩⟩ ⟨20, 24⟩).setPlayback Playback.Forward 0)
    { PlayerThread.init ⟨⟨10, 24⟩, ⟨48, 24⟩⟩ true true ⟨⟨1, 24⟩, ⟨0, 24⟩⟩ 0 0 with
      buffer := [5, 6, 7], rtAudioCurrentFrame := 512 }
    256 0 id (by decide!)
  ⟨h.1, (h.2.1 (by decide!)).1⟩

/-- C30 fails on the code.  On a new player, whose volume is 1,
`setVolume(-1)` stores the clamped value 0 in the observed volume and the value
-1 itself in `audioMutex.volume`; after `setVolume(1/2)`, `setVolume(2)` leaves
the observed volume at 1 and `audioMutex.volume` at 2. -/
theorem setVolume_not_clamped :
    (Player.setVolume 1
      (PlayerThread.init ⟨⟨10, 24⟩, ⟨48, 24⟩⟩ true true ⟨⟨1, 24⟩, ⟨0, 24⟩⟩ 0 0) (-1)).1 = 0 ∧
    (Player.setVolume 1
      (PlayerThread.init ⟨⟨10, 24⟩, ⟨48, 24⟩⟩ true true ⟨⟨1, 24⟩, ⟨0, 24⟩⟩ 0 0)
      (-1)).2.volume = -1 ∧
    (Player.setVolume
      (Player.setVolume 1
        (PlayerThread.init ⟨⟨10, 24⟩, ⟨48, 24⟩⟩ true true ⟨⟨1, 24⟩, ⟨0, 24⟩⟩ 0 0) (1 / 2)).1
      (Player.setVolume 1
        (PlayerThread.init ⟨⟨10, 24⟩, ⟨48, 24⟩⟩ true true ⟨⟨1, 24⟩, ⟨0, 24⟩⟩ 0 0) (1 / 2)).2
      2).1 = 1 ∧
    (Player.setVolume
      (Player.setVolume 1
        (PlayerThread.init ⟨⟨10, 24⟩, ⟨48, 24⟩⟩ true true ⟨⟨1, 24⟩, ⟨0, 24⟩⟩ 0 0) (1 / 2)).1
      (Player.setVolume 1
        (PlayerThread.init ⟨⟨10, 24⟩, ⟨48, 24⟩⟩ true true ⟨⟨1, 24⟩, ⟨0, 24⟩⟩ 0 0) (1 / 2)).2
      2).2.volume = 2 := by
  decide!

end tl.timeline

/-! ## External time -/

namespace tl.timeline

theorem setPlaybackTarget_not_once (p : Player) (value : Playback) (now : ℕ)
    (h : p.loop ≠ Loop.Once) : (p.setPlaybackTarget value now).1 = p := by
  unfold Player.setPlaybackTarget
  cases hl : p.loop
  · rfl
  · exact absurd hl h
  · cases value
    · rfl
    · simp only []
      split_ifs <;> rfl
    · simp only []
      split_ifs <;> rfl

/-- C21, as stated, does not hold: a mirrored playback change can move the
current time.  A player of `[10/24, 48 frames)` with `Loop::Once` follows an
external player of the same time range, the external time being passed on as
it is; the external time `57/24` has made `57/24`, its out-point, the current
time.  The external player starts to play forward; the callback passes the
change to `setPlayback`, which under `Loop::Once` at the out-point seeks to the
in-point: the current time becomes `10/24` while the external time is still
`57/24`. -/
theorem externalPlayback_counterexample :
    (Player.externalCurrentTime (fun v _ _ (_ : Unit) => v)
      ((Player.init ⟨⟨10, 24⟩, ⟨48, 24⟩⟩ ⟨10, 24⟩).setLoop Loop.Once)
      ⟨⟨10, 24⟩, ⟨48, 24⟩⟩ () ⟨57, 24⟩).currentTime = ⟨57, 24⟩ ∧
    (Player.externalPlayback
      (Player.externalCurrentTime (fun v _ _ (_ : Unit) => v)
        ((Player.init ⟨⟨10, 24⟩, ⟨48, 24⟩⟩ ⟨10, 24⟩).setLoop Loop.Once)
        ⟨⟨10, 24⟩, ⟨48, 24⟩⟩ () ⟨57, 24⟩)
      Playback.Forward 0).currentTime = ⟨10, 24⟩ := by
  decide!

/-- C21, amended: the seek of a mirrored `setPlayback` is taken into account.
While an external player is set, `tick` leaves the current time as it was in
every playback mode.  A change of the external time sets the current time to
`getExternalTime` of the external time, the external time range, the time
range of the player and the mode, unless that compares equal to the current
time, which then stays.  Every change of the playback of the external player
is passed to `setPlayback`, which leaves the current time as it was unless the
loop mode is `Loop::Once`, where it may first seek to the opposite end of the
in/out range. -/
theorem externalTime_drives_currentTime {M : Type}
    (getExternalTime : RationalTime → TimeRange → TimeRange → M → RationalTime)
    (p : Player) (c : PlayerThread) (externalTimeRange : TimeRange) (externalTimeMode : M)
    (h : c.externalTimePlayer = true) :
    (∀ (seconds : ℚ) (now : ℕ), (Player.tick p c seconds now).1.currentTime = p.currentTime) ∧
    (∀ value : RationalTime,
      ((getExternalTime value externalTimeRange p.timeRange externalTimeMode).eq
          p.currentTime →
        (Player.externalCurrentTime getExternalTime p externalTimeRange externalTimeMode
          value).currentTime = p.currentTime) ∧
      (¬ (getExternalTime value externalTimeRange p.timeRange externalTimeMode).eq
          p.currentTime →
        (Player.externalCurrentTime getExternalTime p externalTimeRange externalTimeMode
          value).currentTime =
          getExternalTime value externalTimeRange p.timeRange externalTimeMode)) ∧
    (∀ (value : Playback) (now : ℕ),
      Player.externalPlayback p value now = p.setPlayback value now ∧
      (Player.externalPlayback p value now).currentTime =
        (p.setPlaybackTarget value now).1.currentTime ∧
      (p.loop ≠ Loop.Once →
        (Player.externalPlayback p value now).currentTime = p.currentTime)) := by
  refine ⟨?_, ?_, ?_⟩
  · intro seconds now
    unfold Player.tick
    simp [h]
  · intro value
    unfold Player.externalCurrentTime setIfChanged
    constructor
    · intro he
      simp [he]
    · intro he
      simp [he]
  · intro value now
    have e : (Player.externalPlayback p value now).currentTime =
        (p.setPlaybackTarget value now).1.currentTime := by
      unfold Player.externalPlayback
      rw [setPlayback_eq]
      exact (storePlayback_fields _ _ now).1
    refine ⟨rfl, e, ?_⟩
    intro hl
    rw [e, setPlaybackTarget_not_once p value now hl]

/-- C21, amended, at a player of `[10/24, 48 frames)` that plays forward and
follows an external player whose time is passed on as it is: a `tick` half a
second later leaves the current time at `10/24`, and the external time `30/24`
becomes the current time. -/
theorem externalTime_drives_currentTime_witness :
    (Player.tick ((Player.init ⟨⟨10, 24⟩, ⟨48, 24⟩⟩ ⟨10, 24⟩).setPlayback Playback.Forward 0)
      { PlayerThread.init ⟨⟨10, 24⟩, ⟨48, 24⟩⟩ true false ⟨⟨1, 24⟩, ⟨0, 24⟩⟩ 0 0 with
        externalTimePlayer := true }
      (1 / 2) 500000000).1.currentTime =
      ((Player.init ⟨⟨10, 24⟩, ⟨48, 24⟩⟩ ⟨10, 24⟩).setPlayback Playback.Forward 0).currentTime ∧
    (Player.externalCurrentTime (fun v _ _ (_ : Unit) => v)
      ((Player.init ⟨⟨10, 24⟩, ⟨48, 24⟩⟩ ⟨10, 24⟩).setPlayback Playback.Forward 0)
      ⟨⟨10, 24⟩, ⟨48, 24⟩⟩ () ⟨30, 24⟩).currentTime = ⟨30, 24⟩ ∧
    (Player.tick ((Player.init ⟨⟨10, 24⟩, ⟨48, 24⟩⟩ ⟨10, 24⟩).setPlayback Playback.Forward 0)
      (PlayerThread.init ⟨⟨10, 24⟩, ⟨48, 24⟩⟩ true false ⟨⟨1, 24⟩, ⟨0, 24⟩⟩ 0 0)
      (1 / 2) 500000000).1.currentTime = ⟨22, 24⟩ :=
  ⟨(externalTime_drives_currentTime (fun v _ _ (_ : Unit) => v)
      ((Player.init ⟨⟨10, 24⟩, ⟨48, 24⟩⟩ ⟨10, 24⟩).setPlayback Playback.Forward 0)
      { PlayerThread.init ⟨⟨10, 24⟩, ⟨48, 24⟩⟩ true false ⟨⟨1, 24⟩, ⟨0, 24⟩⟩ 0 0 with
        externalTimePlayer := true }
      ⟨⟨10, 24⟩, ⟨48, 24⟩⟩ () rfl).1 (1 / 2) 500000000,
    by decide!, by decide!⟩

end tl.timeline

/-! ## Requests -/

namespace tl.timeline

theorem mem_setInsert {K : Type} (lt : K → K → Prop) [DecidableRel lt] (s : List K) (k t : K)
    (h : t ∈ setInsert lt s k) : t ∈ s ∨ t = k := by
  induction s with
  | nil =>
    simp only [setInsert, List.mem_singleton] at h
    exact Or.inr h
  | cons e rest ih =>
    unfold setInsert at h
    split_ifs at h with h1 h2
    · rcases List.mem_cons.1 h with h | h
      · exact Or.inr h
      · exact Or.inl h
    · rcases List.mem_cons.1 h with h | h
      · exact Or.inl (h ▸ List.mem_cons_self _ _)
      · rcases ih h with h | h
        · exact Or.inl (List.mem_cons_of_mem _ h)
        · exact Or.inr h
    · exact Or.inl h

theorem mem_setInsert_of_mem {K : Type} (lt : K → K → Prop) [DecidableRel lt] (s : List K)
    (k t : K) (h : t ∈ s) : t ∈ setInsert lt s k := by
  induction s with
  | nil => exact absurd h (List.not_mem_nil _)
  | cons e rest ih =>
    unfold setInsert
    split_ifs with h1 h2
    · exact List.mem_cons_of_mem _ h
    · rcases List.mem_cons.1 h with h | h
      · exact h ▸ List.mem_cons_self _ _
      · exact List.mem_cons_of_mem _ (ih h)
    · exact h

theorem setContains_iff {K : Type} (lt : K → K → Prop) [DecidableRel lt] (s : List K) (k : K) :
    setContains lt s k = true ↔ ∃ e ∈ s, keyEquiv lt e k := by
  simp [setContains]

theorem setContains_setInsert_self {K : Type} (lt : K → K → Prop) [DecidableRel lt]
    (hirr : ∀ a, ¬ lt a a) (s : List K) (k : K) : setContains lt (setInsert lt s k) k = true := by
  rw [setContains_iff]
  induction s with
  | nil => exact ⟨k, List.mem_singleton.2 rfl, hirr k, hirr k⟩
  | cons e rest ih =>
    unfold setInsert
    split_ifs with h1 h2
    · exact ⟨k, List.mem_cons_self _ _, hirr k, hirr k⟩
    · obtain ⟨x, hx, hk⟩ := ih
      exact ⟨x, List.mem_cons_of_mem _ hx, hk⟩
    · exact ⟨e, List.mem_cons_self _ _, h2, h1⟩

theorem setContains_setInsert_of_setContains {K : Type} (lt : K → K → Prop) [DecidableRel lt]
    (s : List K) (k t : K) (h : setContains lt s t = true) :
    setContains lt (setInsert lt s k) t = true := by
  rw [setContains_iff] at h ⊢
  obtain ⟨e, he, hk⟩ := h
  exact ⟨e, mem_setInsert_of_mem lt s k e he, hk⟩

theorem setInsert_perm {K : Type} (lt : K → K → Prop) [DecidableRel lt] (s : List K) (k : K)
    (h : setContains lt s k = false) : (setInsert lt s k).Perm (k :: s) := by
  induction s with
  | nil => exact List.Perm.refl _
  | cons e rest ih =>
    have hrest : setContains lt rest k = false := by
      simp only [setContains, List.any_cons, Bool.or_eq_false_iff] at h
      exact h.2
    have he : ¬ keyEquiv lt e k := by
      simp only [setContains, List.any_cons, Bool.or_eq_false_iff, decide_eq_false_iff_not] at h
      exact h.1
    unfold setInsert
    split_ifs with h1 h2
    · exact List.Perm.refl _
    · exact ((ih hrest).cons e).trans (List.Perm.swap k e rest)
    · exact absurd ⟨h2, h1⟩ he

theorem setInsert_length_le {K : Type} (lt : K → K → Prop) [DecidableRel lt] (s : List K)
    (k : K) : (setInsert lt s k).length ≤ s.length + 1 := by
  induction s with
  | nil => simp [setInsert]
  | cons e rest ih =>
    unfold setInsert
    split_ifs with h1 h2
    · simp
    · simp only [List.length_cons]
      omega
    · simp

end tl.timeline

namespace tl.timeline

theorem keyEquiv_symm {K : Type} (lt : K → K → Prop) {a b : K} (h : ¬ keyEquiv lt a b) :
    ¬ keyEquiv lt b a := fun hb => h ⟨hb.2, hb.1⟩

theorem requestVideo_frames (cache : List (RationalTime × VideoData)) (l : List RationalTime)
    (rq : List RationalTime) :
    (∀ x, setContains RationalTime.lt rq x = true →
      setContains RationalTime.lt (l.foldl (fun rq time =>
        if ¬ mapContains RationalTime.lt cache time ∧ ¬ setContains RationalTime.lt rq time
        then setInsert RationalTime.lt rq time else rq) rq) x = true) ∧
    (∀ t ∈ l, mapContains RationalTime.lt cache t = true ∨
      setContains RationalTime.lt (l.foldl (fun rq time =>
        if ¬ mapContains RationalTime.lt cache time ∧ ¬ setContains RationalTime.lt rq time
        then setInsert RationalTime.lt rq time else rq) rq) t = true) ∧
    (∀ t ∈ l.foldl (fun rq time =>
        if ¬ mapContains RationalTime.lt cache time ∧ ¬ setContains RationalTime.lt rq time
        then setInsert RationalTime.lt rq time else rq) rq,
      t ∈ rq ∨ (t ∈ l ∧ mapContains RationalTime.lt cache t = false ∧
        setContains RationalTime.lt rq t = false)) ∧
    (rq.Pairwise (fun a b => ¬ keyEquiv RationalTime.lt a b) →
      (l.foldl (fun rq time =>
        if ¬ mapContains RationalTime.lt cache time ∧ ¬ setContains RationalTime.lt rq time
        then setInsert RationalTime.lt rq time else rq) rq).Pairwise
        (fun a b => ¬ keyEquiv RationalTime.lt a b)) ∧
    (l.foldl (fun rq time =>
        if ¬ mapContains RationalTime.lt cache time ∧ ¬ setContains RationalTime.lt rq time
        then setInsert RationalTime.lt rq time else rq) rq).length ≤ rq.length + l.length := by
  induction l generalizing rq with
  | nil =>
    refine ⟨fun x hx => hx, fun t ht => absurd ht (List.not_mem_nil _), fun t ht => Or.inl ht,
      fun hp => hp, ?_⟩
    simp
  | cons k rest ih =>
    rw [List.foldl_cons]
    by_cases hc : ¬ mapContains RationalTime.lt cache k = true ∧
        ¬ setContains RationalTime.lt rq k = true
    · rw [if_pos hc]
      obtain ⟨i1, i2, i3, i4, i5⟩ := ih (setInsert RationalTime.lt rq k)
      have hins : setContains RationalTime.lt rq k = false := by simpa using hc.2
      refine ⟨?_, ?_, ?_, ?_, ?_⟩
      · intro x hx
        exact i1 x (setContains_setInsert_of_setContains _ rq k x hx)
      · intro t ht
        rcases List.mem_cons.1 ht with ht | ht
        · right
          rw [ht]
          exact i1 k (setContains_setInsert_self _ RationalTime.not_lt_self rq k)
        · exact i2 t ht
      · intro t ht
        rcases i3 t ht with h | ⟨h1, h2, h3⟩
        · rcases mem_setInsert _ rq k t h with h | h
          · exact Or.inl h
          · right
            rw [h]
            exact ⟨List.mem_cons_self _ _, by simpa using hc.1, hins⟩
        · right
          refine ⟨List.mem_cons_of_mem _ h1, h2, ?_⟩
          by_contra hne
          have : setContains RationalTime.lt rq t = true := by simpa using hne
          rw [setContains_setInsert_of_setContains _ rq k t this] at h3
          exact Bool.noConfusion h3
      · intro hp
        apply i4
        refine (List.Perm.pairwise_iff (fun h => keyEquiv_symm _ h)
          (setInsert_perm _ rq k hins)).2 ?_
        refine List.pairwise_cons.2 ⟨?_, hp⟩
        intro e he hk
        have : setContains RationalTime.lt rq k = true :=
          (setContains_iff _ rq k).2 ⟨e, he, hk.2, hk.1⟩
        rw [hins] at this
        exact Bool.noConfusion this
      · have := setInsert_length_le RationalTime.lt rq k
        simp only [List.length_cons]
        omega
    · rw [if_neg hc]
      obtain ⟨i1, i2, i3, i4, i5⟩ := ih rq
      refine ⟨i1, ?_, ?_, i4, ?_⟩
      · intro t ht
        rcases List.mem_cons.1 ht with ht | ht
        · rw [ht]
          by_cases hm : mapContains RationalTime.lt cache k = true
          · exact Or.inl hm
          · right
            have hs : setContains RationalTime.lt rq k = true := by
              by_contra hs
              exact hc ⟨hm, hs⟩
            exact i1 k hs
        · exact i2 t ht
      · intro t ht
        rcases i3 t ht with h | ⟨h1, h2, h3⟩
        · exact Or.inl h
        · exact Or.inr ⟨List.mem_cons_of_mem _ h1, h2, h3⟩
      · simp only [List.length_cons]
        omega

end tl.timeline

namespace tl.timeline

theorem cacheUpdateRequestVideo_cons (range : TimeRange) (videoRanges : List TimeRange)
    (cache : List (RationalTime × VideoData)) (requests : List RationalTime) :
    Player.cacheUpdateRequestVideo true (range :: videoRanges) cache requests =
      Player.cacheUpdateRequestVideo true videoRanges cache
        ((Player.frames range).foldl (fun rq time =>
          if ¬ mapContains RationalTime.lt cache time ∧ ¬ setContains RationalTime.lt rq time
          then setInsert RationalTime.lt rq time else rq) requests) := by
  simp [Player.cacheUpdateRequestVideo]

theorem requestVideo_ranges (videoRanges : List TimeRange)
    (cache : List (RationalTime × VideoData)) (requests : List RationalTime) :
    (∀ x, setContains RationalTime.lt requests x = true →
      setContains RationalTime.lt
        (Player.cacheUpdateRequestVideo true videoRanges cache requests) x = true) ∧
    (∀ range ∈ videoRanges, ∀ t ∈ Player.frames range,
      mapContains RationalTime.lt cache t = true ∨
      setContains RationalTime.lt
        (Player.cacheUpdateRequestVideo true videoRanges cache requests) t = true) ∧
    (∀ t ∈ Player.cacheUpdateRequestVideo true videoRanges cache requests,
      t ∈ requests ∨ ((∃ range ∈ videoRanges, t ∈ Player.frames range) ∧
        mapContains RationalTime.lt cache t = false ∧
        setContains RationalTime.lt requests t = false)) ∧
    (requests.Pairwise (fun a b => ¬ keyEquiv RationalTime.lt a b) →
      (Player.cacheUpdateRequestVideo true videoRanges cache requests).Pairwise
        (fun a b => ¬ keyEquiv RationalTime.lt a b)) ∧
    (Player.cacheUpdateRequestVideo true videoRanges cache requests).length ≤
      requests.length + (videoRanges.map (fun range => (Player.frames range).length)).sum := by
  induction videoRanges generalizing requests with
  | nil =>
    refine ⟨fun x hx => ?_, fun r hr => absurd hr (List.not_mem_nil _), fun t ht => Or.inl ?_,
      fun hp => ?_, ?_⟩
    · simpa [Player.cacheUpdateRequestVideo] using hx
    · simpa [Player.cacheUpdateRequestVideo] using ht
    · simpa [Player.cacheUpdateRequestVideo] using hp
    · simp [Player.cacheUpdateRequestVideo]
  | cons range rest ih =>
    rw [cacheUpdateRequestVideo_cons]
    obtain ⟨f1, f2, f3, f4, f5⟩ := requestVideo_frames cache (Player.frames range) requests
    obtain ⟨i1, i2, i3, i4, i5⟩ := ih ((Player.frames range).foldl (fun rq time =>
      if ¬ mapContains RationalTime.lt cache time ∧ ¬ setContains RationalTime.lt rq time
      then setInsert RationalTime.lt rq time else rq) requests)
    refine ⟨fun x hx => i1 x (f1 x hx), ?_, ?_, fun hp => i4 (f4 hp), ?_⟩
    · intro r hr t ht
      rcases List.mem_cons.1 hr with hr | hr
      · subst hr
        rcases f2 t ht with h | h
        · exact Or.inl h
        · exact Or.inr (i1 t h)
      · exact i2 r hr t ht
    · intro t ht
      rcases i3 t ht with h | ⟨⟨r, hr, hrt⟩, h2, h3⟩
      · rcases f3 t h with h | ⟨h1, h2, h3⟩
        · exact Or.inl h
        · exact Or.inr ⟨⟨range, List.mem_cons_self _ _, h1⟩, h2, h3⟩
      · right
        refine ⟨⟨r, List.mem_cons_of_mem _ hr, hrt⟩, h2, ?_⟩
        by_contra hne
        have : setContains RationalTime.lt requests t = true := by simpa using hne
        rw [f1 t this] at h3
        exact Bool.noConfusion h3
    · simp only [List.map_cons, List.sum_cons]
      omega

theorem framesAux_mk (a r : ℚ) (hr : 0 < r) (n : ℕ) (m j : ℕ) (h : j + m ≤ n) :
    Player.framesAux m ⟨a + j, r⟩ ⟨a + n, r⟩ ⟨1, r⟩ =
      (List.range' j m).map (fun k : ℕ => (⟨a + k, r⟩ : RationalTime)) := by
  induction m generalizing j with
  | zero => rfl
  | succ m ih =>
    have hlt : RationalTime.lt ⟨a + j, r⟩ ⟨a + n, r⟩ := by
      rw [RationalTime.lt_mk _ _ _ hr]
      have : (j : ℚ) < n := by exact_mod_cast (by omega : j < n)
      linarith
    unfold Player.framesAux
    rw [if_pos hlt, RationalTime.add_mk, List.range'_succ, List.map_cons]
    have e : (1 : ℚ) + (a + j) = a + ((j + 1 : ℕ) : ℚ) := by
      push_cast
      ring
    rw [e, ih (j + 1) (by omega)]

theorem frames_mk (a r : ℚ) (hr : 0 < r) (n : ℕ) :
    Player.frames ⟨⟨a, r⟩, ⟨n, r⟩⟩ =
      (List.range n).map (fun k : ℕ => (⟨a + k, r⟩ : RationalTime)) := by
  unfold Player.frames
  rw [TimeRange.end_time_exclusive_mk]
  have hfuel : (⌈(RationalTime.to_seconds ⟨a + n, r⟩ - RationalTime.to_seconds ⟨a, r⟩) * r⌉).toNat
      = n := by
    have : (RationalTime.to_seconds ⟨a + n, r⟩ - RationalTime.to_seconds ⟨a, r⟩) * r =
        ((n : ℤ) : ℚ) := by
      simp only [RationalTime.to_seconds]
      field_simp
    rw [this, Int.ceil_intCast]
    simp
  simp only [hfuel]
  have := framesAux_mk a r hr n n 0 (by omega)
  simp only [Nat.cast_zero, add_zero] at this
  rw [this, List.range_eq_range']

end tl.timeline

namespace tl.timeline

/-- C27: when the timeline has video, after the request step of `cacheUpdate`
every frame time of every planned video range is in the video cache or among
the requests in flight; for a planned range of `n` whole frames these are the
`n` times from its start on.  A request in the map afterwards was there before
or is for a frame time of a planned range that was neither cached nor in
flight, requests in flight stay in flight, and when no time was in flight
twice before the step none is after it. -/
theorem cacheUpdateRequestVideo_covers (videoRanges : List TimeRange)
    (cache : List (RationalTime × VideoData)) (requests : List RationalTime) :
    (∀ range ∈ videoRanges, ∀ t ∈ Player.frames range,
      mapContains RationalTime.lt cache t = true ∨
      setContains RationalTime.lt
        (Player.cacheUpdateRequestVideo true videoRanges cache requests) t = true) ∧
    (∀ (a r : ℚ) (n k : ℕ), 0 < r → (⟨⟨a, r⟩, ⟨n, r⟩⟩ : TimeRange) ∈ videoRanges → k < n →
      mapContains RationalTime.lt cache ⟨a + k, r⟩ = true ∨
      setContains RationalTime.lt
        (Player.cacheUpdateRequestVideo true videoRanges cache requests) ⟨a + k, r⟩ = true) ∧
    (∀ t ∈ Player.cacheUpdateRequestVideo true videoRanges cache requests,
      t ∈ requests ∨ ((∃ range ∈ videoRanges, t ∈ Player.frames range) ∧
        mapContains RationalTime.lt cache t = false ∧
        setContains RationalTime.lt requests t = false)) ∧
    (∀ x, setContains RationalTime.lt requests x = true →
      setContains RationalTime.lt
        (Player.cacheUpdateRequestVideo true videoRanges cache requests) x = true) ∧
    (requests.Pairwise (fun a b => ¬ keyEquiv RationalTime.lt a b) →
      (Player.cacheUpdateRequestVideo true videoRanges cache requests).Pairwise
        (fun a b => ¬ keyEquiv RationalTime.lt a b)) := by
  obtain ⟨h1, h2, h3, h4, _⟩ := requestVideo_ranges videoRanges cache requests
  refine ⟨h2, ?_, h3, h1, h4⟩
  intro a r n k hr hmem hk
  apply h2 _ hmem
  rw [frames_mk a r hr n]
  exact List.mem_map.2 ⟨k, List.mem_range.2 hk, rfl⟩

/-- C27 at the planned range `[10/24, 3 frames)` with the frame `11/24` cached
and the frame `10/24` in flight: the step requests the frame `12/24` and
nothing else, and the frame `12/24` is then in flight. -/
theorem cacheUpdateRequestVideo_covers_witness :
    Player.cacheUpdateRequestVideo true [⟨⟨10, 24⟩, ⟨3, 24⟩⟩]
      [(⟨11, 24⟩, ⟨⟨11, 24⟩, some 1⟩)] [⟨10, 24⟩] = [⟨10, 24⟩, ⟨12, 24⟩] ∧
    (mapContains RationalTime.lt [((⟨11, 24⟩ : RationalTime), (⟨⟨11, 24⟩, some 1⟩ : VideoData))]
        ⟨10 + (2 : ℕ), 24⟩ = true ∨
      setContains RationalTime.lt
        (Player.cacheUpdateRequestVideo true [⟨⟨10, 24⟩, ⟨(3 : ℕ), 24⟩⟩]
          [(⟨11, 24⟩, ⟨⟨11, 24⟩, some 1⟩)] [⟨10, 24⟩]) ⟨10 + (2 : ℕ), 24⟩ = true) :=
  ⟨by decide!,
    (cacheUpdateRequestVideo_covers [⟨⟨10, 24⟩, ⟨(3 : ℕ), 24⟩⟩]
      [(⟨11, 24⟩, ⟨⟨11, 24⟩, some 1⟩)] [⟨10, 24⟩]).2.1 10 24 3 2 (by norm_num)
      (List.mem_singleton.2 rfl) (by norm_num)⟩

end tl.timeline

namespace tl.timeline

theorem cacheUpdateFinishVideo_snd_foldl (ready : RationalTime → Option VideoData)
    (requests : List RationalTime) (s : List (RationalTime × VideoData) × List RationalTime) :
    (requests.foldl (fun s k =>
      match ready k with
      | some data => (mapInsert RationalTime.lt s.1 k { data with time := k }, s.2)
      | none => (s.1, s.2 ++ [k])) s).2.length ≤ s.2.length + requests.length ∧
    ((∀ k, ready k = none) →
      (requests.foldl (fun s k =>
        match ready k with
        | some data => (mapInsert RationalTime.lt s.1 k { data with time := k }, s.2)
        | none => (s.1, s.2 ++ [k])) s).2 = s.2 ++ requests) := by
  induction requests generalizing s with
  | nil => simp
  | cons k rest ih =>
    rw [List.foldl_cons]
    constructor
    · cases hr : ready k with
      | none =>
        have := (ih (s.1, s.2 ++ [k])).1
        simp only [hr, List.length_append, List.length_cons, List.length_nil] at this ⊢
        omega
      | some data =>
        have := (ih (mapInsert RationalTime.lt s.1 k { data with time := k }, s.2)).1
        simp only [hr, List.length_cons] at this ⊢
        omega
    · intro hn
      simp only [hn k]
      rw [(ih (s.1, s.2 ++ [k])).2 hn]
      simp

theorem cacheUpdateInfo_videoDataRequests (timeRange : TimeRange)
    (cacheOptions : PlayerCacheOptions) (now : ℕ) (c : PlayerThread) :
    (Player.cacheUpdateInfo timeRange cacheOptions now c).videoDataRequests =
      c.videoDataRequests := by
  unfold Player.cacheUpdateInfo
  split_ifs <;> rfl

theorem cacheUpdate_videoDataRequests (timeRange : TimeRange) (c : PlayerThread)
    (currentTime : RationalTime) (inOutRange : TimeRange) (audioOffset : ℚ)
    (cacheDirection : CacheDirection) (cacheOptions : PlayerCacheOptions) (now : ℕ)
    (videoReady : RationalTime → Option VideoData) (audioReady : ℤ → Option AudioData) :
    (Player.cacheUpdate timeRange c currentTime inOutRange audioOffset cacheDirection
      cacheOptions now videoReady audioReady).videoDataRequests =
    (Player.cacheUpdateFinishVideo videoReady
      (Player.cacheUpdateEvictVideo
        (Player.cacheUpdateVideoRanges timeRange currentTime inOutRange cacheDirection
          cacheOptions) c.videoDataCache)
      (Player.cacheUpdateRequestVideo c.hasVideo
        (Player.cacheUpdateVideoRanges timeRange currentTime inOutRange cacheDirection
          cacheOptions)
        (Player.cacheUpdateEvictVideo
          (Player.cacheUpdateVideoRanges timeRange currentTime inOutRange cacheDirection
            cacheOptions) c.videoDataCache)
        c.videoDataRequests)).2 := by
  unfold Player.cacheUpdate
  simp only [cacheUpdateInfo_videoDataRequests]

theorem keyEquiv_lt_iff (a b : RationalTime) :
    keyEquiv RationalTime.lt a b ↔ a.to_seconds = b.to_seconds := by
  unfold keyEquiv
  rw [RationalTime.lt_iff, RationalTime.lt_iff]
  constructor
  · rintro ⟨h1, h2⟩
    exact le_antisymm (not_lt.1 h2) (not_lt.1 h1)
  · intro h
    rw [h]
    exact ⟨lt_irrefl _, lt_irrefl _⟩

theorem cacheUpdateVideoRanges_whole (N : ℕ) :
    Player.cacheUpdateVideoRanges ⟨⟨0, 24⟩, ⟨((N + 1 : ℕ) : ℚ), 24⟩⟩ ⟨0, 24⟩
      ⟨⟨0, 24⟩, ⟨((N + 1 : ℕ) : ℚ), 24⟩⟩ CacheDirection.Forward ⟨⟨N, 24⟩, ⟨0, 24⟩⟩ =
      [⟨⟨0, 24⟩, ⟨((N + 1 : ℕ) : ℚ), 24⟩⟩] := by
  unfold Player.cacheUpdateVideoRanges
  rw [cacheUpdateVideoRange_mk _ 24 0 CacheDirection.Forward _ rfl]
  simp only [RationalTime.value_rescaled_to, if_true, Int.floor_zero]
  have e1 : ((0 : ℚ) - ((0 : ℤ) : ℚ)) = 0 := by simp
  have e2 : (((⌊(N : ℚ)⌋ + 0 + 1 : ℤ) : ℚ)) = ((N + 1 : ℕ) : ℚ) := by
    simp
  rw [e1, e2]
  unfold loopRanges
  rw [if_pos]
  rw [RationalTime.ge_mk _ _ _ (by norm_num)]

theorem length_ge_of_frames_covered (out : List RationalTime) (n : ℕ)
    (h : ∀ k : ℕ, k < n → setContains RationalTime.lt out ⟨(0 : ℚ) + k, 24⟩ = true) :
    n ≤ out.length := by
  have hsub : (Finset.range n).image (fun k : ℕ => (k : ℚ) / 24) ⊆
      (out.map RationalTime.to_seconds).toFinset := by
    intro x hx
    obtain ⟨k, hk, rfl⟩ := Finset.mem_image.1 hx
    obtain ⟨e, he, hke⟩ := (setContains_iff _ out _).1 (h k (Finset.mem_range.1 hk))
    rw [keyEquiv_lt_iff] at hke
    rw [List.mem_toFinset]
    refine List.mem_map.2 ⟨e, he, ?_⟩
    rw [hke]
    simp [RationalTime.to_seconds]
  have hinj : Function.Injective (fun k : ℕ => (k : ℚ) / 24) := by
    intro a b hab
    have h24 : (24 : ℚ) ≠ 0 := by norm_num
    field_simp at hab
    exact hab
  calc n = ((Finset.range n).image (fun k : ℕ => (k : ℚ) / 24)).card := by
        rw [Finset.card_image_of_injective _ hinj, Finset.card_range]
    _ ≤ (out.map RationalTime.to_seconds).toFinset.card := Finset.card_le_card hsub
    _ ≤ (out.map RationalTime.to_seconds).length := List.toFinset_card_le _
    _ = out.length := List.length_map _ _

end tl.timeline

namespace tl.timeline

theorem requestVideo_cover_whole (videoRanges : List TimeRange)
    (cache : List (RationalTime × VideoData)) (requests : List RationalTime) (a r : ℚ)
    (n k : ℕ) (hr : 0 < r) (hmem : (⟨⟨a, r⟩, ⟨n, r⟩⟩ : TimeRange) ∈ videoRanges) (hk : k < n) :
    mapContains RationalTime.lt cache ⟨a + k, r⟩ = true ∨
    setContains RationalTime.lt
      (Player.cacheUpdateRequestVideo true videoRanges cache requests) ⟨a + k, r⟩ = true := by
  apply (requestVideo_ranges videoRanges cache requests).2.1 _ hmem
  rw [frames_mk a r hr n]
  exact List.mem_map.2 ⟨k, List.mem_range.2 hk, rfl⟩

/-- C28, as stated, does not hold: no number bounds the requests in flight.
For every `N`, a player of `N + 1` frames at 24 frames a second with a read
ahead of `N` frames, empty caches and no request ready has `N + 1` requests in
flight after one `cacheUpdate` at its first frame. -/
theorem cacheUpdate_requests_unbounded :
    ¬ ∃ N : ℕ, ∀ (timeRange : TimeRange) (c : PlayerThread) (currentTime : RationalTime)
      (inOutRange : TimeRange) (audioOffset : ℚ) (cacheDirection : CacheDirection)
      (cacheOptions : PlayerCacheOptions) (now : ℕ)
      (videoReady : RationalTime → Option VideoData) (audioReady : ℤ → Option AudioData),
      (Player.cacheUpdate timeRange c currentTime inOutRange audioOffset cacheDirection
        cacheOptions now videoReady audioReady).videoDataRequests.length ≤ N := by
  rintro ⟨N, h⟩
  have h1 := h ⟨⟨0, 24⟩, ⟨((N + 1 : ℕ) : ℚ), 24⟩⟩
    (PlayerThread.init ⟨⟨0, 24⟩, ⟨((N + 1 : ℕ) : ℚ), 24⟩⟩ true false ⟨⟨N, 24⟩, ⟨0, 24⟩⟩ 0 0)
    ⟨0, 24⟩ ⟨⟨0, 24⟩, ⟨((N + 1 : ℕ) : ℚ), 24⟩⟩ 0 CacheDirection.Forward ⟨⟨N, 24⟩, ⟨0, 24⟩⟩ 0
    (fun _ => none) (fun _ => none)
  rw [cacheUpdate_videoDataRequests, cacheUpdateVideoRanges_whole] at h1
  unfold Player.cacheUpdateFinishVideo at h1
  rw [(cacheUpdateFinishVideo_snd_foldl (fun _ => none) _ _).2 (fun _ => rfl)] at h1
  simp only [PlayerThread.init, Player.cacheUpdateEvictVideo, List.filter_nil,
    List.nil_append] at h1
  have h2 := length_ge_of_frames_covered
    (Player.cacheUpdateRequestVideo true [⟨⟨0, 24⟩, ⟨((N + 1 : ℕ) : ℚ), 24⟩⟩] [] []) (N + 1)
    (fun k hk => by
      rcases (requestVideo_cover_whole [⟨⟨0, 24⟩, ⟨((N + 1 : ℕ) : ℚ), 24⟩⟩] [] []
        0 24 (N + 1) k (by norm_num) (List.mem_singleton.2 rfl) hk) with hc | hc
      · simp [mapContains] at hc
      · exact hc)
  omega

/-- C28, amended: the bound is the number of requests before plus the frames
of the planned ranges.  The code has no maximum count of requests in flight.
One `cacheUpdate` adds at most one request for each frame time of the planned
video ranges and drops the requests it finds finished, so the request map has
afterwards at most as many entries as it had before plus the number of frame
times of the planned ranges; without video it has at most as many as before. -/
theorem cacheUpdate_requests_bound (timeRange : TimeRange) (c : PlayerThread)
    (currentTime : RationalTime) (inOutRange : TimeRange) (audioOffset : ℚ)
    (cacheDirection : CacheDirection) (cacheOptions : PlayerCacheOptions) (now : ℕ)
    (videoReady : RationalTime → Option VideoData) (audioReady : ℤ → Option AudioData) :
    (Player.cacheUpdate timeRange c currentTime inOutRange audioOffset cacheDirection
      cacheOptions now videoReady audioReady).videoDataRequests.length ≤
      c.videoDataRequests.length +
        ((Player.cacheUpdateVideoRanges timeRange currentTime inOutRange cacheDirection
          cacheOptions).map (fun range => (Player.frames range).length)).sum ∧
    (c.hasVideo = false →
      (Player.cacheUpdate timeRange c currentTime inOutRange audioOffset cacheDirection
        cacheOptions now videoReady audioReady).videoDataRequests.length ≤
        c.videoDataRequests.length) := by
  rw [cacheUpdate_videoDataRequests]
  unfold Player.cacheUpdateFinishVideo
  have hf := fun rq cache => (cacheUpdateFinishVideo_snd_foldl videoReady rq (cache, [])).1
  simp only [List.length_nil, Nat.zero_add] at hf
  constructor
  · refine le_trans (hf _ _) ?_
    cases hv : c.hasVideo
    · simp [Player.cacheUpdateRequestVideo]
    · exact (requestVideo_ranges _ _ _).2.2.2.2
  · intro hv
    refine le_trans (hf _ _) ?_
    simp [Player.cacheUpdateRequestVideo, hv]

end tl.timeline

/-! ## A raw range across one boundary -/

namespace tl.timeline

theorem loopRanges_wrap_eq (value range : TimeRange) (k : ℤ)
    (h1 : ¬ value.duration.ge range.duration)
    (h2 : ¬ (value.start_time.ge range.start_time ∧
      value.end_time_exclusive.le range.end_time_exclusive))
    (hk : ⌊(value.start_time.value_rescaled_to range.duration.rate -
      range.start_time.value_rescaled_to range.duration.rate) / range.duration.value⌋ = k)
    (h3 : ¬ (value.start_time.value_rescaled_to range.duration.rate -
        range.start_time.value_rescaled_to range.duration.rate -
        range.duration.value * (k : ℚ) +
        value.duration.value_rescaled_to range.duration.rate ≤ range.duration.value)) :
    loopRanges value range =
      [⟨⟨range.start_time.value_rescaled_to range.duration.rate +
            (value.start_time.value_rescaled_to range.duration.rate -
              range.start_time.value_rescaled_to range.duration.rate -
              range.duration.value * (k : ℚ)), range.duration.rate⟩,
          ⟨range.duration.value -
            (value.start_time.value_rescaled_to range.duration.rate -
              range.start_time.value_rescaled_to range.duration.rate -
              range.duration.value * (k : ℚ)), range.duration.rate⟩⟩,
        ⟨⟨range.start_time.value_rescaled_to range.duration.rate, range.duration.rate⟩,
          ⟨value.duration.value_rescaled_to range.duration.rate -
            (range.duration.value -
              (value.start_time.value_rescaled_to range.duration.rate -
                range.start_time.value_rescaled_to range.duration.rate -
                range.duration.value * (k : ℚ))), range.duration.rate⟩⟩] := by
  unfold loopRanges
  rw [if_neg h1, if_neg h2]
  simp only []
  rw [hk, if_neg h3]

/-- What crossing one boundary means in frames at the rate of the duration of
the in/out range: the floor that wraps the start is -1 across the start and 0
across the end, and the wrapped range reaches past the end of the in/out
range. -/
theorem loopRanges_crossing_floor (value range : TimeRange) (hv : value.valid)
    (hr : range.valid) (hshort : value.duration.lt range.duration)
    (hcross : (value.start_time.lt range.start_time ∧
        range.start_time.lt value.end_time_exclusive) ∨
      (range.start_time.le value.start_time ∧
        value.start_time.lt range.end_time_exclusive ∧
        range.end_time_exclusive.lt value.end_time_exclusive)) :
    ∃ k : ℤ,
      ⌊(value.start_time.value_rescaled_to range.duration.rate -
        range.start_time.value_rescaled_to range.duration.rate) / range.duration.value⌋ = k ∧
      ¬ (value.start_time.ge range.start_time ∧
        value.end_time_exclusive.le range.end_time_exclusive) ∧
      ¬ (value.start_time.value_rescaled_to range.duration.rate -
          range.start_time.value_rescaled_to range.duration.rate -
          range.duration.value * (k : ℚ) +
          value.duration.value_rescaled_to range.duration.rate ≤ range.duration.value) ∧
      ((value.start_time.lt range.start_time → k = -1) ∧
        (range.start_time.le value.start_time → k = 0)) := by
  have hrate := hr.2
  have hr0 : range.duration.rate ≠ 0 := ne_of_gt hrate
  have ea := RationalTime.value_rescaled_to_div value.start_time range.duration.rate
    (ne_of_gt hv.1) hr0
  have es := RationalTime.value_rescaled_to_div range.start_time range.duration.rate
    (ne_of_gt hr.1) hr0
  have en := RationalTime.value_rescaled_to_div value.duration range.duration.rate
    (ne_of_gt hv.2) hr0
  have eve := TimeRange.to_seconds_end_time_exclusive value hv
  have ere := TimeRange.to_seconds_end_time_exclusive range hr
  have hs := (RationalTime.lt_iff _ _).1 hshort
  have ed : range.duration.to_seconds = range.duration.value / range.duration.rate := rfl
  rw [← en, ed] at hs
  rw [← en, ← ea, ← add_div] at eve
  rw [← es, ed, ← add_div] at ere
  rw [div_lt_div_iff_of_pos_right hrate] at hs
  rcases hcross with ⟨c1, c2⟩ | ⟨c1, c2, c3⟩
  · have c1s := (RationalTime.lt_iff _ _).1 c1
    have c2s := (RationalTime.lt_iff _ _).1 c2
    rw [← ea, ← es] at c1s
    rw [eve, ← es] at c2s
    rw [div_lt_div_iff_of_pos_right hrate] at c1s c2s
    have hd : 0 < range.duration.value := by linarith
    refine ⟨-1, ?_, ?_, ?_, fun _ => rfl, fun h => ?_⟩
    · rw [Int.floor_eq_iff]
      constructor
      · rw [le_div_iff₀ hd]
        push_cast
        linarith
      · rw [div_lt_iff₀ hd]
        push_cast
        linarith
    · rintro ⟨h, _⟩
      exact c1 h
    · push_cast
      linarith
    · have := (RationalTime.le_iff _ _).1 h
      rw [← ea, ← es, div_le_div_iff_of_pos_right hrate] at this
      linarith
  · have c1s := (RationalTime.le_iff _ _).1 c1
    have c2s := (RationalTime.lt_iff _ _).1 c2
    have c3s := (RationalTime.lt_iff _ _).1 c3
    rw [← ea, ← es] at c1s
    rw [ere, ← ea] at c2s
    rw [ere, eve] at c3s
    rw [div_le_div_iff_of_pos_right hrate] at c1s
    rw [div_lt_div_iff_of_pos_right hrate] at c2s c3s
    have hd : 0 < range.duration.value := by linarith
    refine ⟨0, ?_, ?_, ?_, fun h => ?_, fun _ => rfl⟩
    · rw [Int.floor_eq_iff]
      constructor
      · rw [le_div_iff₀ hd]
        push_cast
        linarith
      · rw [div_lt_iff₀ hd]
        push_cast
        linarith
    · rintro ⟨_, h⟩
      exact c3 ((RationalTime.ge_iff _ _).2 ((RationalTime.le_iff _ _).1 h))
    · push_cast
      linarith
    · have := (RationalTime.lt_iff _ _).1 h
      rw [← ea, ← es, div_lt_div_iff_of_pos_right hrate] at this
      linarith

theorem loopRanges_cross_start (r : ℚ) (a s n d : ℤ) (hr : 0 < r) (hnd : n < d)
    (h1 : a < s) (h2 : s ≤ a + n - 1) :
    loopRanges ⟨⟨a, r⟩, ⟨n, r⟩⟩ ⟨⟨s, r⟩, ⟨d, r⟩⟩ =
      [⟨⟨((a + d : ℤ) : ℚ), r⟩, ⟨((s - a : ℤ) : ℚ), r⟩⟩,
        ⟨⟨s, r⟩, ⟨((a + n - s : ℤ) : ℚ), r⟩⟩] := by
  have hdq : (0 : ℚ) < d := by
    have : (0 : ℤ) < d := by omega
    exact_mod_cast this
  have hndq : (n : ℚ) < d := by exact_mod_cast hnd
  have h1q : (a : ℚ) < s := by exact_mod_cast h1
  have h2q : (s : ℚ) ≤ a + n - 1 := by exact_mod_cast h2
  rw [loopRanges_wrap_eq _ _ (-1)]
  · simp only [RationalTime.value_rescaled_to, if_true]
    push_cast
    simp only [List.cons.injEq, TimeRange.mk.injEq, RationalTime.mk.injEq, and_true]
    exact ⟨⟨by ring, by ring⟩, trivial, by ring⟩
  · rw [RationalTime.ge_mk _ _ _ hr]
    linarith
  · rintro ⟨h, _⟩
    rw [RationalTime.ge_mk _ _ _ hr] at h
    linarith
  · simp only [RationalTime.value_rescaled_to, if_true]
    rw [Int.floor_eq_iff]
    constructor
    · rw [le_div_iff₀ hdq]
      push_cast
      linarith
    · rw [div_lt_iff₀ hdq]
      push_cast
      linarith
  · simp only [RationalTime.value_rescaled_to, if_true]
    push_cast
    linarith

theorem loopRanges_cross_end (r : ℚ) (a s n d : ℤ) (hr : 0 < r) (hnd : n < d)
    (h1 : s ≤ a) (h2 : a ≤ s + d - 1) (h3 : s + d - 1 < a + n - 1) :
    loopRanges ⟨⟨a, r⟩, ⟨n, r⟩⟩ ⟨⟨s, r⟩, ⟨d, r⟩⟩ =
      [⟨⟨a, r⟩, ⟨((s + d - a : ℤ) : ℚ), r⟩⟩,
        ⟨⟨s, r⟩, ⟨((a + n - (s + d) : ℤ) : ℚ), r⟩⟩] := by
  have hdq : (0 : ℚ) < d := by
    have : (0 : ℤ) < d := by omega
    exact_mod_cast this
  have hndq : (n : ℚ) < d := by exact_mod_cast hnd
  have h1q : (s : ℚ) ≤ a := by exact_mod_cast h1
  have h2q : (a : ℚ) ≤ s + d - 1 := by exact_mod_cast h2
  have h3q : (s : ℚ) + d - 1 < a + n - 1 := by exact_mod_cast h3
  rw [loopRanges_wrap_eq _ _ 0]
  · simp only [RationalTime.value_rescaled_to, if_true]
    push_cast
    simp only [List.cons.injEq, TimeRange.mk.injEq, RationalTime.mk.injEq, and_true]
    exact ⟨⟨by ring, by ring⟩, trivial, by ring⟩
  · rw [RationalTime.ge_mk _ _ _ hr]
    linarith
  · rintro ⟨_, h⟩
    rw [TimeRange.end_time_exclusive_mk, TimeRange.end_time_exclusive_mk,
      RationalTime.le_mk _ _ _ hr] at h
    linarith
  · simp only [RationalTime.value_rescaled_to, if_true]
    rw [Int.floor_eq_iff]
    constructor
    · rw [le_div_iff₀ hdq]
      push_cast
      linarith
    · rw [div_lt_iff₀ hdq]
      push_cast
      linarith
  · simp only [RationalTime.value_rescaled_to, if_true]
    push_cast
    linarith


/-- C29: a raw range shorter than the in/out range that crosses exactly one
boundary of it is looped into two ranges.  Their durations sum to the duration
of the raw range, the first ends where the in/out range ends and the second
starts at the start of the in/out range, taken at the rate of its duration.
For ranges in whole frames at one rate, which are the ranges `cacheUpdate`
builds, the durations sum to the `n` frames of the raw range, the first range
ends at the inclusive end of the in/out range, and the two ranges are
`[a + d, s - a frames)` and `[s, a + n - s frames)` across the start,
`[a, s + d - a frames)` and `[s, a + n - (s + d) frames)` across the end. -/
theorem loopRanges_crossing (value range : TimeRange) (hv : value.valid)
    (hr : range.valid) (hshort : value.duration.lt range.duration)
    (hcross : (value.start_time.lt range.start_time ∧
        range.start_time.lt value.end_time_exclusive) ∨
      (range.start_time.le value.start_time ∧
        value.start_time.lt range.end_time_exclusive ∧
        range.end_time_exclusive.lt value.end_time_exclusive)) :
    ∃ first second : TimeRange,
      loopRanges value range = [first, second] ∧
      first.duration.to_seconds + second.duration.to_seconds = value.duration.to_seconds ∧
      first.end_time_exclusive = range.end_time_exclusive ∧
      second.start_time = range.start_time.rescaled_to range.duration.rate ∧
      (∀ (q : ℚ) (a s n d : ℤ), value = ⟨⟨a, q⟩, ⟨n, q⟩⟩ → range = ⟨⟨s, q⟩, ⟨d, q⟩⟩ →
        first.duration.value + second.duration.value = n ∧
        first.end_time_inclusive = range.end_time_inclusive ∧
        second.start_time = range.start_time ∧
        (a < s → first = ⟨⟨((a + d : ℤ) : ℚ), q⟩, ⟨((s - a : ℤ) : ℚ), q⟩⟩ ∧
          second = ⟨⟨s, q⟩, ⟨((a + n - s : ℤ) : ℚ), q⟩⟩) ∧
        (s ≤ a → first = ⟨⟨a, q⟩, ⟨((s + d - a : ℤ) : ℚ), q⟩⟩ ∧
          second = ⟨⟨s, q⟩, ⟨((a + n - (s + d) : ℤ) : ℚ), q⟩⟩)) := by
  obtain ⟨k, hk, h2, h3, _, _⟩ := loopRanges_crossing_floor value range hv hr hshort hcross
  have heq := loopRanges_wrap_eq value range k hshort h2 hk h3
  have hr0 : range.duration.rate ≠ 0 := ne_of_gt hr.2
  have en := RationalTime.value_rescaled_to_div value.duration range.duration.rate
    (ne_of_gt hv.2) hr0
  have key : ∃ first second : TimeRange,
      loopRanges value range = [first, second] ∧
      first.duration.to_seconds + second.duration.to_seconds = value.duration.to_seconds ∧
      first.end_time_exclusive = range.end_time_exclusive ∧
      second.start_time = range.start_time.rescaled_to range.duration.rate := by
    refine ⟨_, _, heq, ?_, ?_, rfl⟩
    · rw [← en]
      simp only [RationalTime.to_seconds]
      rw [← add_div]
      congr 1
      ring
    · rw [TimeRange.end_time_exclusive_mk, TimeRange.end_time_exclusive_eq range]
      congr 1
      ring
  obtain ⟨first, second, hl, hsum, hend, hstart⟩ := key
  refine ⟨first, second, hl, hsum, hend, hstart, ?_⟩
  intro q a s n d hval hrange
  subst hval
  subst hrange
  have hq : 0 < q := hr.2
  have hnd : n < d := by
    have := (RationalTime.lt_mk _ _ _ hq).1 hshort
    exact_mod_cast this
  have hd : (1 : ℚ) < d := by
    rcases hcross with ⟨c1, c2⟩ | ⟨c1, c2, c3⟩
    · rw [RationalTime.lt_mk _ _ _ hq] at c1
      rw [TimeRange.end_time_exclusive_mk, RationalTime.lt_mk _ _ _ hq] at c2
      have c1z : a < s := by exact_mod_cast c1
      have c2z : s < a + n := by exact_mod_cast c2
      have : (1 : ℤ) < d := by omega
      exact_mod_cast this
    · rw [RationalTime.le_mk _ _ _ hq] at c1
      rw [TimeRange.end_time_exclusive_mk, RationalTime.lt_mk _ _ _ hq] at c2
      rw [TimeRange.end_time_exclusive_mk, TimeRange.end_time_exclusive_mk,
        RationalTime.lt_mk _ _ _ hq] at c3
      have c1z : s ≤ a := by exact_mod_cast c1
      have c2z : a < s + d := by exact_mod_cast c2
      have c3z : s + d < a + n := by exact_mod_cast c3
      have : (1 : ℤ) < d := by omega
      exact_mod_cast this
  rcases hcross with ⟨c1, c2⟩ | ⟨c1, c2, c3⟩
  · rw [RationalTime.lt_mk _ _ _ hq] at c1
    rw [TimeRange.end_time_exclusive_mk, RationalTime.lt_mk _ _ _ hq] at c2
    have c1z : a < s := by exact_mod_cast c1
    have c2z : s < a + n := by exact_mod_cast c2
    have h := loopRanges_cross_start q a s n d hq hnd c1z (by omega)
    rw [hl] at h
    simp only [List.cons.injEq, and_true] at h
    obtain ⟨hF, hS⟩ := h
    subst hF
    subst hS
    refine ⟨?_, ?_, rfl, fun _ => ⟨rfl, rfl⟩, fun h => absurd h (by omega)⟩
    · push_cast
      ring
    · rw [TimeRange.end_time_inclusive_mk, TimeRange.end_time_inclusive_mk, if_pos hd]
      by_cases h : (1 : ℚ) < ((s - a : ℤ) : ℚ)
      · rw [if_pos h]
        push_cast
        congr 1
        ring
      · rw [if_neg h]
        have hsa : s = a + 1 := by
          have : ¬ ((1 : ℤ) < s - a) := by
            intro hh
            exact h (by exact_mod_cast hh)
          omega
        have : (s : ℚ) = a + 1 := by exact_mod_cast hsa
        push_cast
        congr 1
        rw [this]
        ring
  · rw [RationalTime.le_mk _ _ _ hq] at c1
    rw [TimeRange.end_time_exclusive_mk, RationalTime.lt_mk _ _ _ hq] at c2
    rw [TimeRange.end_time_exclusive_mk, TimeRange.end_time_exclusive_mk,
      RationalTime.lt_mk _ _ _ hq] at c3
    have c1z : s ≤ a := by exact_mod_cast c1
    have c2z : a < s + d := by exact_mod_cast c2
    have c3z : s + d < a + n := by exact_mod_cast c3
    have h := loopRanges_cross_end q a s n d hq hnd c1z (by omega) (by omega)
    rw [hl] at h
    simp only [List.cons.injEq, and_true] at h
    obtain ⟨hF, hS⟩ := h
    subst hF
    subst hS
    refine ⟨?_, ?_, rfl, fun h => absurd h (by omega), fun _ => ⟨rfl, rfl⟩⟩
    · push_cast
      ring
    · rw [TimeRange.end_time_inclusive_mk, TimeRange.end_time_inclusive_mk, if_pos hd]
      by_cases h : (1 : ℚ) < ((s + d - a : ℤ) : ℚ)
      · rw [if_pos h]
        push_cast
        congr 1
        ring
      · rw [if_neg h]
        have hsa : a = s + d - 1 := by
          have : ¬ ((1 : ℤ) < s + d - a) := by
            intro hh
            exact h (by exact_mod_cast hh)
          omega
        have : (a : ℚ) = s + d - 1 := by exact_mod_cast hsa
        congr 1

/-- C29 at the ranges of `PlayerTest::_loop`: against `[0/24, 24 frames)` the
raw range `[-10/24, 20 frames)` crosses the start and gives
`[14/24, 10 frames)` and `[0/24, 10 frames)`, and `[10/24, 20 frames)` crosses
the end and gives `[10/24, 14 frames)` and `[0/24, 6 frames)`; in both the
durations sum to 20 frames, the first range ends at the inclusive end `23/24`
and the second starts at `0/24`. -/
theorem loopRanges_crossing_witness :
    loopRanges ⟨⟨-10, 24⟩, ⟨20, 24⟩⟩ ⟨⟨0, 24⟩, ⟨24, 24⟩⟩ =
      [⟨⟨14, 24⟩, ⟨10, 24⟩⟩, ⟨⟨0, 24⟩, ⟨10, 24⟩⟩] ∧
    loopRanges ⟨⟨10, 24⟩, ⟨20, 24⟩⟩ ⟨⟨0, 24⟩, ⟨24, 24⟩⟩ =
      [⟨⟨10, 24⟩, ⟨14, 24⟩⟩, ⟨⟨0, 24⟩, ⟨6, 24⟩⟩] ∧
    TimeRange.end_time_inclusive ⟨⟨14, 24⟩, ⟨10, 24⟩⟩ =
      TimeRange.end_time_inclusive ⟨⟨0, 24⟩, ⟨24, 24⟩⟩ ∧
    TimeRange.end_time_inclusive ⟨⟨10, 24⟩, ⟨14, 24⟩⟩ =
      TimeRange.end_time_inclusive ⟨⟨0, 24⟩, ⟨24, 24⟩⟩ ∧
    (∃ first second : TimeRange,
      loopRanges ⟨⟨-10, 24⟩, ⟨20, 24⟩⟩ ⟨⟨0, 24⟩, ⟨24, 24⟩⟩ = [first, second] ∧
      first.duration.to_seconds + second.duration.to_seconds =
        RationalTime.to_seconds ⟨20, 24⟩ ∧
      first.end_time_exclusive = TimeRange.end_time_exclusive ⟨⟨0, 24⟩, ⟨24, 24⟩⟩ ∧
      second.start_time = RationalTime.rescaled_to ⟨0, 24⟩ 24) ∧
    (∃ first second : TimeRange,
      loopRanges ⟨⟨10, 24⟩, ⟨20, 24⟩⟩ ⟨⟨0, 24⟩, ⟨24, 24⟩⟩ = [first, second] ∧
      first.duration.to_seconds + second.duration.to_seconds =
        RationalTime.to_seconds ⟨20, 24⟩ ∧
      first.end_time_exclusive = TimeRange.end_time_exclusive ⟨⟨0, 24⟩, ⟨24, 24⟩⟩ ∧
      second.start_time = RationalTime.rescaled_to ⟨0, 24⟩ 24) :=
  ⟨by decide!, by decide!, by decide!, by decide!,
    match loopRanges_crossing ⟨⟨-10, 24⟩, ⟨20, 24⟩⟩ ⟨⟨0, 24⟩, ⟨24, 24⟩⟩ (by decide!)
      (by decide!) (by decide!) (Or.inl (by decide!)) with
    | ⟨first, second, h1, h2, h3, h4, _⟩ => ⟨first, second, h1, h2, h3, h4⟩,
    match loopRanges_crossing ⟨⟨10, 24⟩, ⟨20, 24⟩⟩ ⟨⟨0, 24⟩, ⟨24, 24⟩⟩ (by decide!)
      (by decide!) (by decide!) (Or.inr (by decide!)) with
    | ⟨first, second, h1, h2, h3, h4, _⟩ => ⟨first, second, h1, h2, h3, h4⟩⟩

end tl.timeline

/-! ## The size of an image as text -/

namespace tl.image

theorem digitChar_isDecimal (k : ℕ) (hk : k < 10) :
    isDecimal (Nat.digitChar k) ∧ (Nat.digitChar k).toNat - 48 = k := by
  interval_cases k <;> exact ⟨⟨by decide, by decide, by decide, by decide, by decide, by decide⟩,
    by decide⟩

theorem toDigitsCore_spec (fuel n : ℕ) (ds : List Char) (h : n < fuel) :
    ∃ l : List Char, Nat.toDigitsCore 10 fuel n ds = l ++ ds ∧ l ≠ [] ∧
      (∀ c ∈ l, isDecimal c) ∧
      l.foldl (fun acc c => acc * 10 + (c.toNat - 48)) 0 = n := by
  induction fuel generalizing n ds with
  | zero => exact absurd h (Nat.not_lt_zero _)
  | succ fuel ih =>
    have hd := digitChar_isDecimal (n % 10) (Nat.mod_lt _ (by norm_num))
    unfold Nat.toDigitsCore
    simp only []
    by_cases h0 : n / 10 = 0
    · rw [if_pos h0]
      refine ⟨[Nat.digitChar (n % 10)], rfl, by simp, ?_, ?_⟩
      · intro c hc
        rw [List.mem_singleton.1 hc]
        exact hd.1
      · simp only [List.foldl_cons, List.foldl_nil, hd.2]
        omega
    · rw [if_neg h0]
      obtain ⟨l, hl, hne, hdec, hfold⟩ := ih (n / 10) (Nat.digitChar (n % 10) :: ds) (by omega)
      refine ⟨l ++ [Nat.digitChar (n % 10)], ?_, by simp, ?_, ?_⟩
      · rw [hl]
        simp
      · intro c hc
        rcases List.mem_append.1 hc with hc | hc
        · exact hdec c hc
        · rw [List.mem_singleton.1 hc]
          exact hd.1
      · rw [List.foldl_append, hfold]
        simp only [List.foldl_cons, List.foldl_nil, hd.2]
        omega

theorem showNat_spec (n : ℕ) :
    showNat n ≠ [] ∧ (∀ c ∈ showNat n, isDecimal c) ∧
    (showNat n).foldl (fun acc c => acc * 10 + (c.toNat - 48)) 0 = n := by
  obtain ⟨l, hl, hne, hdec, hfold⟩ := toDigitsCore_spec (n + 1) n [] (Nat.lt_succ_self n)
  have e : showNat n = l := by
    unfold showNat Nat.toDigits
    rw [hl, List.append_nil]
  rw [e]
  exact ⟨hne, hdec, hfold⟩

theorem stoi_decimal (l : List Char) (hne : l ≠ []) (hdec : ∀ c ∈ l, isDecimal c)
    (hlt : l.foldl (fun acc c => acc * 10 + (c.toNat - 48)) 0 < 2 ^ 31) :
    stoi l = some ((l.foldl (fun acc c => acc * 10 + (c.toNat - 48)) 0 : ℕ) : ℤ) := by
  obtain ⟨c, t, rfl⟩ := List.exists_cons_of_ne_nil hne
  have hc := hdec c (List.mem_cons_self _ _)
  have hdrop : (c :: t).dropWhile isSpace = c :: t := by
    rw [List.dropWhile_cons_of_neg]
    simp [hc.2.1]
  have htake : (c :: t).takeWhile Char.isDigit = c :: t := by
    rw [List.takeWhile_eq_self_iff]
    intro x hx
    exact (hdec x hx).1
  unfold stoi
  simp only [hdrop]
  have hm : (match c :: t with
      | '-' :: t => (true, t)
      | '+' :: t => (false, t)
      | _ => (false, c :: t)) = (false, c :: t) := by
    split
    · rename_i heq
      exact absurd (List.cons.inj heq).1 hc.2.2.2.2.1
    · rename_i heq
      exact absurd (List.cons.inj heq).1 hc.2.2.2.2.2
    · rfl
  rw [hm]
  simp only [htake]
  rw [if_neg (List.cons_ne_nil _ _)]
  simp only [Bool.false_eq_true, if_false]
  rw [if_pos]
  constructor
  · have : (0 : ℤ) ≤ ((List.foldl (fun acc c => acc * 10 + (c.toNat - 48)) 0 (c :: t) : ℕ) : ℤ) :=
      Int.natCast_nonneg _
    have h2 : (-(2 : ℤ) ^ 31) ≤ 0 := by norm_num
    exact le_trans h2 this
  · exact_mod_cast hlt

theorem readString_of_no_space (l : List Char) (h : ∀ c ∈ l, isSpace c = false) :
    readString l = (l, []) := by
  unfold readString
  have hdrop : l.dropWhile isSpace = l := by
    cases l with
    | nil => rfl
    | cons c t =>
      rw [List.dropWhile_cons_of_neg]
      simp [h c (List.mem_cons_self _ _)]
  rw [hdrop]
  have htake : l.takeWhile (fun c => ! isSpace c) = l := by
    rw [List.takeWhile_eq_self_iff]
    intro x hx
    simp [h x hx]
  have hdrop2 : l.dropWhile (fun c => ! isSpace c) = [] := by
    rw [List.dropWhile_eq_nil_iff]
    intro x hx
    simp [h x hx]
  rw [htake, hdrop2]

theorem split_single (l : List Char) (d : Char) (hne : l ≠ []) (h : ∀ c ∈ l, c ≠ d) :
    string.split l d = [l] := by
  unfold string.split List.splitOn
  rw [List.splitOnP_eq_single]
  · simp [hne]
  · intro x hx
    simpa using h x hx

theorem split_pair (l1 l2 : List Char) (d : Char) (h1 : l1 ≠ []) (h2 : l2 ≠ [])
    (hd1 : ∀ c ∈ l1, c ≠ d) (hd2 : ∀ c ∈ l2, c ≠ d) :
    string.split (l1 ++ [d] ++ l2) d = [l1, l2] := by
  unfold string.split
  have e : l1 ++ [d] ++ l2 = [d].intercalate [l1, l2] := by
    simp [List.intercalate]
  rw [e, List.splitOn_intercalate]
  · simp [h1, h2]
  · intro l hl hmem
    rcases List.mem_cons.1 hl with hl | hl
    · exact hd1 d (hl ▸ hmem) rfl
    · rw [List.mem_singleton.1 hl] at hmem
      exact hd2 d hmem rfl
  · exact List.cons_ne_nil _ _

end tl.image

namespace tl.image

/-- C23: the text of a size reads back as the size.  For every size of pixel
aspect ratio 1, the width and the height being 16 bit numbers, `operator<<`
writes the width, `x` and the height, and `operator>>` reads that text back,
to the end, as the same size, into the default size as in `ImageTest::_size`
and into any size whose pixel aspect ratio is 1. -/
theorem size_roundtrip (showFloat : ℚ → List Char) (stof : List Char → Option ℚ) (w h : ℕ)
    (hw : w < 2 ^ 16) (hh : h < 2 ^ 16) :
    writeSize showFloat ⟨w, h, 1⟩ = showNat w ++ ['x'] ++ showNat h ∧
    readSize stof (writeSize showFloat ⟨w, h, 1⟩) Size.default = some (⟨w, h, 1⟩, []) ∧
    (∀ out : Size, out.pixelAspectRatio = 1 →
      readSize stof (writeSize showFloat ⟨w, h, 1⟩) out = some (⟨w, h, 1⟩, [])) := by
  obtain ⟨w1, w2, w3⟩ := showNat_spec w
  obtain ⟨h1, h2, h3⟩ := showNat_spec h
  have htext : writeSize showFloat ⟨w, h, 1⟩ = showNat w ++ ['x'] ++ showNat h := by
    simp [writeSize]
  have hmem : ∀ c ∈ showNat w ++ ['x'] ++ showNat h, isDecimal c ∨ c = 'x' := by
    intro c hc
    simp only [List.mem_append, List.mem_singleton] at hc
    rcases hc with (hc | hc) | hc
    · exact Or.inl (w2 c hc)
    · exact Or.inr hc
    · exact Or.inl (h2 c hc)
  have hread : readString (showNat w ++ ['x'] ++ showNat h) =
      (showNat w ++ ['x'] ++ showNat h, []) := by
    apply readString_of_no_space
    intro c hc
    rcases hmem c hc with hd | hx
    · exact hd.2.1
    · rw [hx]
      decide
  have hcolon : string.split (showNat w ++ ['x'] ++ showNat h) ':' =
      [showNat w ++ ['x'] ++ showNat h] := by
    apply split_single
    · simp
    · intro c hc
      rcases hmem c hc with hd | hx
      · exact hd.2.2.2.1
      · rw [hx]
        decide
  have hx : string.split (showNat w ++ ['x'] ++ showNat h) 'x' = [showNat w, showNat h] :=
    split_pair _ _ _ w1 h1 (fun c hc => (w2 c hc).2.2.1) (fun c hc => (h2 c hc).2.2.1)
  have hsw : stoi (showNat w) = some (w : ℤ) := by
    have := stoi_decimal (showNat w) w1 w2 (by rw [w3]; omega)
    rw [w3] at this
    exact this
  have hsh : stoi (showNat h) = some (h : ℤ) := by
    have := stoi_decimal (showNat h) h1 h2 (by rw [h3]; omega)
    rw [h3] at this
    exact this
  have hwm : ((w : ℤ) % 2 ^ 16).toNat = w := by
    have : (w : ℤ) % 2 ^ 16 = w := Int.emod_eq_of_lt (Int.natCast_nonneg _) (by exact_mod_cast hw)
    rw [this]
    simp
  have hhm : ((h : ℤ) % 2 ^ 16).toNat = h := by
    have : (h : ℤ) % 2 ^ 16 = h := Int.emod_eq_of_lt (Int.natCast_nonneg _) (by exact_mod_cast hh)
    rw [this]
    simp
  have key : ∀ out : Size, out.pixelAspectRatio = 1 →
      readSize stof (writeSize showFloat ⟨w, h, 1⟩) out = some (⟨w, h, 1⟩, []) := by
    intro out hout
    obtain ⟨ow, oh, op⟩ := out
    simp only at hout
    subst hout
    rw [htext]
    unfold readSize
    simp only [hread, hcolon, List.length_singleton, List.getD_cons_zero, hx]
    simp [hsw, hsh]
    norm_num at hwm hhm
    exact ⟨hwm, hhm⟩
  exact ⟨htext, key Size.default rfl, key⟩

/-- C23 at the size of `ImageTest::_size`: `Size(1, 2)` is written as `1x2` and
read back as `Size(1, 2)`. -/
theorem size_roundtrip_witness :
    writeSize (fun _ => []) ⟨1, 2, 1⟩ = ['1', 'x', '2'] ∧
    readSize (fun _ => none) (writeSize (fun _ => []) ⟨1, 2, 1⟩) Size.default =
      some (⟨1, 2, 1⟩, []) :=
  ⟨by decide,
    (size_roundtrip (fun _ => []) (fun _ => none) 1 2 (by norm_num) (by norm_num)).2.1⟩

end tl.image
